import Mathlib

/-!
# Chimp scan state, prepared statements and the mark join

Shallow embeddings of

* `duckdb/common/chimp/chimp_scan.hpp`: `ChimpGroupState`, `ChimpScanState<T>` and the free
  functions `ChimpScanPartial` / `ChimpSkip` / `ChimpScan`;
* `main/prepared_statement_data.cpp`: `PreparedStatementData::Bind` and
  `PreparedStatementData::ResetResultValueEntry`;
* `execution/nested_loop_join/nested_loop_join_mark.cpp`: `NestedLoopJoinMark::Perform` and the
  functions it calls.

Conventions of the embedding of the Chimp scan:

* Machine integers are natural numbers; a reduction modulo `2^w` is written wherever the C++
  arithmetic can wrap.
* The arrays `flags` and `leading_zeros` have `CHIMP_SEQUENCE_SIZE + 1` entries.  An access outside
  an array is undefined behaviour in C++; here it ends the execution with a `Fault`.
* `D_ASSERT` is compiled out of release builds.  The embedding follows the release build and
  records, for every `D_ASSERT` it passes, whether the asserted condition held (a ghost event).
  A debug build aborts at the first recorded `false`.
* Every execution carries a ghost log of the calls it made (`Event`).  The log is never read by
  the program.
-/

namespace duckdb

/-! ## Executions -/

/-- The ways in which an execution leaves defined behaviour. -/
inductive Fault where
  /-- The method `GetFlag` took `flags[i]` with `i` outside the array. -/
  | flags_read
  /-- A write of `flags[i]` with `i` outside the array. -/
  | flags_write
  /-- The method `GetLeadingZero` took `leading_zeros[i]` with `i` outside the array. -/
  | leading_zeros_read
  /-- A write of `leading_zeros[i]` with `i` outside the array. -/
  | leading_zeros_write
  /-- A write past the end of the discard buffer of `Skip`. -/
  | buffer_write
  /-- The iteration budget of a loop ran out (shown never to happen). -/
  | out_of_fuel
  deriving DecidableEq, Repr

/-- Ghost events: the calls an execution makes, in program order. -/
inductive Event where
  /-- A `D_ASSERT` at the given source line was passed; `holds` is the value of its condition. -/
  | D_ASSERT (line : Nat) (holds : Bool)
  /-- A call of `ChimpGroupState::GetFlag`; it returns a reference to `flags[index]`. -/
  | GetFlag (index : Nat)
  /-- A call of `ChimpGroupState::GetLeadingZero`; it returns a reference to
  `leading_zeros[leading_zero_index]`. -/
  | GetLeadingZero (leading_zero_index : Nat)
  /-- A call of `ChimpGroupState::IncreaseLeadingZeroIndex`. -/
  | IncreaseLeadingZeroIndex
  /-- A call of `ChimpGroupState::Load` with its four arguments. -/
  | GroupState_Load (packed_flags packed_leading_zeros : Int) (group_size leading_zero_block_size : Nat)
  /-- A call of `Chimp128DecompressionState::Reset`. -/
  | Reset
  /-- A call of `Chimp128Decompression::LoadFirst`. -/
  | LoadFirst
  /-- A call of `Chimp128Decompression::DecompressValue` with the flag and class passed and the
  boolean returned. -/
  | DecompressValue (flag leading_zero : Nat) (refresh_leading_zero : Bool)
  /-- A call of `Chimp128Decompression::Load` with the flag and class passed and the boolean
  returned. -/
  | Chimp_Load (flag leading_zero : Nat) (refresh_leading_zero : Bool)
  /-- A `Load<uint32_t>` at the given address. -/
  | Load_uint32 (addr : Int)
  /-- A `Load<uint16_t>` at the given address. -/
  | Load_uint16 (addr : Int)
  /-- A `Load<uint8_t>` at the given address. -/
  | Load_uint8 (addr : Int)
  /-- A call of `ChimpScanState::LoadGroup`. -/
  | LoadGroup
  /-- A call of `ChimpScanState::ScanGroup` with its `group_size`. -/
  | ScanGroup (group_size : Nat)
  /-- A call of `ChimpScanState::ScanPartialGroup` with its `group_size`. -/
  | ScanPartialGroup (group_size : Nat)
  deriving DecidableEq, Repr

/-- An execution: the ghost log of what was done, and the value returned unless the execution
left defined behaviour. -/
structure Exec (α : Type) where
  /-- The events in program order. -/
  log : List Event
  /-- The value returned, or the fault that ended the execution. -/
  result : Except Fault α

/-- Return a value, doing nothing. -/
def Exec.ret {α : Type} (a : α) : Exec α := ⟨[], .ok a⟩

/-- Sequencing: the second part runs only when the first has returned. -/
def Exec.seq {α β : Type} (x : Exec α) (f : α → Exec β) : Exec β :=
  match x.result with
  | .ok a => ⟨x.log ++ (f a).log, (f a).result⟩
  | .error e => ⟨x.log, .error e⟩

instance : Monad Exec where
  pure := Exec.ret
  bind := Exec.seq

/-- Record one ghost event. -/
def Exec.emit (e : Event) : Exec Unit := ⟨[e], .ok ()⟩

/-- Leave defined behaviour. -/
def Exec.fault {α : Type} (e : Fault) : Exec α := ⟨[], .error e⟩

/-- The macro `D_ASSERT(cond)` at source line `line`: no effect on the release build; the
outcome of the condition is recorded. -/
def D_ASSERT (line : Nat) (cond : Bool) : Exec Unit := Exec.emit (.D_ASSERT line cond)

/-! ## Collaborators that are not among the sources -/

/-- Modelled from the spec: `ChimpPrimitives::CHIMP_SEQUENCE_SIZE` (declared in `chimp.hpp`,
which is not among the sources): a group holds `G = 1024` values. -/
def CHIMP_SEQUENCE_SIZE : Nat := 1024

/-- Modelled from the spec: `ChimpPrimitives::HEADER_SIZE` (declared in `chimp.hpp`, which is not
among the sources): `HEADER_SIZE = sizeof(uint32)`. -/
def HEADER_SIZE : Nat := 4

/-- The Chimp128 value decoder (`chimp128.hpp`, not among the sources), taken as a parameter.
`CS` is `Chimp128DecompressionState` (it owns the payload bit-stream cursor), `V` the decoded
value type.  Each function returns what the C++ function writes through its reference
arguments. -/
structure Chimp128Decompression (CS V : Type) where
  /-- The default-constructed decompression state. -/
  init : CS
  /-- The call `chimp_state.input.SetStream(ptr)`. -/
  SetStream : Int → CS → CS
  /-- The call `chimp_state.Reset()`. -/
  Reset : CS → CS
  /-- The call `LoadFirst(value, state)`. -/
  LoadFirst : CS → V × CS
  /-- The call `DecompressValue(value, flag, leading_zero, state)` and the boolean it returns. -/
  DecompressValue : Nat → Nat → CS → (V × Bool) × CS
  /-- The call `Load(value, flag, leading_zero, state)` and the boolean it returns. -/
  Load : Nat → Nat → CS → (V × Bool) × CS

/-- The pinned page as the scan reads it: `Load<T>` (`helper.hpp`), `FlagBuffer<false>` and
`LeadingZeroBuffer<false>` are not among the sources and are taken as parameters.  Addresses are
integers. -/
structure Page where
  /-- The value `Load<uint8_t>(ptr)`. -/
  Load_uint8 : Int → Fin 256
  /-- The value `Load<uint16_t>(ptr)`. -/
  Load_uint16 : Int → Fin 65536
  /-- The value `Load<uint32_t>(ptr)`. -/
  Load_uint32 : Int → Fin 4294967296
  /-- The value returned by the call number `i` (from 0) of `FlagBuffer::Extract` after
  `SetBuffer(ptr)`: the flag number `i` of the packed flag stream at `ptr` (a `uint8_t`). -/
  FlagBuffer_Extract : Int → Nat → Nat
  /-- The value returned by the call number `i` (from 0) of `LeadingZeroBuffer::Extract` after
  `SetBuffer(ptr)`: the class number `i` of the packed leading-zero stream at `ptr`. -/
  LeadingZeroBuffer_Extract : Int → Nat → Nat

/-- The fields of `ColumnSegment` the scan uses. -/
structure ColumnSegment where
  /-- The number of values stored in the segment (`idx_t`). -/
  count : Nat
  /-- The value of `GetBlockOffset()`. -/
  block_offset : Nat
  /-- The field `count` is an `idx_t`. -/
  count_lt : count < 18446744073709551616

/-! ## `ChimpGroupState` -/

/-- The struct `ChimpGroupState`.  The two arrays have `CHIMP_SEQUENCE_SIZE + 1` entries; only
the positions below that bound are part of the object. -/
structure ChimpGroupState where
  /-- The field `idx_t index`. -/
  index : Nat
  /-- The field `uint8_t flags[CHIMP_SEQUENCE_SIZE + 1]`. -/
  flags : Nat → Nat
  /-- The field `uint8_t leading_zeros[CHIMP_SEQUENCE_SIZE + 1]`. -/
  leading_zeros : Nat → Nat
  /-- The field `uint32_t leading_zero_index`. -/
  leading_zero_index : Nat
  /-- The field `idx_t max_flags_to_read`. -/
  max_flags_to_read : Nat
  /-- The field `idx_t max_leading_zeros_to_read`. -/
  max_leading_zeros_to_read : Nat

namespace ChimpGroupState

/-- The loop of `LoadFlags`: iterations `i, i+1, ..` (`k` of them), each
`flags[1 + i] = flag_buffer.Extract()`. -/
def LoadFlags.loop (P : Page) (packed_data : Int) : Nat → Nat → (Nat → Nat) → Exec (Nat → Nat)
  | 0, _, flags => pure flags
  | k + 1, i, flags =>
    if 1 + i < CHIMP_SEQUENCE_SIZE + 1 then
      LoadFlags.loop P packed_data k (i + 1) (Function.update flags (1 + i) (P.FlagBuffer_Extract packed_data i))
    else
      Exec.fault .flags_write

/-- The method `LoadFlags(packed_data, group_size)`. -/
def LoadFlags (P : Page) (g : ChimpGroupState) (packed_data : Int) (group_size : Nat) :
    Exec ChimpGroupState := do
  let flags := Function.update g.flags 0 0
  let flags ← LoadFlags.loop P packed_data group_size 0 flags
  pure { g with flags := flags, max_flags_to_read := group_size }

/-- The loop of `LoadLeadingZeros`: iterations `i, i+1, ..` (`k` of them), each
`leading_zeros[i] = leading_zero_buffer.Extract()`. -/
def LoadLeadingZeros.loop (P : Page) (packed_data : Int) : Nat → Nat → (Nat → Nat) → Exec (Nat → Nat)
  | 0, _, leading_zeros => pure leading_zeros
  | k + 1, i, leading_zeros =>
    if i < CHIMP_SEQUENCE_SIZE + 1 then
      LoadLeadingZeros.loop P packed_data k (i + 1)
        (Function.update leading_zeros i (P.LeadingZeroBuffer_Extract packed_data i))
    else
      Exec.fault .leading_zeros_write

/-- The method `LoadLeadingZeros(packed_data, leading_zero_block_size)`. -/
def LoadLeadingZeros (P : Page) (g : ChimpGroupState) (packed_data : Int)
    (leading_zero_block_size : Nat) : Exec ChimpGroupState := do
  let leading_zeros ← LoadLeadingZeros.loop P packed_data leading_zero_block_size 0 g.leading_zeros
  pure { g with leading_zeros := leading_zeros, max_leading_zeros_to_read := leading_zero_block_size }

/-- The method `Load(packed_flags, packed_leading_zeros, group_size, leading_zero_block_size)`. -/
def Load (P : Page) (g : ChimpGroupState) (packed_flags packed_leading_zeros : Int)
    (group_size leading_zero_block_size : Nat) : Exec ChimpGroupState := do
  Exec.emit (.GroupState_Load packed_flags packed_leading_zeros group_size leading_zero_block_size)
  let g ← g.LoadFlags P packed_flags group_size
  let g ← g.LoadLeadingZeros P packed_leading_zeros leading_zero_block_size
  pure { g with index := 0, leading_zero_index := 0 }

/-- The method `Started()`: `!!index`. -/
def Started (g : ChimpGroupState) : Bool := g.index != 0

/-- The method `IncreaseLeadingZeroIndex()`: `leading_zero_index++` on a `uint32_t`. -/
def IncreaseLeadingZeroIndex (g : ChimpGroupState) : Exec ChimpGroupState := do
  Exec.emit .IncreaseLeadingZeroIndex
  pure { g with leading_zero_index := (g.leading_zero_index + 1) % 4294967296 }

/-- The method `GetLeadingZero()`.  The assertion compares in `idx_t`.  The C++ method returns
a reference to the array element; the value behind it is returned here. -/
def GetLeadingZero (g : ChimpGroupState) : Exec Nat := do
  D_ASSERT 47 (decide (g.leading_zero_index ≤ (g.max_leading_zeros_to_read + 1) % 18446744073709551616))
  Exec.emit (.GetLeadingZero g.leading_zero_index)
  if g.leading_zero_index < CHIMP_SEQUENCE_SIZE + 1 then
    pure (g.leading_zeros g.leading_zero_index)
  else
    Exec.fault .leading_zeros_read

/-- The method `GetFlag()`: `return flags[index++]`.  The function-local `thread_local` counter
is written and never read; it counts the `GetFlag` events of the log and is not kept.  A read
inside the array has `index < 1025`, so `index++` does not wrap. -/
def GetFlag (g : ChimpGroupState) : Exec (Nat × ChimpGroupState) := do
  D_ASSERT 56 (decide (g.index ≤ g.max_flags_to_read))
  D_ASSERT 57 (decide (g.index ≤ 1024))
  Exec.emit (.GetFlag g.index)
  if g.index < CHIMP_SEQUENCE_SIZE + 1 then
    pure (g.flags g.index, { g with index := g.index + 1 })
  else
    Exec.fault .flags_read

/-- The method `RemainingInGroup()`: `CHIMP_SEQUENCE_SIZE - index` in `idx_t`. -/
def RemainingInGroup (g : ChimpGroupState) : Nat :=
  (CHIMP_SEQUENCE_SIZE + 18446744073709551616 - g.index) % 18446744073709551616

/-- The group state `Load` leaves when all its stores are inside the arrays: the closed form of
the two loops (`Load_eq` below relates it to `Load`). -/
def loaded (P : Page) (g : ChimpGroupState) (packed_flags packed_leading_zeros : Int)
    (group_size leading_zero_block_size : Nat) : ChimpGroupState where
  index := 0
  flags := fun j =>
    if 0 < j ∧ j ≤ 0 + group_size then P.FlagBuffer_Extract packed_flags (j - 1)
    else Function.update g.flags 0 0 j
  leading_zeros := fun j =>
    if 0 ≤ j ∧ j < 0 + leading_zero_block_size then P.LeadingZeroBuffer_Extract packed_leading_zeros j
    else g.leading_zeros j
  leading_zero_index := 0
  max_flags_to_read := group_size
  max_leading_zeros_to_read := leading_zero_block_size

end ChimpGroupState

/-! ## `ChimpScanState<T>` -/

/-- The struct `ChimpScanState<T>`; `CS` is the type of `chimp_state`.  The field `handle` is
represented by the address `handle.Ptr()` of the pinned page. -/
structure ChimpScanState (CS : Type) where
  /-- The field `chimp_state`. -/
  chimp_state : CS
  /-- The address `handle.Ptr()`. -/
  handle : Int
  /-- The field `data_ptr_t metadata_ptr`. -/
  metadata_ptr : Int
  /-- The field `idx_t total_value_count`. -/
  total_value_count : Nat
  /-- The field `group_state`. -/
  group_state : ChimpGroupState
  /-- The field `ColumnSegment &segment`. -/
  segment : ColumnSegment

section ScanState

variable {CS V : Type}

/-- The method `LeftInGroup()`. -/
def ChimpScanState.LeftInGroup (s : ChimpScanState CS) : Nat :=
  CHIMP_SEQUENCE_SIZE - (s.total_value_count &&& (CHIMP_SEQUENCE_SIZE - 1))

/-- The method `GroupFinished()`. -/
def ChimpScanState.GroupFinished (s : ChimpScanState CS) : Bool :=
  (s.total_value_count &&& (CHIMP_SEQUENCE_SIZE - 1)) == 0

/-- The method `LoadGroup()`.  The casts `(uint32_t)size_of_group * 4` and
`(uint32_t)leading_zero_block_count * 8` do not wrap: the operands are below `2^16` and `2^8`. -/
def ChimpScanState.LoadGroup (D : Chimp128Decompression CS V) (P : Page) (s : ChimpScanState CS) :
    Exec (ChimpScanState CS) := do
  Exec.emit .LoadGroup
  Exec.emit .Reset
  let chimp_state := D.Reset s.chimp_state
  -- Load the offset indicating where a groups data starts
  let metadata_ptr := s.metadata_ptr - 4
  Exec.emit (.Load_uint32 metadata_ptr)
  let _data_bit_offset := P.Load_uint32 metadata_ptr
  -- Load how many blocks of leading zero bits we have
  let metadata_ptr := metadata_ptr - 1
  Exec.emit (.Load_uint8 metadata_ptr)
  let leading_zero_block_count : Nat := (P.Load_uint8 metadata_ptr).val
  -- Load the leading zero blocks
  let metadata_ptr := metadata_ptr - 3 * (leading_zero_block_count : Int)
  let leading_zero_blocks := metadata_ptr
  -- Load how many flag bytes there are
  let metadata_ptr := metadata_ptr - 2
  Exec.emit (.Load_uint16 metadata_ptr)
  let size_of_group : Nat := (P.Load_uint16 metadata_ptr).val
  -- Load the flags
  let metadata_ptr := metadata_ptr - (size_of_group : Int)
  let flags := metadata_ptr
  let group_state ← s.group_state.Load P flags leading_zero_blocks (size_of_group * 4)
    (leading_zero_block_count * 8)
  pure { s with chimp_state := chimp_state, metadata_ptr := metadata_ptr, group_state := group_state }

/-- The function `ChimpInitScan<T>(segment)`, that is the constructor
`ChimpScanState(ColumnSegment &segment)` it runs (the constructor cannot keep its name here: it
is the name of the struct).  `dataptr` is `handle.Ptr()` of the pinned block; `uninitialized` is
the indeterminate content of the member `group_state` before the first `LoadGroup`. -/
def ChimpInitScan (D : Chimp128Decompression CS V) (P : Page) (segment : ColumnSegment)
    (dataptr : Int) (uninitialized : ChimpGroupState) : Exec (ChimpScanState CS) := do
  let start_of_data_segment := dataptr + (segment.block_offset : Int) + (HEADER_SIZE : Int)
  let chimp_state := D.SetStream start_of_data_segment D.init
  Exec.emit (.Load_uint32 (dataptr + (segment.block_offset : Int)))
  let metadata_offset : Nat := (P.Load_uint32 (dataptr + (segment.block_offset : Int))).val
  let metadata_ptr := dataptr + (segment.block_offset : Int) + (metadata_offset : Int)
  ChimpScanState.LoadGroup D P
    { chimp_state := chimp_state, handle := dataptr, metadata_ptr := metadata_ptr,
      total_value_count := 0, group_state := uninitialized, segment := segment }

/-- One iteration of the loops of `ScanGroup` and `ScanPartialGroup`, which differ only in the
decoder function they call (`decode`; `ev` is its ghost event):

    refresh_leading_zero = decode(*(values + i), group_state.GetFlag(), group_state.GetLeadingZero(), chimp_state);
    if (refresh_leading_zero) group_state.IncreaseLeadingZeroIndex();

The two argument calls touch disjoint fields and are taken left to right.  Returns the value
stored to `values[i]`. -/
def ChimpScanState.decode_step (decode : Nat → Nat → CS → (V × Bool) × CS)
    (ev : Nat → Nat → Bool → Event) (s : ChimpScanState CS) : Exec (ChimpScanState CS × V) := do
  let (flag, group_state) ← s.group_state.GetFlag
  let leading_zero ← group_state.GetLeadingZero
  let ((value, refresh_leading_zero), chimp_state) := decode flag leading_zero s.chimp_state
  Exec.emit (ev flag leading_zero refresh_leading_zero)
  let group_state ← if refresh_leading_zero then group_state.IncreaseLeadingZeroIndex else pure group_state
  pure ({ s with group_state := group_state, chimp_state := chimp_state }, value)

/-- The loops of `ScanGroup` and `ScanPartialGroup`: `k` iterations of `decode_step`.  `values`
collects the values stored to `values[0]`, `values[1]`, .. in this order. -/
def ChimpScanState.decode_loop (decode : Nat → Nat → CS → (V × Bool) × CS)
    (ev : Nat → Nat → Bool → Event) :
    Nat → ChimpScanState CS → List V → Exec (ChimpScanState CS × List V)
  | 0, s, values => pure (s, values)
  | k + 1, s, values => do
    let (s, value) ← ChimpScanState.decode_step decode ev s
    ChimpScanState.decode_loop decode ev k s (values ++ [value])

/-- The tail shared by `ScanGroup` and `ScanPartialGroup`:

    total_value_count += group_size;
    if (GroupFinished() && total_value_count < segment.count) LoadGroup(); -/
def ChimpScanState.finish_group (D : Chimp128Decompression CS V) (P : Page) (s : ChimpScanState CS)
    (group_size : Nat) : Exec (ChimpScanState CS) := do
  let s := { s with total_value_count := (s.total_value_count + group_size) % 18446744073709551616 }
  if s.GroupFinished && decide (s.total_value_count < s.segment.count) then
    ChimpScanState.LoadGroup D P s
  else
    pure s

/-- The method `ScanGroup(values, group_size)`: scan a group from the start.  Returns the values
stored to `values[0]`, `values[1]`, .. in this order (`values[0]` is stored by `LoadFirst`
whatever `group_size` is). -/
def ChimpScanState.ScanGroup (D : Chimp128Decompression CS V) (P : Page) (s : ChimpScanState CS)
    (group_size : Nat) : Exec (ChimpScanState CS × List V) := do
  Exec.emit (.ScanGroup group_size)
  D_ASSERT 131 (decide (group_size ≤ CHIMP_SEQUENCE_SIZE))
  -- Increase the internal index used for the flags
  let (_, group_state) ← s.group_state.GetFlag
  Exec.emit .LoadFirst
  let (value, chimp_state) := D.LoadFirst s.chimp_state
  let (s, values) ← ChimpScanState.decode_loop D.DecompressValue Event.DecompressValue (group_size - 1)
    { s with group_state := group_state, chimp_state := chimp_state } [value]
  let s ← ChimpScanState.finish_group D P s group_size
  pure (s, values)

/-- The method `ScanPartialGroup(values, group_size)`: scan up to a group boundary.  Returns the
values stored to `values[0]`, `values[1]`, .. in this order. -/
def ChimpScanState.ScanPartialGroup (D : Chimp128Decompression CS V) (P : Page) (s : ChimpScanState CS)
    (group_size : Nat) : Exec (ChimpScanState CS × List V) := do
  Exec.emit (.ScanPartialGroup group_size)
  D_ASSERT 153 (decide (group_size ≤ CHIMP_SEQUENCE_SIZE))
  let (s, values) ← ChimpScanState.decode_loop D.Load Event.Chimp_Load group_size s []
  let s ← ChimpScanState.finish_group D P s group_size
  pure (s, values)

/-- The loop `while (to_skip) { .. }` of `Skip`.  `fuel` bounds the number of iterations (`Skip`
passes `skip_count`).  The values go to the local `buffer[CHIMP_SEQUENCE_SIZE]` and are
dropped; storing more than `CHIMP_SEQUENCE_SIZE` of them overruns the buffer. -/
def ChimpScanState.Skip.loop (D : Chimp128Decompression CS V) (P : Page) :
    Nat → Nat → ChimpScanState CS → Exec (ChimpScanState CS)
  | _, 0, s => pure s
  | 0, _ + 1, _ => Exec.fault .out_of_fuel
  | fuel + 1, to_skip + 1, s => do
    let skip_size := min (to_skip + 1) s.LeftInGroup
    let (s, buffer) ← if s.group_state.Started then ChimpScanState.ScanGroup D P s skip_size
      else ChimpScanState.ScanPartialGroup D P s skip_size
    if CHIMP_SEQUENCE_SIZE < buffer.length then
      Exec.fault .buffer_write
    else
      ChimpScanState.Skip.loop D P fuel (to_skip + 1 - skip_size) s

/-- The method `Skip(segment, skip_count)`: skip the next `skip_count` values.  The parameter
`segment` is not used by the body. -/
def ChimpScanState.Skip (D : Chimp128Decompression CS V) (P : Page) (s : ChimpScanState CS)
    (skip_count : Nat) : Exec (ChimpScanState CS) :=
  ChimpScanState.Skip.loop D P skip_count skip_count s

/-- The function `ChimpScanPartial<T>(segment, state, scan_count, result, result_offset)` on the
scan state held by `state`.  Returns the stores made to the data of `result` as pairs
(slot, value), in program order.  The parameter `segment` is not used by the body; the type tag
written by `result.SetVectorType` belongs to `Vector`, which is not among the sources, and is
left out. -/
def ChimpScanPartial (D : Chimp128Decompression CS V) (P : Page) (s : ChimpScanState CS)
    (scan_count : Nat) (result_offset : Nat) : Exec (ChimpScanState CS × List (Nat × V)) := do
  let scan_size := min scan_count s.LeftInGroup
  let (s, values) ← if !s.group_state.Started then ChimpScanState.ScanGroup D P s scan_size
    else ChimpScanState.ScanPartialGroup D P s scan_size
  let stores := List.enumFrom result_offset values
  let scan_count := scan_count - scan_size
  if scan_count = 0 then
    -- Already scanned everything
    pure (s, stores)
  else do
    -- We know for sure that the last group has ended
    D_ASSERT 250 (!s.group_state.Started)
    let (s, values) ← ChimpScanState.ScanGroup D P s scan_count
    pure (s, stores ++ List.enumFrom (result_offset + scan_size) values)

/-- The function `ChimpSkip<T>(segment, state, skip_count)`. -/
def ChimpSkip (D : Chimp128Decompression CS V) (P : Page) (s : ChimpScanState CS)
    (skip_count : Nat) : Exec (ChimpScanState CS) :=
  ChimpScanState.Skip D P s skip_count

/-- The function `ChimpScan<T>(segment, state, scan_count, result)`. -/
def ChimpScan (D : Chimp128Decompression CS V) (P : Page) (s : ChimpScanState CS)
    (scan_count : Nat) : Exec (ChimpScanState CS × List (Nat × V)) :=
  ChimpScanPartial D P s scan_count 0

end ScanState

/-- The frame of `k` iterations of the decode loop from `s` to `t`: `k` flags were read, the
leading-zero cursor moved by at most `k`, and nothing else of the scan state changed except
`chimp_state`. -/
structure ChimpScanState.Decoded {CS : Type} (k : Nat) (s t : ChimpScanState CS) : Prop where
  /-- One flag is consumed per iteration. -/
  index_eq : t.group_state.index = s.group_state.index + k
  /-- Every flag was read inside the array. -/
  index_le : k = 0 ∨ s.group_state.index + k ≤ CHIMP_SEQUENCE_SIZE + 1
  /-- The leading-zero cursor never moves back. -/
  lz_ge : s.group_state.leading_zero_index ≤ t.group_state.leading_zero_index
  /-- The leading-zero cursor moves by at most one per iteration. -/
  lz_le : t.group_state.leading_zero_index ≤ s.group_state.leading_zero_index + k
  /-- The field `total_value_count` is not touched. -/
  total_eq : t.total_value_count = s.total_value_count
  /-- The field `metadata_ptr` is not touched. -/
  metadata_eq : t.metadata_ptr = s.metadata_ptr
  /-- The field `segment` is not touched. -/
  segment_eq : t.segment = s.segment
  /-- The field `handle` is not touched. -/
  handle_eq : t.handle = s.handle
  /-- The array `flags` is not touched. -/
  flags_eq : t.group_state.flags = s.group_state.flags
  /-- The array `leading_zeros` is not touched. -/
  leading_zeros_eq : t.group_state.leading_zeros = s.group_state.leading_zeros
  /-- The field `max_flags_to_read` is not touched. -/
  max_flags_eq : t.group_state.max_flags_to_read = s.group_state.max_flags_to_read
  /-- The field `max_leading_zeros_to_read` is not touched. -/
  max_leading_zeros_eq : t.group_state.max_leading_zeros_to_read = s.group_state.max_leading_zeros_to_read

/-! ## Reading the ghost log -/

/-- The event is a call of `GetFlag`: one flag consumed. -/
def Event.is_GetFlag : Event → Bool
  | .GetFlag _ => true
  | _ => false

/-- The event is a call of `LoadGroup`. -/
def Event.is_LoadGroup : Event → Bool
  | .LoadGroup => true
  | _ => false

/-- The event belongs to the decoding of values in `ScanGroup` / `ScanPartialGroup`: a call of
a `ChimpGroupState` accessor (with its assertions, lines 47, 56 and 57) or of the value
decoder. -/
def Event.in_decode : Event → Bool
  | .D_ASSERT line _ => line == 47 || line == 56 || line == 57
  | .LoadFirst => true
  | .GetFlag _ => true
  | .GetLeadingZero _ => true
  | .IncreaseLeadingZeroIndex => true
  | .DecompressValue _ _ _ => true
  | .Chimp_Load _ _ _ => true
  | _ => false

/-- The event belongs to `LoadGroup`. -/
def Event.in_LoadGroup : Event → Bool
  | .LoadGroup => true
  | .Reset => true
  | .Load_uint32 _ => true
  | .Load_uint16 _ => true
  | .Load_uint8 _ => true
  | .GroupState_Load _ _ _ _ => true
  | _ => false

/-- The event is the entry of a group scan (the call and its assertion on `group_size`, lines
131 and 153) with a `group_size` inside `1 .. CHIMP_SEQUENCE_SIZE`, or is not such an entry. -/
def Event.group_size_ok : Event → Bool
  | .ScanGroup n => decide (1 ≤ n ∧ n ≤ CHIMP_SEQUENCE_SIZE)
  | .ScanPartialGroup n => decide (1 ≤ n ∧ n ≤ CHIMP_SEQUENCE_SIZE)
  | .D_ASSERT line holds => !(line == 131 || line == 153) || holds
  | _ => true

/-- The condition under which the tail of a group scan of `n` values calls `LoadGroup`: the new
`total_value_count` is a multiple of 1024 and is below `segment.count`. -/
def ChimpScanState.crosses {CS : Type} (s : ChimpScanState CS) (n : Nat) : Prop :=
  (s.total_value_count + n) % 1024 = 0 ∧
    (s.total_value_count + n) % 18446744073709551616 < s.segment.count

instance {CS : Type} (s : ChimpScanState CS) (n : Nat) : Decidable (s.crosses n) := by
  unfold ChimpScanState.crosses
  exact inferInstance

/-- The relation between the cursors of a scan state in which decoding can go on: the flag
cursor is the position inside the current group, and the leading-zero cursor is not ahead of
it. -/
structure ChimpScanState.Inv {CS : Type} (s : ChimpScanState CS) : Prop where
  /-- No more values were decoded than the segment holds. -/
  total_le : s.total_value_count ≤ s.segment.count
  /-- While values remain, `index` is the position inside the current group. -/
  index_eq : s.total_value_count < s.segment.count → s.group_state.index = s.total_value_count % 1024
  /-- The leading-zero cursor is not ahead of the flag cursor. -/
  lz_le : s.group_state.leading_zero_index ≤ s.group_state.index
  /-- The flag cursor is inside the group. -/
  index_le : s.group_state.index ≤ 1024

/-- What a group scan of `group_size = n` that returned `(t, out)` with log `log` has done:
after its entry events it decoded `m` values (state `mid`), then ran the tail `finish_group`. -/
def ChimpScanState.GroupScanned {CS V : Type} (D : Chimp128Decompression CS V) (P : Page)
    (entry : List Event) (n m : Nat) (s : ChimpScanState CS) (log : List Event)
    (t : ChimpScanState CS) (out : List V) : Prop :=
  ∃ (mid : ChimpScanState CS) (l : List Event),
    ChimpScanState.Decoded m s mid ∧
    (ChimpScanState.finish_group D P mid n).result = .ok t ∧
    log = entry ++ l ++ (ChimpScanState.finish_group D P mid n).log ∧
    l.countP Event.is_GetFlag = m ∧ (∀ e ∈ l, e.in_decode = true) ∧ out.length = m

/-- The event is an entry event of a group scan of size `n`: the call of `ScanGroup` or of
`ScanPartialGroup` or its assertion on `group_size`. -/
def Event.is_entry (n : Nat) (e : Event) : Prop :=
  e = .ScanGroup n ∨ e = .D_ASSERT 131 (decide (n ≤ CHIMP_SEQUENCE_SIZE)) ∨
    e = .ScanPartialGroup n ∨ e = .D_ASSERT 153 (decide (n ≤ CHIMP_SEQUENCE_SIZE))

/-- A call of `ScanGroup` or `ScanPartialGroup` with `group_size = n` that returned: it decoded
`n` values, or 1 value when it is a `ScanGroup` of size 0 (on a group not started). -/
def ChimpScanState.Stepped {CS V : Type} (D : Chimp128Decompression CS V) (P : Page)
    (n : Nat) (s : ChimpScanState CS) (log : List Event) (t : ChimpScanState CS) (out : List V) :
    Prop :=
  ∃ (entry : List Event) (m : Nat),
    ChimpScanState.GroupScanned D P entry n m s log t out ∧
    (∀ e ∈ entry, e.is_entry n) ∧
    (m = n ∨ (n = 0 ∧ m = 1 ∧ s.group_state.index = 0))

/-- The fault is an access outside `flags` or `leading_zeros`. -/
def Fault.is_array_access : Fault → Bool
  | .flags_read => true
  | .flags_write => true
  | .leading_zeros_read => true
  | .leading_zeros_write => true
  | _ => false

/-! ## Group descriptors in the metadata tail -/

/-- The field `leading_zero_block_count` of the descriptor below the cursor `p`. -/
def Page.leading_zero_block_count (P : Page) (p : Int) : Nat := (P.Load_uint8 (p - 5)).val

/-- The field `flags_byte_size` of the descriptor below the cursor `p`. -/
def Page.flags_byte_size (P : Page) (p : Int) : Nat :=
  (P.Load_uint16 (p - 7 - 3 * (P.leading_zero_block_count p : Int))).val

/-- The cursor below the descriptor that lies below the cursor `p`. -/
def Page.next_descriptor (P : Page) (p : Int) : Int :=
  p - 7 - 3 * (P.leading_zero_block_count p : Int) - (P.flags_byte_size p : Int)

/-- The cursor below the first `k` descriptors under the cursor `p`. -/
def Page.descriptor_end (P : Page) (p : Int) (k : Nat) : Int := Nat.iterate P.next_descriptor k p

/-- The number of group descriptors a scan is to have consumed once `t` values of a segment of
`count` values are decoded: `floor(t/1024) + 1` while values remain, `ceil(count/1024)` at the
end. -/
def groups_loaded (count t : Nat) : Nat :=
  if t < count then t / 1024 + 1 else (count + 1023) / 1024

/-- The cursor the constructor computes before its `LoadGroup`: `dataptr + GetBlockOffset() +
metadata_offset`. -/
def Page.metadata_start (P : Page) (segment : ColumnSegment) (dataptr : Int) : Int :=
  dataptr + (segment.block_offset : Int) +
    ((P.Load_uint32 (dataptr + (segment.block_offset : Int))).val : Int)

/-- The two streams of the descriptor below `p` fit the arrays of `ChimpGroupState`. -/
def Page.descriptor_fits (P : Page) (p : Int) : Prop :=
  P.flags_byte_size p ≤ 256 ∧ P.leading_zero_block_count p ≤ 128

instance (P : Page) (p : Int) : Decidable (P.descriptor_fits p) := by
  unfold Page.descriptor_fits
  exact inferInstance

/-! ## Instances on which the code is evaluated -/

/-- The calls a value decoder receives. -/
inductive DecoderCall where
  /-- The call `input.SetStream(ptr)`. -/
  | SetStream (ptr : Int)
  /-- The call `Reset()`. -/
  | Reset
  /-- The call `LoadFirst`. -/
  | LoadFirst
  /-- The call `DecompressValue` with the flag and the class passed. -/
  | DecompressValue (flag leading_zero : Nat)
  /-- The call `Load` with the flag and the class passed. -/
  | Load (flag leading_zero : Nat)
  deriving DecidableEq, Repr

/-- A test double of the value decoder: its state is the list of the calls it received, the
latest first; every value is 0; the boolean returned is true exactly for the flag `11` (3), the
only flag for which the spec has `refresh_leading = true`.  Two runs leave the same state of this
decoder exactly when they made the same decoder calls in the same order. -/
def recording_decoder : Chimp128Decompression (List DecoderCall) Nat where
  init := []
  SetStream := fun ptr calls => DecoderCall.SetStream ptr :: calls
  Reset := fun calls => DecoderCall.Reset :: calls
  LoadFirst := fun calls => (0, DecoderCall.LoadFirst :: calls)
  DecompressValue := fun flag leading_zero calls =>
    ((0, decide (flag = 3)), DecoderCall.DecompressValue flag leading_zero :: calls)
  Load := fun flag leading_zero calls =>
    ((0, decide (flag = 3)), DecoderCall.Load flag leading_zero :: calls)

/-- A test page in which every group descriptor has `leading_zero_block_count = c % 256` and
`flags_byte_size = f % 65536`, `metadata_offset` is 4096, the flag number `i` of a group is
`flag i` and its class number `i` is `i % 8`. -/
def test_page (c f : Nat) (flag : Nat → Nat) : Page where
  Load_uint8 := fun _ => ⟨c % 256, Nat.mod_lt _ (by decide)⟩
  Load_uint16 := fun _ => ⟨f % 65536, Nat.mod_lt _ (by decide)⟩
  Load_uint32 := fun _ => ⟨4096, by decide⟩
  FlagBuffer_Extract := fun _ i => flag i
  LeadingZeroBuffer_Extract := fun _ i => i % 8

/-- A test segment of `count % 2^64` values at block offset 0. -/
def test_segment (count : Nat) : ColumnSegment where
  count := count % 18446744073709551616
  block_offset := 0
  count_lt := Nat.mod_lt _ (by decide)

/-- A content for the member `group_state` before the first `LoadGroup`. -/
def test_uninitialized : ChimpGroupState where
  index := 7
  flags := fun _ => 9
  leading_zeros := fun _ => 9
  leading_zero_index := 7
  max_flags_to_read := 7
  max_leading_zeros_to_read := 7

/-- The value a returned execution returns; `default` when the execution faulted. -/
def Exec.value_or {α : Type} (x : Exec α) (default : α) : α :=
  match x.result with
  | .ok a => a
  | .error _ => default

/-- A scan state over `test_segment count` as the constructor has it before its `LoadGroup`,
with the metadata cursor at 4096. -/
def test_unloaded (count : Nat) : ChimpScanState (List DecoderCall) where
  chimp_state := []
  handle := 0
  metadata_ptr := 4096
  total_value_count := 0
  group_state := test_uninitialized
  segment := test_segment count

/-- A scan state over `test_segment count` in the middle of a group: `total` values are
decoded, the flag cursor is at `total % 1024`, no leading-zero class was consumed, and all
loaded flags are `flag`. -/
def test_started (count total flag : Nat) : ChimpScanState (List DecoderCall) where
  chimp_state := []
  handle := 0
  metadata_ptr := 4096
  total_value_count := total
  group_state :=
    { index := total % 1024
      flags := fun _ => flag
      leading_zeros := fun _ => 0
      leading_zero_index := 0
      max_flags_to_read := 1024
      max_leading_zeros_to_read := 1024 }
  segment := test_segment count

/-- The scan state the constructor leaves over `test_page c f flag` and `test_segment count`
with the recording decoder. -/
def test_state (c f : Nat) (flag : Nat → Nat) (count : Nat) : ChimpScanState (List DecoderCall) :=
  (ChimpInitScan recording_decoder (test_page c f flag) (test_segment count) 0
    test_uninitialized).value_or (test_unloaded count)

/-- The scan state left by a `ChimpScanPartial` of 3 values from `test_state 1 1 flag 5`. -/
def test_scanned (flag : Nat → Nat) : ChimpScanState (List DecoderCall) :=
  ((ChimpScanPartial recording_decoder (test_page 1 1 flag) (test_state 1 1 flag 5) 3 0).value_or
    (test_unloaded 5, [])).1

/-! ## Reachable scan states -/

/-- The scan states reachable from the construction of a scan state over `segment`, with the
log of everything done so far.  A step is a call of `ChimpScanPartial` (`ChimpScan` is the case
`result_offset = 0`) or of `Skip` (`ChimpSkip`) that returned, for a size `n` with
`least ≤ n ≤ segment.count - total_value_count`.  With `one_group = true` the part of a
`ChimpScanPartial` left after its first chunk is at most one group
(`n - min(n, LeftInGroup()) ≤ CHIMP_SEQUENCE_SIZE`). -/
inductive Reachable {CS V : Type} (D : Chimp128Decompression CS V) (P : Page)
    (segment : ColumnSegment) (dataptr : Int) (uninitialized : ChimpGroupState)
    (least : Nat) (one_group : Bool) : ChimpScanState CS → List Event → Prop where
  /-- The state the constructor leaves. -/
  | init (s : ChimpScanState CS) :
      (ChimpInitScan D P segment dataptr uninitialized).result = .ok s →
      Reachable D P segment dataptr uninitialized least one_group s
        (ChimpInitScan D P segment dataptr uninitialized).log
  /-- A call of `ChimpScanPartial` that returned. -/
  | scan (s : ChimpScanState CS) (log : List Event) (n off : Nat) (t : ChimpScanState CS)
      (stores : List (Nat × V)) :
      Reachable D P segment dataptr uninitialized least one_group s log →
      least ≤ n → s.total_value_count + n ≤ s.segment.count →
      (one_group = true → n - min n s.LeftInGroup ≤ CHIMP_SEQUENCE_SIZE) →
      (ChimpScanPartial D P s n off).result = .ok (t, stores) →
      Reachable D P segment dataptr uninitialized least one_group t
        (log ++ (ChimpScanPartial D P s n off).log)
  /-- A call of `Skip` that returned. -/
  | skip (s : ChimpScanState CS) (log : List Event) (n : Nat) (t : ChimpScanState CS) :
      Reachable D P segment dataptr uninitialized least one_group s log →
      least ≤ n → s.total_value_count + n ≤ s.segment.count →
      (ChimpScanState.Skip D P s n).result = .ok t →
      Reachable D P segment dataptr uninitialized least one_group t
        (log ++ (ChimpScanState.Skip D P s n).log)

/-! ## Reading the ghost log: the leading-zero cursor -/

/-- The event is a call of the value decoder (`DecompressValue` or `Load`) that returned
`refresh_leading_zero = true`. -/
def Event.is_refresh : Event → Bool
  | .DecompressValue _ _ refresh_leading_zero => refresh_leading_zero
  | .Chimp_Load _ _ refresh_leading_zero => refresh_leading_zero
  | _ => false

/-- The event is a call of the value decoder for a value after the first of a group:
`DecompressValue` or `Load`. -/
def Event.is_decoder_call : Event → Bool
  | .DecompressValue _ _ _ => true
  | .Chimp_Load _ _ _ => true
  | _ => false

/-- The event is a call of `GetLeadingZero`. -/
def Event.is_GetLeadingZero : Event → Bool
  | .GetLeadingZero _ => true
  | _ => false

/-- The event is a call of `IncreaseLeadingZeroIndex`. -/
def Event.is_IncreaseLeadingZeroIndex : Event → Bool
  | .IncreaseLeadingZeroIndex => true
  | _ => false

/-- The event is not a failed assertion on `group_size` (lines 131 and 153). -/
def Event.group_size_assertion_holds : Event → Bool
  | .D_ASSERT line holds => !(line == 131 || line == 153) || holds
  | _ => true

/-- Every `GetLeadingZero` event of the log carries the cursor `c` held before the log plus the
number of decoder calls before the event that returned `refresh_leading_zero = true`. -/
def lz_track : Nat → List Event → Bool
  | _, [] => true
  | c, .GetLeadingZero i :: log => decide (i = c) && lz_track c log
  | c, e :: log => lz_track (if e.is_refresh then c + 1 else c) log

/-- The scan state `ScanGroup` has after its call of `GetFlag` and of `LoadFirst`, before its
loop (when the read of `flags[index]` is inside the array). -/
def ChimpScanState.first_loaded {CS V : Type} (D : Chimp128Decompression CS V)
    (s : ChimpScanState CS) : ChimpScanState CS :=
  { s with
    group_state := { s.group_state with index := s.group_state.index + 1 }
    chimp_state := (D.LoadFirst s.chimp_state).2 }

/-! ## The value decoder on the flag `00` -/

/-- Modelled from the spec (§4.5; `chimp128.hpp` is not among the sources): the behaviour of
the value decoder a scan of equal values relies on.  `previous_value` reads the field
`previous_value` off a decompression state and `bit_cursor` the position of its payload
bit-stream. -/
structure Chimp128Decompression.flag_00_as_specified {CS V : Type}
    (D : Chimp128Decompression CS V) (previous_value : CS → V) (bit_cursor : CS → Nat) : Prop where
  /-- The spec on `load_first`: it writes the value to `out` and "sets it as
  `previous_value`". -/
  LoadFirst_previous : ∀ cs, previous_value (D.LoadFirst cs).2 = (D.LoadFirst cs).1
  /-- The spec on flag `00`: "`out = previous_value`; `refresh_leading = false`". -/
  DecompressValue_00 : ∀ leading_zero cs,
    (D.DecompressValue 0 leading_zero cs).1 = (previous_value cs, false)
  /-- The spec on flag `00`: "no bit-stream read". -/
  DecompressValue_00_cursor : ∀ leading_zero cs,
    bit_cursor (D.DecompressValue 0 leading_zero cs).2 = bit_cursor cs
  /-- The spec: "after each emission, `previous_value` is updated" to the value emitted. -/
  DecompressValue_00_previous : ∀ leading_zero cs,
    previous_value (D.DecompressValue 0 leading_zero cs).2 = previous_value cs
  /-- The spec on `reset()`: it clears the previous value, the window and the counts; it does
  not read the bit-stream. -/
  Reset_cursor : ∀ cs, bit_cursor (D.Reset cs) = bit_cursor cs

/-- A test double of the value decoder that keeps the position of the payload bit-stream and
the previous value (in this order).  `LoadFirst` reads 64 bits, the value read at the position
`b` being `1000 + b`; the flag `00` repeats the previous value and reads nothing; every other flag
reads 8 bits; the boolean returned is true exactly for the flag `11`. -/
def test_cursor_decoder : Chimp128Decompression (Nat × Nat) Nat where
  init := (0, 0)
  SetStream := fun _ cs => (0, cs.2)
  Reset := fun cs => (cs.1, 0)
  LoadFirst := fun cs => (1000 + cs.1, (cs.1 + 64, 1000 + cs.1))
  DecompressValue := fun flag leading_zero cs =>
    if flag = 0 then ((cs.2, false), cs)
    else ((cs.2 + flag + leading_zero, decide (flag = 3)), (cs.1 + 8, cs.2 + flag + leading_zero))
  Load := fun flag leading_zero cs =>
    if flag = 0 then ((cs.2, false), cs)
    else ((cs.2 + flag + leading_zero, decide (flag = 3)), (cs.1 + 8, cs.2 + flag + leading_zero))

/-- The scan state the constructor leaves with `test_cursor_decoder` over the group of four
equal values (`flags` all `00`, no leading-zero block). -/
def test_equal_state : ChimpScanState (Nat × Nat) :=
  (ChimpInitScan test_cursor_decoder (test_page 0 1 (fun _ => 0)) (test_segment 4) 0
    test_uninitialized).value_or
    { chimp_state := (0, 0), handle := 0, metadata_ptr := 4096, total_value_count := 0,
      group_state := test_uninitialized, segment := test_segment 4 }


/-! # Prepared statements (`src/main/prepared_statement_data.cpp`)

`Value`, `LogicalType` and the operations on them (`value.hpp`, `types.hpp`) are not among the
sources; they are type parameters and the structure `ValueOps`.  The member `value_map` is an
`unordered_map<idx_t, vector<unique_ptr<Value>>>`: a list of pairs (key, targets), the targets
being the values the pointers own; `find` is the first entry with the key, `size()` the number
of entries (an `unordered_map` holds each key once; no statement below relies on it).
An `operator[]` past the end of a `vector` is undefined behaviour in C++; here it ends the call
with `Failure.out_of_range`. -/

/-- The `BinderException`s of `prepared_statement_data.cpp`, by their message. -/
inductive BinderException where
  /-- "Parameter/argument count mismatch for prepared statement. Expected %llu, got %llu". -/
  | count_mismatch (expected got : Nat)
  /-- "Could not find parameter with index %llu". -/
  | parameter_not_found (index : Nat)
  /-- "No value found for parameter with index %llu". -/
  | no_value_found (index : Nat)
  /-- "Type mismatch for binding parameter with index %llu, expected type %s but got type %s". -/
  | type_mismatch (index : Nat)
  deriving DecidableEq, Repr

/-- The operations of `Value` that `PreparedStatementData` uses, taken as parameters. -/
structure ValueOps (Value LogicalType : Type) where
  /-- The value `value.type()`. -/
  type : Value → LogicalType
  /-- The call `value.TryCastAs(target_type)`: `none` when it returns false, the value the call
  leaves in `value` when it returns true. -/
  TryCastAs : Value → LogicalType → Option Value

/-- The fields of the physical plan that `ResetResultValueEntry` touches: of `PhysicalOperator`,
and of `PhysicalProjection` when the plan is one. -/
structure PhysicalOperator (LogicalType : Type) where
  /-- The test `type == PhysicalOperatorType::PROJECTION`. -/
  is_projection : Bool
  /-- The field `types`. -/
  types : List LogicalType
  /-- The `return_type` of each expression of `select_list` (of a `PhysicalProjection`). -/
  select_list : List LogicalType

/-- The fields of `PreparedStatementData` that `Bind` and `ResetResultValueEntry` use. -/
structure PreparedStatementData (Value LogicalType : Type) where
  /-- The field `value_map`: for each parameter index the targets bound to it. -/
  value_map : List (Nat × List Value)
  /-- The field `types`. -/
  types : List LogicalType
  /-- The operator `*plan`. -/
  plan : PhysicalOperator LogicalType

/-- The vectors `ResetResultValueEntry` indexes. -/
inductive IndexedVector where
  /-- The member `types`. -/
  | types
  /-- The member `plan->types`. -/
  | plan_types
  /-- The member `select_list` of the projection. -/
  | select_list
  deriving DecidableEq, Repr

/-- How a call of `ResetResultValueEntry` ends when it does not return. -/
inductive Failure where
  /-- A `BinderException` was thrown. -/
  | throws (e : BinderException)
  /-- The element `index` of a vector of `size <= index` elements was taken: undefined
  behaviour. -/
  | out_of_range (vector : IndexedVector) (index size : Nat)
  deriving DecidableEq, Repr

section PreparedStatement

variable {Value LogicalType : Type}

/-- The loop `for (auto &target : it->second) *target = value` on the entry of `key`: every
target of the entry becomes `value`. -/
def PreparedStatementData.assign_targets (value_map : List (Nat × List Value)) (key : Nat)
    (value : Value) : List (Nat × List Value) :=
  match value_map with
  | [] => []
  | (k, targets) :: rest =>
    if key == k then (k, targets.map (fun _ => value)) :: rest
    else (k, targets) :: PreparedStatementData.assign_targets rest key value

/-- The store `vector[index] = element`. -/
def IndexedVector.store {α : Type} (vector : IndexedVector) (elements : List α) (index : Nat)
    (element : α) : Except Failure (List α) :=
  if index < elements.length then .ok (elements.set index element)
  else .error (.out_of_range vector index elements.length)

/-- The result of `Bind`: the targets as the call leaves them, and the exception it threw, if
any. -/
structure BindResult (Value : Type) where
  /-- The member `value_map` when the call returns or throws. -/
  value_map : List (Nat × List Value)
  /-- The exception thrown; `none` when the call returns. -/
  thrown : Option BinderException

/-- The loop `for (idx_t i = 0; i < values.size(); i++)` of `Bind`, from the index `i`, over the
values `values[i]`, `values[i+1]`, .. -/
def PreparedStatementData.Bind.loop (ops : ValueOps Value LogicalType) :
    List Value → Nat → List (Nat × List Value) → BindResult Value
  | [], _, value_map => ⟨value_map, none⟩
  | value :: values, i, value_map =>
    match List.lookup (i + 1) value_map with
    | none => ⟨value_map, some (.parameter_not_found (i + 1))⟩
    | some [] => ⟨value_map, some (.no_value_found (i + 1))⟩
    | some (first :: _) =>
      match ops.TryCastAs value (ops.type first) with
      | none => ⟨value_map, some (.type_mismatch (i + 1))⟩
      | some value =>
        PreparedStatementData.Bind.loop ops values (i + 1)
          (PreparedStatementData.assign_targets value_map (i + 1) value)

/-- The method `Bind(values)`. -/
def PreparedStatementData.Bind (ops : ValueOps Value LogicalType)
    (p : PreparedStatementData Value LogicalType) (values : List Value) : BindResult Value :=
  -- set parameters
  if values.length ≠ p.value_map.length then
    ⟨p.value_map, some (.count_mismatch p.value_map.length values.length)⟩
  else
    -- bind the values
    PreparedStatementData.Bind.loop ops values 0 p.value_map

/-- The method `ResetResultValueEntry(val_idx, value)`.  `D_ASSERT(val_idx > 0)` has no effect
on the release build; `val_idx - 1` is computed in `idx_t`. -/
def PreparedStatementData.ResetResultValueEntry (ops : ValueOps Value LogicalType)
    (p : PreparedStatementData Value LogicalType) (val_idx : Nat) (value : Value) :
    Except Failure (PreparedStatementData Value LogicalType) :=
  match List.lookup val_idx p.value_map with
  | none => .error (.throws (.parameter_not_found val_idx))
  | some targets =>
    if targets.isEmpty then .error (.throws (.no_value_found val_idx))
    else
      let value_map := PreparedStatementData.assign_targets p.value_map val_idx value
      let index := (val_idx + 18446744073709551615) % 18446744073709551616
      -- statement types
      (if !p.types.isEmpty && decide (p.types.length ≤ val_idx) then
          IndexedVector.types.store p.types index (ops.type value)
        else .ok p.types) >>= fun types =>
      -- changing the physical plan
      (if !p.plan.types.isEmpty && decide (p.plan.types.length ≤ val_idx) then
          IndexedVector.plan_types.store p.plan.types index (ops.type value)
        else .ok p.plan.types) >>= fun plan_types =>
      -- changing projection expression
      (if p.plan.is_projection then
          if !p.plan.select_list.isEmpty && decide (p.plan.select_list.length ≤ val_idx) then
            IndexedVector.select_list.store p.plan.select_list index (ops.type value)
          else .ok p.plan.select_list
        else .ok p.plan.select_list) >>= fun select_list =>
      .ok { value_map := value_map, types := types,
            plan := { p.plan with types := plan_types, select_list := select_list } }

/-- A test double of `Value`: a pair (type, payload); a cast to the type 0 from another type
fails, every other cast keeps the payload. -/
def test_value_ops : ValueOps (Nat × Nat) Nat where
  type := Prod.fst
  TryCastAs := fun value target_type =>
    if value.1 = target_type then some value
    else if target_type = 0 then none
    else some (target_type, value.2)

/-- A prepared statement with two parameters, the second with two targets, two result types
and a projection of two expressions. -/
def test_prepared : PreparedStatementData (Nat × Nat) Nat where
  value_map := [(1, [(1, 10)]), (2, [(2, 20), (2, 21)])]
  types := [1, 2]
  plan := { is_projection := true, types := [1, 2], select_list := [1, 2] }

/-- A prepared statement with two parameters and one result column. -/
def test_prepared_one_column : PreparedStatementData (Nat × Nat) Nat where
  value_map := [(1, [(1, 10)]), (2, [(2, 20)])]
  types := [1]
  plan := { is_projection := true, types := [1], select_list := [1] }

/-- A prepared statement whose second parameter has no target. -/
def test_prepared_no_target : PreparedStatementData (Nat × Nat) Nat where
  value_map := [(1, [(1, 10)]), (2, [])]
  types := [1]
  plan := { is_projection := false, types := [1], select_list := [] }

end PreparedStatement

section PreparedStatementReading

variable {Value LogicalType : Type}

/-- The value cannot be bound to the parameter `index`: the index is missing from `value_map`,
or maps to an empty target list, or the value cannot be cast to the type of the first target. -/
def PreparedStatementData.cannot_bind (ops : ValueOps Value LogicalType)
    (value_map : List (Nat × List Value)) (index : Nat) (value : Value) : Prop :=
  List.lookup index value_map = none ∨ List.lookup index value_map = some [] ∨
    ∃ first rest, List.lookup index value_map = some (first :: rest) ∧
      ops.TryCastAs value (ops.type first) = none

/-- The parameter `index`, with targets in `before`, is bound to `value` in `after`: every target
holds `value` cast to the type the first target had. -/
def PreparedStatementData.bound_to (ops : ValueOps Value LogicalType)
    (before after : List (Nat × List Value)) (index : Nat) (value : Option Value) : Prop :=
  ∃ v first rest cast, value = some v ∧ List.lookup index before = some (first :: rest) ∧
    ops.TryCastAs v (ops.type first) = some cast ∧
    List.lookup index after = some ((first :: rest).map (fun _ => cast))

end PreparedStatementReading


/-! # Mark join (`src/execution/nested_loop_join/nested_loop_join_mark.cpp`)

`Vector`, `DataChunk`, `ChunkCollection`, `JoinCondition`, the operators of
`comparison_operators.hpp` and `VectorOperations::Exec` are not among the sources.  A vector is
its type tag, its buffer and the positions `VectorOperations::Exec` visits (the entries of its
selection vector, or `0 .. count-1`), in order; `(T *)vector.data` is the buffer read as an array
of `T`.  The array `found_match` is a function of the position; its bound is the caller's.
`assert(left.type == right.type)` has no effect on the release build, which reads both buffers as
arrays of the `T` chosen from `left.type`, and aborts a build with assertions when it fails: the
value of its condition at each call of `mark_join` is kept, in order, in the ghost list
`assertions`, and what the call does is what the release build does.  A run of the build with
assertions is the run up to the first `false` of that list. -/

/-- The enumerators of `TypeId` that the switch of `mark_join_operator` names; `other` stands
for every enumerator it leaves to `default`. -/
inductive TypeId where
  | BOOLEAN
  | TINYINT
  | SMALLINT
  | DATE
  | INTEGER
  | TIMESTAMP
  | BIGINT
  | DECIMAL
  | POINTER
  | VARCHAR
  | other (tag : Nat)
  deriving DecidableEq, Repr

/-- The enumerators of `ExpressionType` that the switch of `mark_join` names; `other` stands
for every enumerator it leaves to `default`. -/
inductive ExpressionType where
  | COMPARE_EQUAL
  | COMPARE_NOTEQUAL
  | COMPARE_LESSTHAN
  | COMPARE_GREATERTHAN
  | COMPARE_LESSTHANOREQUALTO
  | COMPARE_GREATERTHANOREQUALTO
  | other (tag : Nat)
  deriving DecidableEq, Repr

/-- The element types `T` with which `mark_join_operator` instantiates
`mark_join_templated<T, OP>`. -/
inductive ElementType where
  | int8_t
  | int16_t
  | int32_t
  | int64_t
  | double
  | uint64_t
  | const_char_ptr
  deriving DecidableEq, Repr

/-- The operators `OP` with which `mark_join` instantiates `mark_join_operator<OP>`. -/
inductive ComparisonOperator where
  | Equals
  | NotEquals
  | LessThan
  | GreaterThan
  | LessThanEquals
  | GreaterThanEquals
  deriving DecidableEq, Repr

/-- The two `NotImplementedException`s of the file, by their message. -/
inductive NotImplementedException where
  /-- "Unimplemented type for join!". -/
  | unimplemented_type
  /-- "Unimplemented comparison type for join!". -/
  | unimplemented_comparison_type
  deriving DecidableEq, Repr

/-- A `Vector` whose elements, read as a `T`, are values of `α`. -/
structure Vector (α : Type) where
  /-- The field `type`. -/
  type : TypeId
  /-- The element `((T *)data)[position]`. -/
  data : ElementType → Nat → α
  /-- The positions `VectorOperations::Exec(vector, fun)` calls `fun` with, in order. -/
  positions : List Nat

/-- A `DataChunk`: its columns `data[0]`, `data[1]`, .. -/
structure DataChunk (α : Type) where
  /-- The vectors `data[i]`. -/
  data : List (Vector α)

/-- A `ChunkCollection`. -/
structure ChunkCollection (α : Type) where
  /-- The field `chunks`. -/
  chunks : List (DataChunk α)

/-- The field of `JoinCondition` that the mark join uses. -/
structure JoinCondition where
  /-- The field `comparison`. -/
  comparison : ExpressionType

/-- How a call of `NestedLoopJoinMark::Perform` ends. -/
inductive PerformOutcome where
  /-- The call returned. -/
  | returned
  /-- The call threw. -/
  | throws (e : NotImplementedException)
  /-- The column `data[i]` of a chunk with no more than `i` columns was taken: undefined
  behaviour. -/
  | column_out_of_range
  deriving DecidableEq, Repr

/-- The array `found_match` as the call leaves it, how the call ended, and the ghost list of the
asserted conditions. -/
structure PerformResult where
  /-- The array `found_match`. -/
  found_match : Nat → Bool
  /-- How the call ended. -/
  outcome : PerformOutcome
  /-- The value of `left.type == right.type` at each `assert` of `mark_join` reached, in
  order. -/
  assertions : List Bool

section MarkJoin

variable {α : Type}

/-- The function `mark_join_templated<T, OP>(left, right, found_match)`; `Operation` is
`OP::Operation` on two elements read as `T`. -/
def mark_join_templated (Operation : ComparisonOperator → ElementType → α → α → Bool)
    (T : ElementType) (OP : ComparisonOperator) (left right : Vector α)
    (found_match : Nat → Bool) : Nat → Bool :=
  left.positions.foldl (fun found_match left_position =>
    right.positions.foldl (fun found_match right_position =>
      if Operation OP T (left.data T left_position) (right.data T right_position) then
        Function.update found_match left_position true
      else found_match) found_match) found_match

/-- The function `mark_join_operator<OP>(left, right, found_match)`. -/
def mark_join_operator (Operation : ComparisonOperator → ElementType → α → α → Bool)
    (OP : ComparisonOperator) (left right : Vector α) (found_match : Nat → Bool) :
    Except NotImplementedException (Nat → Bool) :=
  match left.type with
  | .BOOLEAN => .ok (mark_join_templated Operation .int8_t OP left right found_match)
  | .TINYINT => .ok (mark_join_templated Operation .int8_t OP left right found_match)
  | .SMALLINT => .ok (mark_join_templated Operation .int16_t OP left right found_match)
  | .DATE => .ok (mark_join_templated Operation .int32_t OP left right found_match)
  | .INTEGER => .ok (mark_join_templated Operation .int32_t OP left right found_match)
  | .TIMESTAMP => .ok (mark_join_templated Operation .int64_t OP left right found_match)
  | .BIGINT => .ok (mark_join_templated Operation .int64_t OP left right found_match)
  | .DECIMAL => .ok (mark_join_templated Operation .double OP left right found_match)
  | .POINTER => .ok (mark_join_templated Operation .uint64_t OP left right found_match)
  | .VARCHAR => .ok (mark_join_templated Operation .const_char_ptr OP left right found_match)
  | .other _ => .error .unimplemented_type

/-- The function `mark_join(left, right, found_match, comparison_type)`: the value of the
condition of its first statement, `assert(left.type == right.type)`, and what its switch
does. -/
def mark_join (Operation : ComparisonOperator → ElementType → α → α → Bool)
    (left right : Vector α) (found_match : Nat → Bool) (comparison_type : ExpressionType) :
    Bool × Except NotImplementedException (Nat → Bool) :=
  (decide (left.type = right.type),
    match comparison_type with
    | .COMPARE_EQUAL => mark_join_operator Operation .Equals left right found_match
    | .COMPARE_NOTEQUAL => mark_join_operator Operation .NotEquals left right found_match
    | .COMPARE_LESSTHAN => mark_join_operator Operation .LessThan left right found_match
    | .COMPARE_GREATERTHAN => mark_join_operator Operation .GreaterThan left right found_match
    | .COMPARE_LESSTHANOREQUALTO =>
      mark_join_operator Operation .LessThanEquals left right found_match
    | .COMPARE_GREATERTHANOREQUALTO =>
      mark_join_operator Operation .GreaterThanEquals left right found_match
    | .other _ => .error .unimplemented_comparison_type)

/-- The loop `for (size_t i = 0; i < conditions.size(); i++)` of `Perform`, from the index `i`,
over the conditions `conditions[i]`, `conditions[i+1]`, ..; `assertions` is the ghost list so
far. -/
def NestedLoopJoinMark.Perform.conditions_loop
    (Operation : ComparisonOperator → ElementType → α → α → Bool)
    (left right_chunk : DataChunk α) :
    List JoinCondition → Nat → (Nat → Bool) → List Bool → PerformResult
  | [], _, found_match, assertions => ⟨found_match, .returned, assertions⟩
  | condition :: conditions, i, found_match, assertions =>
    match left.data[i]?, right_chunk.data[i]? with
    | some l, some r =>
      match mark_join Operation l r found_match condition.comparison with
      | (holds, .ok found_match) =>
        NestedLoopJoinMark.Perform.conditions_loop Operation left right_chunk conditions (i + 1)
          found_match (assertions ++ [holds])
      | (holds, .error e) => ⟨found_match, .throws e, assertions ++ [holds]⟩
    | _, _ => ⟨found_match, .column_out_of_range, assertions⟩

/-- The loop `for (size_t chunk_idx = 0; chunk_idx < right.chunks.size(); chunk_idx++)` of
`Perform`, over the chunks left; `assertions` is the ghost list so far. -/
def NestedLoopJoinMark.Perform.chunks_loop
    (Operation : ComparisonOperator → ElementType → α → α → Bool)
    (left : DataChunk α) (conditions : List JoinCondition) :
    List (DataChunk α) → (Nat → Bool) → List Bool → PerformResult
  | [], found_match, assertions => ⟨found_match, .returned, assertions⟩
  | right_chunk :: chunks, found_match, assertions =>
    match NestedLoopJoinMark.Perform.conditions_loop Operation left right_chunk conditions 0
        found_match assertions with
    | ⟨found_match, .returned, assertions⟩ =>
      NestedLoopJoinMark.Perform.chunks_loop Operation left conditions chunks found_match
        assertions
    | r => r

/-- The function `NestedLoopJoinMark::Perform(left, right, found_match, conditions)`. -/
def NestedLoopJoinMark.Perform (Operation : ComparisonOperator → ElementType → α → α → Bool)
    (left : DataChunk α) (right : ChunkCollection α) (found_match : Nat → Bool)
    (conditions : List JoinCondition) : PerformResult :=
  NestedLoopJoinMark.Perform.chunks_loop Operation left conditions right.chunks found_match []

/-- The element type `T` that `mark_join_operator` chooses for a type tag; `none` for the tags
of its `default` branch. -/
def TypeId.element_type : TypeId → Option ElementType
  | .BOOLEAN => some .int8_t
  | .TINYINT => some .int8_t
  | .SMALLINT => some .int16_t
  | .DATE => some .int32_t
  | .INTEGER => some .int32_t
  | .TIMESTAMP => some .int64_t
  | .BIGINT => some .int64_t
  | .DECIMAL => some .double
  | .POINTER => some .uint64_t
  | .VARCHAR => some .const_char_ptr
  | .other _ => none

/-- The operator `OP` that `mark_join` chooses for a comparison type; `none` for the comparison
types of its `default` branch. -/
def ExpressionType.comparison_operator : ExpressionType → Option ComparisonOperator
  | .COMPARE_EQUAL => some .Equals
  | .COMPARE_NOTEQUAL => some .NotEquals
  | .COMPARE_LESSTHAN => some .LessThan
  | .COMPARE_GREATERTHAN => some .GreaterThan
  | .COMPARE_LESSTHANOREQUALTO => some .LessThanEquals
  | .COMPARE_GREATERTHANOREQUALTO => some .GreaterThanEquals
  | .other _ => none

/-- The condition `condition`, on the columns `i` of the two chunks, holds between the left
position and some right position of `right_chunk`: the two columns have the same type, and
their elements are read as the `T` of that type and compared with the `OP` of the condition. -/
def condition_matches (Operation : ComparisonOperator → ElementType → α → α → Bool)
    (left right_chunk : DataChunk α) (i : Nat) (condition : JoinCondition)
    (left_position : Nat) : Prop :=
  ∃ l r T OP, left.data[i]? = some l ∧ right_chunk.data[i]? = some r ∧ l.type = r.type ∧
    l.type.element_type = some T ∧ condition.comparison.comparison_operator = some OP ∧
    left_position ∈ l.positions ∧
    ∃ right_position ∈ r.positions,
      Operation OP T (l.data T left_position) (r.data T right_position) = true

/-- The condition `condition`, number `i`, can be evaluated on the chunk `right_chunk`: the
columns `i` of the two chunks exist and have the same type (what `mark_join` asserts), and the
comparison type and that type are among those the switches name. -/
def condition_evaluable (left right_chunk : DataChunk α) (i : Nat) (condition : JoinCondition) :
    Prop :=
  (∃ OP, condition.comparison.comparison_operator = some OP) ∧
  ∃ l r T, left.data[i]? = some l ∧ right_chunk.data[i]? = some r ∧ l.type = r.type ∧
    l.type.element_type = some T

/-- A test double of the operators on integers. -/
def test_Operation : ComparisonOperator → ElementType → Int → Int → Bool
  | .Equals, _, a, b => decide (a = b)
  | .NotEquals, _, a, b => decide (a ≠ b)
  | .LessThan, _, a, b => decide (a < b)
  | .GreaterThan, _, a, b => decide (a > b)
  | .LessThanEquals, _, a, b => decide (a ≤ b)
  | .GreaterThanEquals, _, a, b => decide (a ≥ b)

/-- A test chunk of one column with the given type tag and the elements `values` at the
positions `0 .. values.length - 1`. -/
def test_chunk (type : TypeId) (values : List Int) : DataChunk Int where
  data := [{ type := type, data := fun _ position => values.getD position 0,
             positions := List.range values.length }]

end MarkJoin


/-! # Lemmas -/


/-! ## Executions: sequencing -/

section ExecLemmas

variable {α β : Type}

@[simp] theorem Exec.bind_mk_ok (l : List Event) (a : α) (f : α → Exec β) :
    ((⟨l, .ok a⟩ : Exec α) >>= f) = ⟨l ++ (f a).log, (f a).result⟩ := rfl

@[simp] theorem Exec.bind_mk_error (l : List Event) (e : Fault) (f : α → Exec β) :
    ((⟨l, .error e⟩ : Exec α) >>= f) = ⟨l, .error e⟩ := rfl

@[simp] theorem Exec.pure_eq (a : α) : (pure a : Exec α) = ⟨[], .ok a⟩ := rfl

theorem Exec.bind_of_ok {x : Exec α} {a : α} (h : x.result = .ok a) (f : α → Exec β) :
    (x >>= f) = ⟨x.log ++ (f a).log, (f a).result⟩ := by
  obtain ⟨l, r⟩ := x
  simp only at h
  subst h
  rfl

theorem Exec.bind_of_error {x : Exec α} {e : Fault} (h : x.result = .error e) (f : α → Exec β) :
    (x >>= f) = ⟨x.log, .error e⟩ := by
  obtain ⟨l, r⟩ := x
  simp only at h
  subst h
  rfl

theorem Exec.bind_ok_inv {x : Exec α} {f : α → Exec β} {b : β} (h : (x >>= f).result = .ok b) :
    ∃ a, x.result = .ok a ∧ (f a).result = .ok b ∧ (x >>= f).log = x.log ++ (f a).log := by
  obtain ⟨l, r⟩ := x
  cases r with
  | error e => simp at h
  | ok a => exact ⟨a, rfl, by simpa using h, rfl⟩

end ExecLemmas

/-! ## `ChimpGroupState`: what each method computes -/

theorem ChimpGroupState.GetFlag_eq (g : ChimpGroupState) : g.GetFlag =
    ⟨[.D_ASSERT 56 (decide (g.index ≤ g.max_flags_to_read)), .D_ASSERT 57 (decide (g.index ≤ 1024)),
      .GetFlag g.index],
     if g.index < CHIMP_SEQUENCE_SIZE + 1 then .ok (g.flags g.index, { g with index := g.index + 1 })
     else .error .flags_read⟩ := by
  unfold ChimpGroupState.GetFlag D_ASSERT Exec.emit Exec.fault
  split <;> simp

theorem ChimpGroupState.GetLeadingZero_eq (g : ChimpGroupState) : g.GetLeadingZero =
    ⟨[.D_ASSERT 47 (decide (g.leading_zero_index ≤ (g.max_leading_zeros_to_read + 1) % 18446744073709551616)),
      .GetLeadingZero g.leading_zero_index],
     if g.leading_zero_index < CHIMP_SEQUENCE_SIZE + 1 then .ok (g.leading_zeros g.leading_zero_index)
     else .error .leading_zeros_read⟩ := by
  unfold ChimpGroupState.GetLeadingZero D_ASSERT Exec.emit Exec.fault
  split <;> simp

theorem ChimpGroupState.IncreaseLeadingZeroIndex_eq (g : ChimpGroupState) :
    g.IncreaseLeadingZeroIndex =
      ⟨[.IncreaseLeadingZeroIndex],
       .ok { g with leading_zero_index := (g.leading_zero_index + 1) % 4294967296 }⟩ := by
  unfold ChimpGroupState.IncreaseLeadingZeroIndex Exec.emit
  simp

theorem ChimpGroupState.LoadFlags_loop_eq (P : Page) (packed_data : Int) :
    ∀ (k i : Nat) (flags : Nat → Nat),
      ChimpGroupState.LoadFlags.loop P packed_data k i flags =
        ⟨[], if k = 0 ∨ i + k ≤ CHIMP_SEQUENCE_SIZE then
            .ok (fun j => if i < j ∧ j ≤ i + k then P.FlagBuffer_Extract packed_data (j - 1) else flags j)
          else .error .flags_write⟩ := by
  intro k
  induction k with
  | zero =>
    intro i flags
    simp only [ChimpGroupState.LoadFlags.loop, Exec.pure_eq, true_or, if_true]
    congr 2
    funext j
    have : ¬ (i < j ∧ j ≤ i + 0) := by omega
    rw [if_neg this]
  | succ k ih =>
    intro i flags
    unfold ChimpGroupState.LoadFlags.loop
    by_cases h : 1 + i < CHIMP_SEQUENCE_SIZE + 1
    · rw [if_pos h, ih]
      by_cases hle : i + (k + 1) ≤ CHIMP_SEQUENCE_SIZE
      · have h1 : (k = 0 ∨ i + 1 + k ≤ CHIMP_SEQUENCE_SIZE) := by omega
        have h2 : (k + 1 = 0 ∨ i + (k + 1) ≤ CHIMP_SEQUENCE_SIZE) := by omega
        rw [if_pos h1, if_pos h2]
        congr 2
        funext j
        by_cases hj : j = 1 + i
        · subst hj
          have e1 : ¬ (i + 1 < 1 + i ∧ 1 + i ≤ i + 1 + k) := by omega
          have e2 : (i < 1 + i ∧ 1 + i ≤ i + (k + 1)) := by omega
          rw [if_neg e1, if_pos e2, Function.update_same]
          congr 1
          omega
        · rw [Function.update_noteq hj]
          by_cases hr : i + 1 < j ∧ j ≤ i + 1 + k
          · have e2 : (i < j ∧ j ≤ i + (k + 1)) := by omega
            rw [if_pos hr, if_pos e2]
          · have e2 : ¬ (i < j ∧ j ≤ i + (k + 1)) := by omega
            rw [if_neg hr, if_neg e2]
      · have h1 : ¬ (k = 0 ∨ i + 1 + k ≤ CHIMP_SEQUENCE_SIZE) := by omega
        have h2 : ¬ (k + 1 = 0 ∨ i + (k + 1) ≤ CHIMP_SEQUENCE_SIZE) := by omega
        rw [if_neg h1, if_neg h2]
    · rw [if_neg h]
      have h1 : ¬ (k + 1 = 0 ∨ i + (k + 1) ≤ CHIMP_SEQUENCE_SIZE) := by omega
      rw [if_neg h1]
      rfl

theorem ChimpGroupState.LoadLeadingZeros_loop_eq (P : Page) (packed_data : Int) :
    ∀ (k i : Nat) (leading_zeros : Nat → Nat),
      ChimpGroupState.LoadLeadingZeros.loop P packed_data k i leading_zeros =
        ⟨[], if k = 0 ∨ i + k ≤ CHIMP_SEQUENCE_SIZE + 1 then
            .ok (fun j => if i ≤ j ∧ j < i + k then P.LeadingZeroBuffer_Extract packed_data j
              else leading_zeros j)
          else .error .leading_zeros_write⟩ := by
  intro k
  induction k with
  | zero =>
    intro i leading_zeros
    simp only [ChimpGroupState.LoadLeadingZeros.loop, Exec.pure_eq, true_or, if_true]
    congr 2
    funext j
    have : ¬ (i ≤ j ∧ j < i + 0) := by omega
    rw [if_neg this]
  | succ k ih =>
    intro i leading_zeros
    unfold ChimpGroupState.LoadLeadingZeros.loop
    by_cases h : i < CHIMP_SEQUENCE_SIZE + 1
    · rw [if_pos h, ih]
      by_cases hle : i + (k + 1) ≤ CHIMP_SEQUENCE_SIZE + 1
      · have h1 : (k = 0 ∨ i + 1 + k ≤ CHIMP_SEQUENCE_SIZE + 1) := by omega
        have h2 : (k + 1 = 0 ∨ i + (k + 1) ≤ CHIMP_SEQUENCE_SIZE + 1) := by omega
        rw [if_pos h1, if_pos h2]
        congr 2
        funext j
        by_cases hj : j = i
        · subst hj
          have e1 : ¬ (j + 1 ≤ j ∧ j < j + 1 + k) := by omega
          have e2 : (j ≤ j ∧ j < j + (k + 1)) := by omega
          rw [if_neg e1, if_pos e2, Function.update_same]
        · rw [Function.update_noteq hj]
          by_cases hr : i + 1 ≤ j ∧ j < i + 1 + k
          · have e2 : (i ≤ j ∧ j < i + (k + 1)) := by omega
            rw [if_pos hr, if_pos e2]
          · have e2 : ¬ (i ≤ j ∧ j < i + (k + 1)) := by omega
            rw [if_neg hr, if_neg e2]
      · have h1 : ¬ (k = 0 ∨ i + 1 + k ≤ CHIMP_SEQUENCE_SIZE + 1) := by omega
        have h2 : ¬ (k + 1 = 0 ∨ i + (k + 1) ≤ CHIMP_SEQUENCE_SIZE + 1) := by omega
        rw [if_neg h1, if_neg h2]
    · rw [if_neg h]
      have h1 : ¬ (k + 1 = 0 ∨ i + (k + 1) ≤ CHIMP_SEQUENCE_SIZE + 1) := by omega
      rw [if_neg h1]
      rfl


theorem ChimpGroupState.LoadFlags_eq (P : Page) (g : ChimpGroupState) (packed_data : Int)
    (group_size : Nat) :
    g.LoadFlags P packed_data group_size =
      ⟨[], if group_size ≤ CHIMP_SEQUENCE_SIZE then
          .ok { g with
            flags := fun j =>
              if 0 < j ∧ j ≤ 0 + group_size then P.FlagBuffer_Extract packed_data (j - 1)
              else Function.update g.flags 0 0 j
            max_flags_to_read := group_size }
        else .error .flags_write⟩ := by
  unfold ChimpGroupState.LoadFlags
  simp only [ChimpGroupState.LoadFlags_loop_eq]
  by_cases h1 : group_size ≤ CHIMP_SEQUENCE_SIZE
  · have h1' : group_size = 0 ∨ 0 + group_size ≤ CHIMP_SEQUENCE_SIZE := by omega
    rw [if_pos h1', if_pos h1]
    rfl
  · have h1' : ¬ (group_size = 0 ∨ 0 + group_size ≤ CHIMP_SEQUENCE_SIZE) := by omega
    rw [if_neg h1', if_neg h1]
    rfl

theorem ChimpGroupState.LoadLeadingZeros_eq (P : Page) (g : ChimpGroupState) (packed_data : Int)
    (leading_zero_block_size : Nat) :
    g.LoadLeadingZeros P packed_data leading_zero_block_size =
      ⟨[], if leading_zero_block_size ≤ CHIMP_SEQUENCE_SIZE + 1 then
          .ok { g with
            leading_zeros := fun j =>
              if 0 ≤ j ∧ j < 0 + leading_zero_block_size then P.LeadingZeroBuffer_Extract packed_data j
              else g.leading_zeros j
            max_leading_zeros_to_read := leading_zero_block_size }
        else .error .leading_zeros_write⟩ := by
  unfold ChimpGroupState.LoadLeadingZeros
  simp only [ChimpGroupState.LoadLeadingZeros_loop_eq]
  by_cases h2 : leading_zero_block_size ≤ CHIMP_SEQUENCE_SIZE + 1
  · have h2' : leading_zero_block_size = 0 ∨ 0 + leading_zero_block_size ≤ CHIMP_SEQUENCE_SIZE + 1 := by
      omega
    rw [if_pos h2', if_pos h2]
    rfl
  · have h2' : ¬ (leading_zero_block_size = 0 ∨ 0 + leading_zero_block_size ≤ CHIMP_SEQUENCE_SIZE + 1) := by
      omega
    rw [if_neg h2', if_neg h2]
    rfl

theorem ChimpGroupState.Load_eq (P : Page) (g : ChimpGroupState) (packed_flags packed_leading_zeros : Int)
    (group_size leading_zero_block_size : Nat) :
    g.Load P packed_flags packed_leading_zeros group_size leading_zero_block_size =
      ⟨[.GroupState_Load packed_flags packed_leading_zeros group_size leading_zero_block_size],
        if group_size ≤ CHIMP_SEQUENCE_SIZE then
          if leading_zero_block_size ≤ CHIMP_SEQUENCE_SIZE + 1 then
            .ok (ChimpGroupState.loaded P g packed_flags packed_leading_zeros group_size
              leading_zero_block_size)
          else .error .leading_zeros_write
        else .error .flags_write⟩ := by
  unfold ChimpGroupState.Load Exec.emit
  rw [ChimpGroupState.LoadFlags_eq]
  by_cases h1 : group_size ≤ CHIMP_SEQUENCE_SIZE
  · rw [if_pos h1, if_pos h1]
    simp only [Exec.bind_mk_ok, Exec.pure_eq, List.append_nil, List.nil_append,
      ChimpGroupState.LoadLeadingZeros_eq]
    by_cases h2 : leading_zero_block_size ≤ CHIMP_SEQUENCE_SIZE + 1
    · rw [if_pos h2, if_pos h2]
      rfl
    · rw [if_neg h2, if_neg h2]
      rfl
  · rw [if_neg h1, if_neg h1]
    rfl

section ScanLemmas

variable {CS V : Type}

theorem ChimpScanState.LoadGroup_eq (D : Chimp128Decompression CS V) (P : Page) (s : ChimpScanState CS) :
    ChimpScanState.LoadGroup D P s =
      ⟨[.LoadGroup, .Reset, .Load_uint32 (s.metadata_ptr - 4), .Load_uint8 (s.metadata_ptr - 5),
        .Load_uint16 (s.metadata_ptr - 7 - 3 * (P.leading_zero_block_count s.metadata_ptr : Int)),
        .GroupState_Load (P.next_descriptor s.metadata_ptr)
          (s.metadata_ptr - 5 - 3 * (P.leading_zero_block_count s.metadata_ptr : Int))
          (P.flags_byte_size s.metadata_ptr * 4) (P.leading_zero_block_count s.metadata_ptr * 8)],
       if P.flags_byte_size s.metadata_ptr * 4 ≤ CHIMP_SEQUENCE_SIZE then
         if P.leading_zero_block_count s.metadata_ptr * 8 ≤ CHIMP_SEQUENCE_SIZE + 1 then
           .ok { s with
             chimp_state := D.Reset s.chimp_state
             metadata_ptr := P.next_descriptor s.metadata_ptr
             group_state := ChimpGroupState.loaded P s.group_state (P.next_descriptor s.metadata_ptr)
               (s.metadata_ptr - 5 - 3 * (P.leading_zero_block_count s.metadata_ptr : Int))
               (P.flags_byte_size s.metadata_ptr * 4) (P.leading_zero_block_count s.metadata_ptr * 8) }
         else .error .leading_zeros_write
       else .error .flags_write⟩ := by
  have e5 : s.metadata_ptr - 4 - 1 = s.metadata_ptr - 5 := by omega
  have e7 : ∀ c : Int, s.metadata_ptr - 5 - 3 * c - 2 = s.metadata_ptr - 7 - 3 * c := by
    intro c; omega
  unfold ChimpScanState.LoadGroup Exec.emit
  simp only [Exec.bind_mk_ok, Exec.pure_eq, ChimpGroupState.Load_eq, e5, e7]
  unfold Page.next_descriptor Page.flags_byte_size Page.leading_zero_block_count
  split
  · split
    · simp
    · simp
  · simp

end ScanLemmas


section DecodeLemmas

variable {CS V : Type}

theorem ChimpScanState.decode_step_eq (decode : Nat → Nat → CS → (V × Bool) × CS)
    (ev : Nat → Nat → Bool → Event) (s : ChimpScanState CS) :
    ChimpScanState.decode_step decode ev s =
      if s.group_state.index < CHIMP_SEQUENCE_SIZE + 1 then
        if s.group_state.leading_zero_index < CHIMP_SEQUENCE_SIZE + 1 then
          ⟨[.D_ASSERT 56 (decide (s.group_state.index ≤ s.group_state.max_flags_to_read)),
            .D_ASSERT 57 (decide (s.group_state.index ≤ 1024)),
            .GetFlag s.group_state.index,
            .D_ASSERT 47 (decide (s.group_state.leading_zero_index ≤
              (s.group_state.max_leading_zeros_to_read + 1) % 18446744073709551616)),
            .GetLeadingZero s.group_state.leading_zero_index,
            ev (s.group_state.flags s.group_state.index)
              (s.group_state.leading_zeros s.group_state.leading_zero_index)
              (decode (s.group_state.flags s.group_state.index)
                (s.group_state.leading_zeros s.group_state.leading_zero_index) s.chimp_state).1.2] ++
            (if (decode (s.group_state.flags s.group_state.index)
                (s.group_state.leading_zeros s.group_state.leading_zero_index) s.chimp_state).1.2
              then [.IncreaseLeadingZeroIndex] else []),
           .ok ({ s with
              group_state := { s.group_state with
                index := s.group_state.index + 1
                leading_zero_index :=
                  if (decode (s.group_state.flags s.group_state.index)
                    (s.group_state.leading_zeros s.group_state.leading_zero_index) s.chimp_state).1.2
                  then (s.group_state.leading_zero_index + 1) % 4294967296
                  else s.group_state.leading_zero_index }
              chimp_state := (decode (s.group_state.flags s.group_state.index)
                (s.group_state.leading_zeros s.group_state.leading_zero_index) s.chimp_state).2 },
            (decode (s.group_state.flags s.group_state.index)
              (s.group_state.leading_zeros s.group_state.leading_zero_index) s.chimp_state).1.1)⟩
        else
          ⟨[.D_ASSERT 56 (decide (s.group_state.index ≤ s.group_state.max_flags_to_read)),
            .D_ASSERT 57 (decide (s.group_state.index ≤ 1024)),
            .GetFlag s.group_state.index,
            .D_ASSERT 47 (decide (s.group_state.leading_zero_index ≤
              (s.group_state.max_leading_zeros_to_read + 1) % 18446744073709551616)),
            .GetLeadingZero s.group_state.leading_zero_index], .error .leading_zeros_read⟩
      else
        ⟨[.D_ASSERT 56 (decide (s.group_state.index ≤ s.group_state.max_flags_to_read)),
          .D_ASSERT 57 (decide (s.group_state.index ≤ 1024)),
          .GetFlag s.group_state.index], .error .flags_read⟩ := by
  unfold ChimpScanState.decode_step
  rw [ChimpGroupState.GetFlag_eq]
  by_cases h1 : s.group_state.index < CHIMP_SEQUENCE_SIZE + 1
  · rw [if_pos h1, if_pos h1]
    simp only [Exec.bind_mk_ok, ChimpGroupState.GetLeadingZero_eq]
    by_cases h2 : s.group_state.leading_zero_index < CHIMP_SEQUENCE_SIZE + 1
    · rw [if_pos h2, if_pos h2]
      simp only [Exec.bind_mk_ok, Exec.emit, Exec.pure_eq]
      cases hr : (decode (s.group_state.flags s.group_state.index)
        (s.group_state.leading_zeros s.group_state.leading_zero_index) s.chimp_state).1.2
      · simp
      · simp [ChimpGroupState.IncreaseLeadingZeroIndex_eq]
    · rw [if_neg h2, if_neg h2]
      simp
  · rw [if_neg h1, if_neg h1]
    simp

end DecodeLemmas


section LoopLemmas

variable {CS V : Type}

theorem ChimpScanState.Decoded.refl (s : ChimpScanState CS) : ChimpScanState.Decoded 0 s s :=
  ⟨rfl, Or.inl rfl, le_refl _, le_refl _, rfl, rfl, rfl, rfl, rfl, rfl, rfl, rfl⟩

theorem ChimpScanState.Decoded.trans {a b : Nat} {s t u : ChimpScanState CS}
    (h1 : ChimpScanState.Decoded a s t) (h2 : ChimpScanState.Decoded b t u) :
    ChimpScanState.Decoded (a + b) s u where
  index_eq := by rw [h2.index_eq, h1.index_eq]; omega
  index_le := by
    have e1 := h1.index_le
    have e2 := h2.index_le
    have e3 := h1.index_eq
    omega
  lz_ge := le_trans h1.lz_ge h2.lz_ge
  lz_le := by
    have e1 := h1.lz_le
    have e2 := h2.lz_le
    omega
  total_eq := by rw [h2.total_eq, h1.total_eq]
  metadata_eq := by rw [h2.metadata_eq, h1.metadata_eq]
  segment_eq := by rw [h2.segment_eq, h1.segment_eq]
  handle_eq := by rw [h2.handle_eq, h1.handle_eq]
  flags_eq := by rw [h2.flags_eq, h1.flags_eq]
  leading_zeros_eq := by rw [h2.leading_zeros_eq, h1.leading_zeros_eq]
  max_flags_eq := by rw [h2.max_flags_eq, h1.max_flags_eq]
  max_leading_zeros_eq := by rw [h2.max_leading_zeros_eq, h1.max_leading_zeros_eq]

/-- One iteration that returns: its frame and its log. -/
theorem ChimpScanState.decode_step_ok (decode : Nat → Nat → CS → (V × Bool) × CS)
    (ev : Nat → Nat → Bool → Event) (hev : ∀ a b c, (ev a b c).is_GetFlag = false)
    {s t : ChimpScanState CS} {v : V}
    (h : (ChimpScanState.decode_step decode ev s).result = .ok (t, v)) :
    ChimpScanState.Decoded 1 s t ∧
      (ChimpScanState.decode_step decode ev s).log.countP Event.is_GetFlag = 1 := by
  rw [ChimpScanState.decode_step_eq] at h ⊢
  by_cases h1 : s.group_state.index < CHIMP_SEQUENCE_SIZE + 1
  · rw [if_pos h1] at h ⊢
    by_cases h2 : s.group_state.leading_zero_index < CHIMP_SEQUENCE_SIZE + 1
    · rw [if_pos h2] at h ⊢
      simp only [Except.ok.injEq, Prod.mk.injEq] at h
      obtain ⟨ht, -⟩ := h
      subst ht
      refine ⟨⟨rfl, Or.inr (by omega), ?_, ?_, rfl, rfl, rfl, rfl, rfl, rfl, rfl, rfl⟩, ?_⟩
      · simp only
        split
        · have : s.group_state.leading_zero_index + 1 < 4294967296 := by
            simp only [CHIMP_SEQUENCE_SIZE] at h2; omega
          rw [Nat.mod_eq_of_lt this]; omega
        · exact le_refl _
      · simp only
        split
        · exact le_trans (Nat.mod_le _ _) (le_refl _)
        · omega
      · simp only [List.countP_append, List.countP_cons, List.countP_nil, hev]
        generalize (decode (s.group_state.flags s.group_state.index)
          (s.group_state.leading_zeros s.group_state.leading_zero_index) s.chimp_state).1.2 = b
        cases b <;> simp [Event.is_GetFlag]
    · rw [if_neg h2] at h
      simp at h
  · rw [if_neg h1] at h
    simp at h

theorem ChimpScanState.decode_step_log (decode : Nat → Nat → CS → (V × Bool) × CS)
    (ev : Nat → Nat → Bool → Event) (hev : ∀ a b c, (ev a b c).in_decode = true)
    (s : ChimpScanState CS) :
    ∀ e ∈ (ChimpScanState.decode_step decode ev s).log, e.in_decode = true := by
  rw [ChimpScanState.decode_step_eq]
  intro e he
  split at he
  · split at he
    · simp only [List.mem_append, List.mem_cons, List.mem_singleton, List.not_mem_nil, or_false] at he
      rcases he with (he | he | he | he | he | he) | he
      · subst he; rfl
      · subst he; rfl
      · subst he; rfl
      · subst he; rfl
      · subst he; rfl
      · subst he; exact hev _ _ _
      · split at he
        · simp only [List.mem_singleton] at he; subst he; rfl
        · simp at he
    · simp only [List.mem_cons, List.mem_singleton, List.not_mem_nil, or_false] at he
      rcases he with he | he | he | he | he <;> (subst he; rfl)
  · simp only [List.mem_cons, List.mem_singleton, List.not_mem_nil, or_false] at he
    rcases he with he | he | he <;> (subst he; rfl)

theorem ChimpScanState.decode_step_succeeds (decode : Nat → Nat → CS → (V × Bool) × CS)
    (ev : Nat → Nat → Bool → Event) (s : ChimpScanState CS)
    (h1 : s.group_state.index < CHIMP_SEQUENCE_SIZE + 1)
    (h2 : s.group_state.leading_zero_index < CHIMP_SEQUENCE_SIZE + 1) :
    ∃ r, (ChimpScanState.decode_step decode ev s).result = .ok r := by
  rw [ChimpScanState.decode_step_eq, if_pos h1, if_pos h2]
  exact ⟨_, rfl⟩

/-- The loop, when it returns: its frame, the values it stored and the flags it read. -/
theorem ChimpScanState.decode_loop_ok (decode : Nat → Nat → CS → (V × Bool) × CS)
    (ev : Nat → Nat → Bool → Event) (hev : ∀ a b c, (ev a b c).is_GetFlag = false) :
    ∀ (k : Nat) (s t : ChimpScanState CS) (values out : List V),
      (ChimpScanState.decode_loop decode ev k s values).result = .ok (t, out) →
      ChimpScanState.Decoded k s t ∧ out.length = values.length + k ∧
        (ChimpScanState.decode_loop decode ev k s values).log.countP Event.is_GetFlag = k := by
  intro k
  induction k with
  | zero =>
    intro s t values out h
    simp only [ChimpScanState.decode_loop, Exec.pure_eq, Except.ok.injEq, Prod.mk.injEq] at h
    obtain ⟨hs, hv⟩ := h
    subst hs hv
    exact ⟨ChimpScanState.Decoded.refl s, rfl, rfl⟩
  | succ k ih =>
    intro s t values out h
    unfold ChimpScanState.decode_loop at h ⊢
    obtain ⟨⟨s1, v⟩, hstep, hrest, hlog⟩ := Exec.bind_ok_inv h
    obtain ⟨hd1, hc1⟩ := ChimpScanState.decode_step_ok decode ev hev hstep
    obtain ⟨hd2, hl2, hc2⟩ := ih s1 t (values ++ [v]) out hrest
    refine ⟨?_, ?_, ?_⟩
    · have := ChimpScanState.Decoded.trans hd1 hd2
      rw [Nat.add_comm] at this
      exact this
    · rw [hl2, List.length_append, List.length_singleton]; omega
    · rw [hlog, List.countP_append, hc1, hc2]; omega

theorem ChimpScanState.decode_loop_log (decode : Nat → Nat → CS → (V × Bool) × CS)
    (ev : Nat → Nat → Bool → Event) (hev : ∀ a b c, (ev a b c).in_decode = true) :
    ∀ (k : Nat) (s : ChimpScanState CS) (values : List V),
      ∀ e ∈ (ChimpScanState.decode_loop decode ev k s values).log, e.in_decode = true := by
  intro k
  induction k with
  | zero =>
    intro s values e he
    simp [ChimpScanState.decode_loop] at he
  | succ k ih =>
    intro s values e he
    unfold ChimpScanState.decode_loop at he
    cases hr : (ChimpScanState.decode_step decode ev s).result with
    | error err =>
      rw [Exec.bind_of_error hr] at he
      exact ChimpScanState.decode_step_log decode ev hev s e he
    | ok r =>
      rw [Exec.bind_of_ok hr] at he
      simp only [List.mem_append] at he
      rcases he with he | he
      · exact ChimpScanState.decode_step_log decode ev hev s e he
      · exact ih _ _ e he

theorem ChimpScanState.decode_loop_succeeds (decode : Nat → Nat → CS → (V × Bool) × CS)
    (ev : Nat → Nat → Bool → Event) (hev : ∀ a b c, (ev a b c).is_GetFlag = false) :
    ∀ (k : Nat) (s : ChimpScanState CS) (values : List V),
      s.group_state.index + k ≤ CHIMP_SEQUENCE_SIZE + 1 →
      s.group_state.leading_zero_index + k ≤ CHIMP_SEQUENCE_SIZE + 1 →
      ∃ r, (ChimpScanState.decode_loop decode ev k s values).result = .ok r := by
  intro k
  induction k with
  | zero =>
    intro s values _ _
    exact ⟨_, rfl⟩
  | succ k ih =>
    intro s values h1 h2
    unfold ChimpScanState.decode_loop
    obtain ⟨⟨s1, v⟩, hr⟩ := ChimpScanState.decode_step_succeeds decode ev s (by omega) (by omega)
    obtain ⟨hd, -⟩ := ChimpScanState.decode_step_ok decode ev hev hr
    rw [Exec.bind_of_ok hr]
    have e1 := hd.index_eq
    have e2 := hd.lz_le
    exact ih s1 (values ++ [v]) (by omega) (by omega)

end LoopLemmas


section GroupScanLemmas

variable {CS V : Type}

theorem ChimpScanState.and_mask (t : Nat) : t &&& (CHIMP_SEQUENCE_SIZE - 1) = t % 1024 := by
  have := Nat.and_pow_two_sub_one_eq_mod t 10
  simpa [CHIMP_SEQUENCE_SIZE] using this

theorem ChimpScanState.LeftInGroup_eq (s : ChimpScanState CS) :
    s.LeftInGroup = 1024 - s.total_value_count % 1024 := by
  unfold ChimpScanState.LeftInGroup
  rw [ChimpScanState.and_mask]
  rfl

theorem ChimpScanState.GroupFinished_eq (s : ChimpScanState CS) :
    s.GroupFinished = decide (s.total_value_count % 1024 = 0) := by
  unfold ChimpScanState.GroupFinished
  rw [ChimpScanState.and_mask]
  by_cases h : s.total_value_count % 1024 = 0 <;> simp [h]

theorem ChimpScanState.finish_group_eq (D : Chimp128Decompression CS V) (P : Page)
    (s : ChimpScanState CS) (n : Nat) :
    ChimpScanState.finish_group D P s n =
      if (s.total_value_count + n) % 1024 = 0 ∧
          (s.total_value_count + n) % 18446744073709551616 < s.segment.count then
        ChimpScanState.LoadGroup D P
          { s with total_value_count := (s.total_value_count + n) % 18446744073709551616 }
      else
        ⟨[], .ok { s with total_value_count := (s.total_value_count + n) % 18446744073709551616 }⟩ := by
  unfold ChimpScanState.finish_group
  simp only [ChimpScanState.GroupFinished_eq, Bool.and_eq_true, decide_eq_true_eq, Exec.pure_eq]
  have e : (s.total_value_count + n) % 18446744073709551616 % 1024 = (s.total_value_count + n) % 1024 := by
    omega
  rw [e]

/-- The events `LoadGroup` leaves in the log. -/
theorem ChimpScanState.LoadGroup_log (D : Chimp128Decompression CS V) (P : Page) (s : ChimpScanState CS) :
    (ChimpScanState.LoadGroup D P s).log.countP Event.is_LoadGroup = 1 ∧
      (ChimpScanState.LoadGroup D P s).log.countP Event.is_GetFlag = 0 ∧
      ∀ e ∈ (ChimpScanState.LoadGroup D P s).log, e.in_LoadGroup = true := by
  rw [ChimpScanState.LoadGroup_eq]
  refine ⟨by simp [Event.is_LoadGroup], by simp [Event.is_GetFlag], ?_⟩
  intro e he
  simp only [List.mem_cons, List.mem_singleton, List.not_mem_nil, or_false] at he
  rcases he with he | he | he | he | he | he <;> (subst he; rfl)

/-- The state `LoadGroup` leaves when it returns. -/
theorem ChimpScanState.LoadGroup_ok (D : Chimp128Decompression CS V) (P : Page)
    {s t : ChimpScanState CS} (h : (ChimpScanState.LoadGroup D P s).result = .ok t) :
    P.descriptor_fits s.metadata_ptr ∧
    t = { s with
      chimp_state := D.Reset s.chimp_state
      metadata_ptr := P.next_descriptor s.metadata_ptr
      group_state := ChimpGroupState.loaded P s.group_state (P.next_descriptor s.metadata_ptr)
        (s.metadata_ptr - 5 - 3 * (P.leading_zero_block_count s.metadata_ptr : Int))
        (P.flags_byte_size s.metadata_ptr * 4) (P.leading_zero_block_count s.metadata_ptr * 8) } := by
  rw [ChimpScanState.LoadGroup_eq] at h
  simp only at h
  unfold Page.descriptor_fits
  simp only [CHIMP_SEQUENCE_SIZE] at h
  split at h
  · split at h
    · simp only [Except.ok.injEq] at h
      exact ⟨⟨by omega, by omega⟩, h.symm⟩
    · simp at h
  · simp at h

theorem ChimpScanState.LoadGroup_succeeds (D : Chimp128Decompression CS V) (P : Page)
    (s : ChimpScanState CS) (h : P.descriptor_fits s.metadata_ptr) :
    ∃ t, (ChimpScanState.LoadGroup D P s).result = .ok t := by
  rw [ChimpScanState.LoadGroup_eq]
  unfold Page.descriptor_fits at h
  have h1 : P.flags_byte_size s.metadata_ptr * 4 ≤ CHIMP_SEQUENCE_SIZE := by
    simp only [CHIMP_SEQUENCE_SIZE]; omega
  have h2 : P.leading_zero_block_count s.metadata_ptr * 8 ≤ CHIMP_SEQUENCE_SIZE + 1 := by
    simp only [CHIMP_SEQUENCE_SIZE]; omega
  simp only [if_pos h1, if_pos h2]
  exact ⟨_, rfl⟩

end GroupScanLemmas


section GroupScanLemmas2

variable {CS V : Type}

theorem Event.DecompressValue_not_GetFlag (a b : Nat) (c : Bool) :
    (Event.DecompressValue a b c).is_GetFlag = false := rfl

theorem Event.Chimp_Load_not_GetFlag (a b : Nat) (c : Bool) :
    (Event.Chimp_Load a b c).is_GetFlag = false := rfl

theorem Event.DecompressValue_in_decode (a b : Nat) (c : Bool) :
    (Event.DecompressValue a b c).in_decode = true := rfl

theorem Event.Chimp_Load_in_decode (a b : Nat) (c : Bool) :
    (Event.Chimp_Load a b c).in_decode = true := rfl

theorem ChimpScanState.ScanGroup_ok (D : Chimp128Decompression CS V) (P : Page)
    {s t : ChimpScanState CS} {n : Nat} {out : List V}
    (h : (ChimpScanState.ScanGroup D P s n).result = .ok (t, out)) :
    ChimpScanState.GroupScanned D P
      [.ScanGroup n, .D_ASSERT 131 (decide (n ≤ CHIMP_SEQUENCE_SIZE))] n (1 + (n - 1)) s
      (ChimpScanState.ScanGroup D P s n).log t out := by
  unfold ChimpScanState.ScanGroup at h ⊢
  simp only [Exec.emit, D_ASSERT, Exec.bind_mk_ok, ChimpGroupState.GetFlag_eq] at h ⊢
  by_cases h1 : s.group_state.index < CHIMP_SEQUENCE_SIZE + 1
  · simp only [if_pos h1, Exec.bind_mk_ok] at h ⊢
    obtain ⟨⟨s1, vals⟩, hloop, hrest, hlog⟩ := Exec.bind_ok_inv h
    obtain ⟨⟨t', ht'⟩, hfin, hret, hlog2⟩ := Exec.bind_ok_inv hrest
    simp only [Exec.pure_eq, Except.ok.injEq, Prod.mk.injEq] at hret
    obtain ⟨rfl, rfl⟩ := hret
    obtain ⟨hd, hlen, hcnt⟩ := ChimpScanState.decode_loop_ok D.DecompressValue Event.DecompressValue
      Event.DecompressValue_not_GetFlag _ _ _ _ _ hloop
    have hin := ChimpScanState.decode_loop_log D.DecompressValue Event.DecompressValue
      Event.DecompressValue_in_decode (n - 1)
      { s with group_state := { s.group_state with index := s.group_state.index + 1 },
               chimp_state := (D.LoadFirst s.chimp_state).2 } [(D.LoadFirst s.chimp_state).1]
    refine ⟨s1, [.D_ASSERT 56 (decide (s.group_state.index ≤ s.group_state.max_flags_to_read)),
      .D_ASSERT 57 (decide (s.group_state.index ≤ 1024)), .GetFlag s.group_state.index,
      .LoadFirst] ++ (ChimpScanState.decode_loop D.DecompressValue Event.DecompressValue (n - 1)
      { s with group_state := { s.group_state with index := s.group_state.index + 1 },
               chimp_state := (D.LoadFirst s.chimp_state).2 } [(D.LoadFirst s.chimp_state).1]).log,
      ?_, hfin, ?_, ?_, ?_, ?_⟩
    · have hd1 : ChimpScanState.Decoded 1 s
          { s with group_state := { s.group_state with index := s.group_state.index + 1 },
                   chimp_state := (D.LoadFirst s.chimp_state).2 } :=
        ⟨rfl, Or.inr (by omega), le_refl _, by simp, rfl, rfl, rfl, rfl, rfl, rfl, rfl, rfl⟩
      exact ChimpScanState.Decoded.trans hd1 hd
    · rw [hlog, hlog2]
      simp
    · rw [List.countP_append, hcnt]
      simp [Event.is_GetFlag]
    · intro e he
      simp only [List.mem_append, List.mem_cons, List.mem_singleton, List.not_mem_nil, or_false] at he
      rcases he with (he | he | he | he) | he
      · subst he; rfl
      · subst he; rfl
      · subst he; rfl
      · subst he; rfl
      · exact hin e he
    · rw [hlen]
      simp
  · simp [if_neg h1] at h

theorem ChimpScanState.ScanPartialGroup_ok (D : Chimp128Decompression CS V) (P : Page)
    {s t : ChimpScanState CS} {n : Nat} {out : List V}
    (h : (ChimpScanState.ScanPartialGroup D P s n).result = .ok (t, out)) :
    ChimpScanState.GroupScanned D P
      [.ScanPartialGroup n, .D_ASSERT 153 (decide (n ≤ CHIMP_SEQUENCE_SIZE))] n n s
      (ChimpScanState.ScanPartialGroup D P s n).log t out := by
  unfold ChimpScanState.ScanPartialGroup at h ⊢
  simp only [Exec.emit, D_ASSERT, Exec.bind_mk_ok] at h ⊢
  obtain ⟨⟨s1, vals⟩, hloop, hrest, hlog⟩ := Exec.bind_ok_inv h
  obtain ⟨⟨t', ht'⟩, hfin, hret, hlog2⟩ := Exec.bind_ok_inv hrest
  simp only [Exec.pure_eq, Except.ok.injEq, Prod.mk.injEq] at hret
  obtain ⟨rfl, rfl⟩ := hret
  obtain ⟨hd, hlen, hcnt⟩ := ChimpScanState.decode_loop_ok D.Load Event.Chimp_Load
    Event.Chimp_Load_not_GetFlag _ _ _ _ _ hloop
  have hin := ChimpScanState.decode_loop_log D.Load Event.Chimp_Load
    Event.Chimp_Load_in_decode n s []
  refine ⟨s1, (ChimpScanState.decode_loop D.Load Event.Chimp_Load n s []).log,
    hd, hfin, ?_, hcnt, hin, ?_⟩
  · rw [hlog, hlog2]
    simp
  · rw [hlen]
    simp

end GroupScanLemmas2


section GroupScanLemmas3

variable {CS V : Type}

theorem Exec.mem_bind_log {α β : Type} {x : Exec α} {f : α → Exec β} {e : Event}
    (h : e ∈ (x >>= f).log) : e ∈ x.log ∨ ∃ a, x.result = .ok a ∧ e ∈ (f a).log := by
  cases hr : x.result with
  | error err =>
    rw [Exec.bind_of_error hr] at h
    exact Or.inl h
  | ok a =>
    rw [Exec.bind_of_ok hr] at h
    simp only [List.mem_append] at h
    rcases h with h | h
    · exact Or.inl h
    · exact Or.inr ⟨a, rfl, h⟩

theorem Event.in_decode_not_LoadGroup {e : Event} (h : e.in_decode = true) : e.is_LoadGroup = false := by
  cases e <;> first | rfl | simp [Event.in_decode] at h

theorem Event.in_LoadGroup_not_GetFlag {e : Event} (h : e.in_LoadGroup = true) : e.is_GetFlag = false := by
  cases e <;> first | rfl | simp [Event.in_LoadGroup] at h

theorem Event.in_decode_group_size_ok {e : Event} (h : e.in_decode = true) : e.group_size_ok = true := by
  cases e with
  | D_ASSERT line holds =>
    simp only [Event.in_decode, Bool.or_eq_true, beq_iff_eq] at h
    rcases h with (h | h) | h <;> (subst h; rfl)
  | ScanGroup n => simp [Event.in_decode] at h
  | ScanPartialGroup n => simp [Event.in_decode] at h
  | _ => rfl

theorem Event.in_LoadGroup_group_size_ok {e : Event} (h : e.in_LoadGroup = true) :
    e.group_size_ok = true := by
  cases e <;> first | rfl | simp [Event.in_LoadGroup] at h

theorem Event.in_decode_ne_assert {e : Event} (h : e.in_decode = true) (line : Nat) (b : Bool)
    (h47 : line ≠ 47) (h56 : line ≠ 56) (h57 : line ≠ 57) : e ≠ .D_ASSERT line b := by
  intro he
  subst he
  simp [Event.in_decode, h47, h56, h57] at h

theorem Event.in_LoadGroup_ne_assert {e : Event} (h : e.in_LoadGroup = true) (line : Nat) (b : Bool) :
    e ≠ .D_ASSERT line b := by
  intro he
  subst he
  simp [Event.in_LoadGroup] at h

theorem ChimpScanState.finish_group_log (D : Chimp128Decompression CS V) (P : Page)
    (s : ChimpScanState CS) (n : Nat) :
    ∀ e ∈ (ChimpScanState.finish_group D P s n).log, e.in_LoadGroup = true := by
  rw [ChimpScanState.finish_group_eq]
  intro e he
  split at he
  · exact (ChimpScanState.LoadGroup_log D P _).2.2 e he
  · simp at he

/-- Every event of a `ScanGroup` call, whether it returns or not. -/
theorem ChimpScanState.ScanGroup_log (D : Chimp128Decompression CS V) (P : Page)
    (s : ChimpScanState CS) (n : Nat) :
    ∀ e ∈ (ChimpScanState.ScanGroup D P s n).log,
      e = .ScanGroup n ∨ e = .D_ASSERT 131 (decide (n ≤ CHIMP_SEQUENCE_SIZE)) ∨
        e.in_decode = true ∨ e.in_LoadGroup = true := by
  intro e he
  unfold ChimpScanState.ScanGroup at he
  simp only [Exec.emit, D_ASSERT, Exec.bind_mk_ok, ChimpGroupState.GetFlag_eq] at he
  by_cases h1 : s.group_state.index < CHIMP_SEQUENCE_SIZE + 1
  · simp only [if_pos h1, Exec.bind_mk_ok, List.mem_append, List.mem_cons, List.mem_singleton,
      List.not_mem_nil, or_false] at he
    rcases he with he | he | (he | he | he) | he | he
    · exact Or.inl he
    · exact Or.inr (Or.inl he)
    · subst he; exact Or.inr (Or.inr (Or.inl rfl))
    · subst he; exact Or.inr (Or.inr (Or.inl rfl))
    · subst he; exact Or.inr (Or.inr (Or.inl rfl))
    · subst he; exact Or.inr (Or.inr (Or.inl rfl))
    · rcases Exec.mem_bind_log he with he | ⟨⟨s1, vals⟩, -, he⟩
      · exact Or.inr (Or.inr (Or.inl (ChimpScanState.decode_loop_log D.DecompressValue
          Event.DecompressValue Event.DecompressValue_in_decode _ _ _ e he)))
      · rcases Exec.mem_bind_log he with he | ⟨t, -, he⟩
        · exact Or.inr (Or.inr (Or.inr (ChimpScanState.finish_group_log D P _ _ e he)))
        · simp at he
  · simp only [if_neg h1, Exec.bind_mk_error, List.mem_append, List.mem_cons, List.mem_singleton,
      List.not_mem_nil, or_false] at he
    rcases he with he | he | he | he | he
    · exact Or.inl he
    · exact Or.inr (Or.inl he)
    · subst he; exact Or.inr (Or.inr (Or.inl rfl))
    · subst he; exact Or.inr (Or.inr (Or.inl rfl))
    · subst he; exact Or.inr (Or.inr (Or.inl rfl))

/-- Every event of a `ScanPartialGroup` call, whether it returns or not. -/
theorem ChimpScanState.ScanPartialGroup_log (D : Chimp128Decompression CS V) (P : Page)
    (s : ChimpScanState CS) (n : Nat) :
    ∀ e ∈ (ChimpScanState.ScanPartialGroup D P s n).log,
      e = .ScanPartialGroup n ∨ e = .D_ASSERT 153 (decide (n ≤ CHIMP_SEQUENCE_SIZE)) ∨
        e.in_decode = true ∨ e.in_LoadGroup = true := by
  intro e he
  unfold ChimpScanState.ScanPartialGroup at he
  simp only [Exec.emit, D_ASSERT, Exec.bind_mk_ok, List.mem_append, List.mem_cons,
    List.mem_singleton, List.not_mem_nil, or_false] at he
  rcases he with he | he | he
  · exact Or.inl he
  · exact Or.inr (Or.inl he)
  · rcases Exec.mem_bind_log he with he | ⟨⟨s1, vals⟩, -, he⟩
    · exact Or.inr (Or.inr (Or.inl (ChimpScanState.decode_loop_log D.Load
        Event.Chimp_Load Event.Chimp_Load_in_decode _ _ _ e he)))
    · rcases Exec.mem_bind_log he with he | ⟨t, -, he⟩
      · exact Or.inr (Or.inr (Or.inr (ChimpScanState.finish_group_log D P _ _ e he)))
      · simp at he

theorem ChimpScanState.finish_group_succeeds (D : Chimp128Decompression CS V) (P : Page)
    (s : ChimpScanState CS) (n : Nat)
    (hfit : (s.total_value_count + n) % 1024 = 0 →
      (s.total_value_count + n) % 18446744073709551616 < s.segment.count →
      P.descriptor_fits s.metadata_ptr) :
    ∃ t, (ChimpScanState.finish_group D P s n).result = .ok t := by
  rw [ChimpScanState.finish_group_eq]
  split
  · rename_i hc
    exact ChimpScanState.LoadGroup_succeeds D P _ (hfit hc.1 hc.2)
  · exact ⟨_, rfl⟩

theorem ChimpScanState.ScanGroup_succeeds (D : Chimp128Decompression CS V) (P : Page)
    (s : ChimpScanState CS) (n : Nat)
    (h1 : s.group_state.index + (1 + (n - 1)) ≤ CHIMP_SEQUENCE_SIZE + 1)
    (h2 : s.group_state.leading_zero_index + (n - 1) ≤ CHIMP_SEQUENCE_SIZE + 1)
    (hfit : (s.total_value_count + n) % 1024 = 0 →
      (s.total_value_count + n) % 18446744073709551616 < s.segment.count →
      P.descriptor_fits s.metadata_ptr) :
    ∃ r, (ChimpScanState.ScanGroup D P s n).result = .ok r := by
  unfold ChimpScanState.ScanGroup
  simp only [Exec.emit, D_ASSERT, Exec.bind_mk_ok, ChimpGroupState.GetFlag_eq]
  have h0 : s.group_state.index < CHIMP_SEQUENCE_SIZE + 1 := by omega
  simp only [if_pos h0, Exec.bind_mk_ok]
  obtain ⟨⟨s1, vals⟩, hloop⟩ := ChimpScanState.decode_loop_succeeds D.DecompressValue
    Event.DecompressValue Event.DecompressValue_not_GetFlag (n - 1)
    { s with group_state := { s.group_state with index := s.group_state.index + 1 },
             chimp_state := (D.LoadFirst s.chimp_state).2 } [(D.LoadFirst s.chimp_state).1]
    (by simp only; omega) (by simp only; omega)
  obtain ⟨hd, -, -⟩ := ChimpScanState.decode_loop_ok D.DecompressValue Event.DecompressValue
    Event.DecompressValue_not_GetFlag _ _ _ _ _ hloop
  obtain ⟨t, hfin⟩ := ChimpScanState.finish_group_succeeds D P s1 n (by
    rw [hd.total_eq, hd.segment_eq, hd.metadata_eq]; exact hfit)
  rw [Exec.bind_of_ok hloop]
  simp only
  rw [Exec.bind_of_ok hfin]
  exact ⟨_, rfl⟩

theorem ChimpScanState.ScanPartialGroup_succeeds (D : Chimp128Decompression CS V) (P : Page)
    (s : ChimpScanState CS) (n : Nat)
    (h1 : s.group_state.index + n ≤ CHIMP_SEQUENCE_SIZE + 1)
    (h2 : s.group_state.leading_zero_index + n ≤ CHIMP_SEQUENCE_SIZE + 1)
    (hfit : (s.total_value_count + n) % 1024 = 0 →
      (s.total_value_count + n) % 18446744073709551616 < s.segment.count →
      P.descriptor_fits s.metadata_ptr) :
    ∃ r, (ChimpScanState.ScanPartialGroup D P s n).result = .ok r := by
  unfold ChimpScanState.ScanPartialGroup
  simp only [Exec.emit, D_ASSERT, Exec.bind_mk_ok]
  obtain ⟨⟨s1, vals⟩, hloop⟩ := ChimpScanState.decode_loop_succeeds D.Load
    Event.Chimp_Load Event.Chimp_Load_not_GetFlag n s [] h1 h2
  obtain ⟨hd, -, -⟩ := ChimpScanState.decode_loop_ok D.Load Event.Chimp_Load
    Event.Chimp_Load_not_GetFlag _ _ _ _ _ hloop
  obtain ⟨t, hfin⟩ := ChimpScanState.finish_group_succeeds D P s1 n (by
    rw [hd.total_eq, hd.segment_eq, hd.metadata_eq]; exact hfit)
  rw [Exec.bind_of_ok hloop]
  simp only
  rw [Exec.bind_of_ok hfin]
  exact ⟨_, rfl⟩

end GroupScanLemmas3


section EffectLemmas

variable {CS V : Type}

theorem ChimpScanState.finish_group_ok (D : Chimp128Decompression CS V) (P : Page)
    {s t : ChimpScanState CS} {n : Nat}
    (h : (ChimpScanState.finish_group D P s n).result = .ok t) :
    t.total_value_count = (s.total_value_count + n) % 18446744073709551616 ∧
    t.segment = s.segment ∧ t.handle = s.handle ∧
    (s.crosses n →
      P.descriptor_fits s.metadata_ptr ∧ t.group_state.index = 0 ∧
      t.group_state.leading_zero_index = 0 ∧ t.metadata_ptr = P.next_descriptor s.metadata_ptr ∧
      (ChimpScanState.finish_group D P s n).log.countP Event.is_LoadGroup = 1 ∧
      (ChimpScanState.LoadGroup D P
        { s with total_value_count := (s.total_value_count + n) % 18446744073709551616 }).result = .ok t) ∧
    (¬ s.crosses n →
      t.group_state = s.group_state ∧ t.metadata_ptr = s.metadata_ptr ∧
      t.chimp_state = s.chimp_state ∧
      (ChimpScanState.finish_group D P s n).log = []) := by
  rw [ChimpScanState.finish_group_eq] at h ⊢
  unfold ChimpScanState.crosses
  by_cases hc : (s.total_value_count + n) % 1024 = 0 ∧
      (s.total_value_count + n) % 18446744073709551616 < s.segment.count
  · rw [if_pos hc] at h ⊢
    obtain ⟨hfit, ht⟩ := ChimpScanState.LoadGroup_ok D P h
    subst ht
    refine ⟨rfl, rfl, rfl, fun _ => ⟨hfit, rfl, rfl, rfl, (ChimpScanState.LoadGroup_log D P _).1, h⟩,
      fun hn => absurd hc hn⟩
  · rw [if_neg hc] at h ⊢
    simp only [Except.ok.injEq] at h
    subst h
    exact ⟨rfl, rfl, rfl, fun hn => absurd hn hc, fun _ => ⟨rfl, rfl, rfl, rfl⟩⟩

theorem ChimpScanState.finish_group_log_GetFlag (D : Chimp128Decompression CS V) (P : Page)
    (s : ChimpScanState CS) (n : Nat) :
    (ChimpScanState.finish_group D P s n).log.countP Event.is_GetFlag = 0 := by
  rw [List.countP_eq_zero]
  intro e he
  rw [Event.in_LoadGroup_not_GetFlag (ChimpScanState.finish_group_log D P s n e he)]
  simp

/-- The effect of a group scan that returned. -/
theorem ChimpScanState.GroupScanned.scanned_effect {D : Chimp128Decompression CS V} {P : Page}
    {entry log : List Event} {n m : Nat} {s t : ChimpScanState CS} {out : List V}
    (h : ChimpScanState.GroupScanned D P entry n m s log t out)
    (he1 : entry.countP Event.is_GetFlag = 0) (he2 : entry.countP Event.is_LoadGroup = 0) :
    t.total_value_count = (s.total_value_count + n) % 18446744073709551616 ∧
    t.segment = s.segment ∧ t.handle = s.handle ∧
    log.countP Event.is_GetFlag = m ∧ out.length = m ∧
    (m = 0 ∨ s.group_state.index + m ≤ CHIMP_SEQUENCE_SIZE + 1) ∧
    (s.crosses n →
      P.descriptor_fits s.metadata_ptr ∧ t.group_state.index = 0 ∧
      t.group_state.leading_zero_index = 0 ∧ t.metadata_ptr = P.next_descriptor s.metadata_ptr ∧
      log.countP Event.is_LoadGroup = 1 ∧
      ∃ mid : ChimpScanState CS, mid.metadata_ptr = s.metadata_ptr ∧
        (ChimpScanState.LoadGroup D P mid).result = .ok t) ∧
    (¬ s.crosses n →
      t.group_state.index = s.group_state.index + m ∧
      s.group_state.leading_zero_index ≤ t.group_state.leading_zero_index ∧
      t.group_state.leading_zero_index ≤ s.group_state.leading_zero_index + m ∧
      t.metadata_ptr = s.metadata_ptr ∧ log.countP Event.is_LoadGroup = 0) := by
  obtain ⟨mid, l, hd, hfin, hlog, hcnt, hin, hlen⟩ := h
  obtain ⟨h1, h2, h3, h4, h5⟩ := ChimpScanState.finish_group_ok D P hfin
  have hcross : mid.crosses n ↔ s.crosses n := by
    unfold ChimpScanState.crosses
    rw [hd.total_eq, hd.segment_eq]
  have hl0 : l.countP Event.is_LoadGroup = 0 := by
    rw [List.countP_eq_zero]
    intro e he
    rw [Event.in_decode_not_LoadGroup (hin e he)]
    simp
  refine ⟨?_, ?_, ?_, ?_, hlen, hd.index_le, ?_, ?_⟩
  · rw [h1, hd.total_eq]
  · rw [h2, hd.segment_eq]
  · rw [h3, hd.handle_eq]
  · rw [hlog, List.countP_append, List.countP_append, he1, hcnt,
      ChimpScanState.finish_group_log_GetFlag]
    omega
  · intro hc
    obtain ⟨a1, a2, a3, a4, a5, a6⟩ := h4 (hcross.mpr hc)
    refine ⟨?_, a2, a3, ?_, ?_, ⟨_, ?_, a6⟩⟩
    · rw [← hd.metadata_eq]; exact a1
    · rw [a4, hd.metadata_eq]
    · rw [hlog, List.countP_append, List.countP_append, he2, hl0, a5]
    · exact hd.metadata_eq
  · intro hc
    obtain ⟨a1, a2, a3, a4⟩ := h5 (fun hx => hc (hcross.mp hx))
    refine ⟨?_, ?_, ?_, ?_, ?_⟩
    · rw [a1]; exact hd.index_eq
    · rw [a1]; exact hd.lz_ge
    · rw [a1]; exact hd.lz_le
    · rw [a2, hd.metadata_eq]
    · rw [hlog, List.countP_append, List.countP_append, he2, hl0, a4]
      rfl

/-- A group scan inside the current group keeps the relation between the cursors.  The size
decoded is `n`, except for a `ScanGroup` of size 0 on a fresh group, which decodes 1 value. -/
theorem ChimpScanState.GroupScanned.scanned_inv {D : Chimp128Decompression CS V} {P : Page}
    {entry log : List Event} {n m : Nat} {s t : ChimpScanState CS} {out : List V}
    (h : ChimpScanState.GroupScanned D P entry n m s log t out)
    (he1 : entry.countP Event.is_GetFlag = 0) (he2 : entry.countP Event.is_LoadGroup = 0)
    (hinv : s.Inv) (hn : s.total_value_count + n ≤ s.segment.count) (hleft : n ≤ s.LeftInGroup)
    (hm : m = n ∨ (n = 0 ∧ m = 1 ∧ s.group_state.index = 0)) :
    t.Inv ∧ t.total_value_count = s.total_value_count + n := by
  obtain ⟨h1, h2, _, _, _, h6, h7, h8⟩ := h.scanned_effect he1 he2
  have hlt := s.segment.count_lt
  have ht : t.total_value_count = s.total_value_count + n := by
    rw [h1]; exact Nat.mod_eq_of_lt (by omega)
  rw [ChimpScanState.LeftInGroup_eq] at hleft
  obtain ⟨i1, i2, i3, i4⟩ := hinv
  refine ⟨?_, ht⟩
  by_cases hc : s.crosses n
  · obtain ⟨_, b2, b3, _, _, _⟩ := h7 hc
    refine ⟨by rw [ht, h2]; exact hn, ?_, by rw [b2, b3], by rw [b2]; omega⟩
    intro _
    rw [b2, ht]
    exact hc.1.symm
  · obtain ⟨b1, b2, b3, _, _⟩ := h8 hc
    have hc' : ¬ ((s.total_value_count + n) % 1024 = 0 ∧ s.total_value_count + n < s.segment.count) := by
      intro hx
      apply hc
      refine ⟨hx.1, ?_⟩
      rw [Nat.mod_eq_of_lt (by omega)]
      exact hx.2
    refine ⟨by rw [ht, h2]; exact hn, ?_, by rw [b1]; omega, ?_⟩
    · intro hlt'
      rw [ht, h2] at hlt'
      rw [b1, ht]
      rcases hm with hm | ⟨hn0, hm1, hidx⟩
      · subst hm
        by_cases hz : m = 0
        · subst hz
          simp only [Nat.add_zero] at hlt' ⊢
          exact i2 hlt'
        · have := i2 (by omega)
          omega
      · subst hn0
        have := i2 (by omega)
        omega
    · rw [b1]
      rcases hm with hm | ⟨hn0, hm1, hidx⟩
      · subst hm
        by_cases hz : m = 0
        · subst hz; omega
        · have := i2 (by omega)
          omega
      · omega

end EffectLemmas


section SteppedLemmas

variable {CS V : Type}

theorem Event.is_entry_counts {n : Nat} {entry : List Event} (h : ∀ e ∈ entry, e.is_entry n) :
    entry.countP Event.is_GetFlag = 0 ∧ entry.countP Event.is_LoadGroup = 0 := by
  constructor
  · rw [List.countP_eq_zero]
    intro e he
    rcases h e he with h | h | h | h <;> (subst h; simp [Event.is_GetFlag])
  · rw [List.countP_eq_zero]
    intro e he
    rcases h e he with h | h | h | h <;> (subst h; simp [Event.is_LoadGroup])

theorem ChimpScanState.ScanGroup_stepped (D : Chimp128Decompression CS V) (P : Page)
    {s t : ChimpScanState CS} {n : Nat} {out : List V}
    (h : (ChimpScanState.ScanGroup D P s n).result = .ok (t, out))
    (hn : 1 ≤ n ∨ s.group_state.index = 0) :
    ChimpScanState.Stepped D P n s (ChimpScanState.ScanGroup D P s n).log t out := by
  refine ⟨_, _, ChimpScanState.ScanGroup_ok D P h, ?_, ?_⟩
  · intro e he
    simp only [List.mem_cons, List.mem_singleton, List.not_mem_nil, or_false] at he
    rcases he with he | he
    · exact Or.inl he
    · exact Or.inr (Or.inl he)
  · by_cases h0 : n = 0
    · subst h0
      right
      exact ⟨rfl, rfl, by omega⟩
    · left; omega

theorem ChimpScanState.ScanPartialGroup_stepped (D : Chimp128Decompression CS V) (P : Page)
    {s t : ChimpScanState CS} {n : Nat} {out : List V}
    (h : (ChimpScanState.ScanPartialGroup D P s n).result = .ok (t, out)) :
    ChimpScanState.Stepped D P n s (ChimpScanState.ScanPartialGroup D P s n).log t out := by
  refine ⟨_, _, ChimpScanState.ScanPartialGroup_ok D P h, ?_, Or.inl rfl⟩
  intro e he
  simp only [List.mem_cons, List.mem_singleton, List.not_mem_nil, or_false] at he
  rcases he with he | he
  · exact Or.inr (Or.inr (Or.inl he))
  · exact Or.inr (Or.inr (Or.inr he))

/-- The effect of a group scan of at least one value that returned. -/
theorem ChimpScanState.Stepped.step_effect {D : Chimp128Decompression CS V} {P : Page}
    {log : List Event} {n : Nat} {s t : ChimpScanState CS} {out : List V}
    (h : ChimpScanState.Stepped D P n s log t out) :
    t.total_value_count = (s.total_value_count + n) % 18446744073709551616 ∧
    t.segment = s.segment ∧ t.handle = s.handle ∧
    (1 ≤ n → log.countP Event.is_GetFlag = n ∧ out.length = n ∧
      s.group_state.index + n ≤ CHIMP_SEQUENCE_SIZE + 1) ∧
    (s.crosses n →
      P.descriptor_fits s.metadata_ptr ∧ t.group_state.index = 0 ∧
      t.group_state.leading_zero_index = 0 ∧ t.metadata_ptr = P.next_descriptor s.metadata_ptr ∧
      log.countP Event.is_LoadGroup = 1 ∧
      ∃ mid : ChimpScanState CS, mid.metadata_ptr = s.metadata_ptr ∧
        (ChimpScanState.LoadGroup D P mid).result = .ok t) ∧
    (¬ s.crosses n → t.metadata_ptr = s.metadata_ptr ∧ log.countP Event.is_LoadGroup = 0 ∧
      (1 ≤ n → t.group_state.index = s.group_state.index + n)) := by
  obtain ⟨entry, m, hg, hentry, hm⟩ := h
  obtain ⟨he1, he2⟩ := Event.is_entry_counts hentry
  obtain ⟨h1, h2, h3, h4, h5, h6, h7, h8⟩ := hg.scanned_effect he1 he2
  refine ⟨h1, h2, h3, ?_, h7, ?_⟩
  · intro hn
    have : m = n := by omega
    subst this
    exact ⟨h4, h5, by omega⟩
  · intro hc
    obtain ⟨b1, _, _, b4, b5⟩ := h8 hc
    refine ⟨b4, b5, ?_⟩
    intro hn
    have : m = n := by omega
    subst this
    exact b1

/-- A group scan inside the current group keeps the relation between the cursors. -/
theorem ChimpScanState.Stepped.step_inv {D : Chimp128Decompression CS V} {P : Page}
    {log : List Event} {n : Nat} {s t : ChimpScanState CS} {out : List V}
    (h : ChimpScanState.Stepped D P n s log t out)
    (hinv : s.Inv) (hn : s.total_value_count + n ≤ s.segment.count) (hleft : n ≤ s.LeftInGroup) :
    t.Inv ∧ t.total_value_count = s.total_value_count + n := by
  obtain ⟨entry, m, hg, hentry, hm⟩ := h
  obtain ⟨he1, he2⟩ := Event.is_entry_counts hentry
  exact hg.scanned_inv he1 he2 hinv hn hleft hm

/-- Every event of a group scan that returned is an entry event of that scan, an event of value
decoding or an event of `LoadGroup`. -/
theorem ChimpScanState.Stepped.log_shape {D : Chimp128Decompression CS V} {P : Page}
    {log : List Event} {n : Nat} {s t : ChimpScanState CS} {out : List V}
    (h : ChimpScanState.Stepped D P n s log t out) :
    ∀ e ∈ log, e.is_entry n ∨ e.in_decode = true ∨ e.in_LoadGroup = true := by
  obtain ⟨entry, m, ⟨mid, l, _, _, hlog, _, hin, _⟩, hentry, _⟩ := h
  intro e he
  rw [hlog] at he
  simp only [List.mem_append] at he
  rcases he with (he | he) | he
  · exact Or.inl (hentry e he)
  · exact Or.inr (Or.inl (hin e he))
  · exact Or.inr (Or.inr (ChimpScanState.finish_group_log D P _ _ e he))

end SteppedLemmas


section ScanPartialLemmas

variable {CS V : Type}

theorem ChimpGroupState.Started_false_iff (g : ChimpGroupState) : g.Started = false ↔ g.index = 0 := by
  unfold ChimpGroupState.Started
  simp

theorem ChimpGroupState.Started_true_iff (g : ChimpGroupState) : g.Started = true ↔ 0 < g.index := by
  unfold ChimpGroupState.Started
  simp
  omega

/-- The function `ChimpScanPartial` as one sequence: the group scan chosen by `Started()`, then
the rest. -/
theorem ChimpScanPartial_eq (D : Chimp128Decompression CS V) (P : Page) (s : ChimpScanState CS)
    (n off : Nat) :
    ChimpScanPartial D P s n off =
      ((if (!s.group_state.Started) = true then
          ChimpScanState.ScanGroup D P s (min n s.LeftInGroup)
        else ChimpScanState.ScanPartialGroup D P s (min n s.LeftInGroup)) >>= fun r =>
        if n - min n s.LeftInGroup = 0 then
          (pure (r.1, List.enumFrom off r.2) : Exec (ChimpScanState CS × List (Nat × V)))
        else
          D_ASSERT 250 (!r.1.group_state.Started) >>= fun _ =>
            ChimpScanState.ScanGroup D P r.1 (n - min n s.LeftInGroup) >>= fun r2 =>
              pure (r2.1, List.enumFrom off r.2 ++ List.enumFrom (off + min n s.LeftInGroup) r2.2)) := by
  unfold ChimpScanPartial
  split <;> rfl

/-- A call of `ChimpScanPartial` that returned: one group scan of `min n LeftInGroup()` values
and, when values are left to scan, the assertion of line 250 and a `ScanGroup` of the rest. -/
theorem ChimpScanPartial_ok (D : Chimp128Decompression CS V) (P : Page) (s : ChimpScanState CS)
    (n off : Nat) {t : ChimpScanState CS} {stores : List (Nat × V)}
    (h : (ChimpScanPartial D P s n off).result = .ok (t, stores)) :
    ∃ (s1 : ChimpScanState CS) (vals1 : List V) (l1 : List Event),
      ChimpScanState.Stepped D P (min n s.LeftInGroup) s l1 s1 vals1 ∧
      ((n - min n s.LeftInGroup = 0 ∧ t = s1 ∧ stores = List.enumFrom off vals1 ∧
          (ChimpScanPartial D P s n off).log = l1) ∨
       (n - min n s.LeftInGroup ≠ 0 ∧ ∃ (vals2 : List V) (l2 : List Event),
          ChimpScanState.Stepped D P (n - min n s.LeftInGroup) s1 l2 t vals2 ∧
          stores = List.enumFrom off vals1 ++ List.enumFrom (off + min n s.LeftInGroup) vals2 ∧
          (ChimpScanPartial D P s n off).log =
            l1 ++ [.D_ASSERT 250 (!s1.group_state.Started)] ++ l2)) := by
  rw [ChimpScanPartial_eq] at h ⊢
  obtain ⟨⟨s1, vals1⟩, hfirst, hrest, hlog⟩ := Exec.bind_ok_inv h
  have hstep : ChimpScanState.Stepped D P (min n s.LeftInGroup) s
      (if (!s.group_state.Started) = true then
        ChimpScanState.ScanGroup D P s (min n s.LeftInGroup)
       else ChimpScanState.ScanPartialGroup D P s (min n s.LeftInGroup)).log s1 vals1 := by
    by_cases hs : (!s.group_state.Started) = true
    · rw [if_pos hs] at hfirst ⊢
      have : s.group_state.index = 0 := by
        rw [← ChimpGroupState.Started_false_iff]
        simpa using hs
      exact ChimpScanState.ScanGroup_stepped D P hfirst (Or.inr this)
    · rw [if_neg hs] at hfirst ⊢
      exact ChimpScanState.ScanPartialGroup_stepped D P hfirst
  refine ⟨s1, vals1, _, hstep, ?_⟩
  simp only at hrest
  clear hlog
  by_cases h0 : n - min n s.LeftInGroup = 0
  · left
    rw [if_pos h0] at hrest
    simp only [Exec.pure_eq, Except.ok.injEq, Prod.mk.injEq] at hrest
    refine ⟨h0, hrest.1.symm, hrest.2.symm, ?_⟩
    rw [Exec.bind_of_ok hfirst]
    simp [if_pos h0]
  · right
    rw [if_neg h0] at hrest
    simp only [D_ASSERT, Exec.emit, Exec.bind_mk_ok] at hrest
    obtain ⟨⟨t', vals2⟩, hsecond, hret, -⟩ := Exec.bind_ok_inv hrest
    simp only [Exec.pure_eq, Except.ok.injEq, Prod.mk.injEq] at hret
    obtain ⟨rfl, rfl⟩ := hret
    refine ⟨h0, vals2, _, ChimpScanState.ScanGroup_stepped D P hsecond (Or.inl (by omega)), rfl, ?_⟩
    rw [Exec.bind_of_ok hfirst]
    simp only [if_neg h0, D_ASSERT, Exec.emit, Exec.bind_mk_ok]
    rw [Exec.bind_of_ok hsecond]
    simp

end ScanPartialLemmas


section ScanPartialEffects

variable {CS V : Type}

theorem ChimpScanState.LeftInGroup_pos (s : ChimpScanState CS) : 1 ≤ s.LeftInGroup ∧ s.LeftInGroup ≤ 1024 := by
  rw [ChimpScanState.LeftInGroup_eq]
  omega

theorem Page.descriptor_end_succ (P : Page) (p : Int) (k : Nat) :
    P.descriptor_end p (k + 1) = P.next_descriptor (P.descriptor_end p k) := by
  unfold Page.descriptor_end
  exact Function.iterate_succ_apply' _ _ _

theorem Page.descriptor_end_add (P : Page) (p : Int) (a b : Nat) :
    P.descriptor_end (P.descriptor_end p a) b = P.descriptor_end p (a + b) := by
  unfold Page.descriptor_end
  rw [Nat.add_comm, Function.iterate_add_apply]

/-- The descriptors consumed by a group scan of `1 ≤ n ≤ LeftInGroup()` values. -/
theorem ChimpScanState.Stepped.step_loads {D : Chimp128Decompression CS V} {P : Page}
    {log : List Event} {n : Nat} {s t : ChimpScanState CS} {out : List V}
    (h : ChimpScanState.Stepped D P n s log t out)
    (hn1 : 1 ≤ n) (hn : s.total_value_count + n ≤ s.segment.count) (hleft : n ≤ s.LeftInGroup) :
    groups_loaded s.segment.count (s.total_value_count + n) =
        groups_loaded s.segment.count s.total_value_count + log.countP Event.is_LoadGroup ∧
      t.metadata_ptr = P.descriptor_end s.metadata_ptr (log.countP Event.is_LoadGroup) := by
  obtain ⟨_, _, _, _, h5, h6⟩ := h.step_effect
  have hlt := s.segment.count_lt
  rw [ChimpScanState.LeftInGroup_eq] at hleft
  unfold groups_loaded
  by_cases hc : s.crosses n
  · obtain ⟨_, _, _, b4, b5, _⟩ := h5 hc
    rw [b5, b4]
    obtain ⟨c1, c2⟩ := hc
    rw [Nat.mod_eq_of_lt (by omega)] at c2
    refine ⟨?_, rfl⟩
    rw [if_pos c2, if_pos (by omega)]
    omega
  · obtain ⟨b1, b2, _⟩ := h6 hc
    rw [b2, b1]
    refine ⟨?_, rfl⟩
    have hc' : ¬ ((s.total_value_count + n) % 1024 = 0 ∧ s.total_value_count + n < s.segment.count) := by
      intro hx
      apply hc
      refine ⟨hx.1, ?_⟩
      rw [Nat.mod_eq_of_lt (by omega)]
      exact hx.2
    rw [if_pos (show s.total_value_count < s.segment.count by omega)]
    by_cases hend : s.total_value_count + n < s.segment.count
    · rw [if_pos hend]
      omega
    · rw [if_neg hend]
      omega

/-- A call of `ChimpScanPartial` for `1 ≤ n ≤ segment.count - total_value_count` values that
returned: the slots stored, the flags read and the new `total_value_count`. -/
theorem ChimpScanPartial_effect (D : Chimp128Decompression CS V) (P : Page) (s : ChimpScanState CS)
    (n off : Nat) {t : ChimpScanState CS} {stores : List (Nat × V)}
    (hn1 : 1 ≤ n) (hn : s.total_value_count + n ≤ s.segment.count)
    (h : (ChimpScanPartial D P s n off).result = .ok (t, stores)) :
    stores.map Prod.fst = List.range' off n ∧
      (ChimpScanPartial D P s n off).log.countP Event.is_GetFlag = n ∧
      t.total_value_count = s.total_value_count + n ∧ t.segment = s.segment := by
  obtain ⟨s1, vals1, l1, hstep1, hcase⟩ := ChimpScanPartial_ok D P s n off h
  have hleft := s.LeftInGroup_pos
  have hlt := s.segment.count_lt
  obtain ⟨a1, a2, _, a4, _, _⟩ := hstep1.step_effect
  obtain ⟨a41, a42, _⟩ := a4 (by omega)
  rw [Nat.mod_eq_of_lt (by omega)] at a1
  rcases hcase with ⟨h0, rfl, rfl, hlog⟩ | ⟨h0, vals2, l2, hstep2, rfl, hlog⟩
  · have hk : min n s.LeftInGroup = n := by omega
    rw [hk] at a1 a41 a42
    refine ⟨?_, ?_, a1, a2⟩
    · rw [List.enumFrom_map_fst, a42]
    · rw [hlog, a41]
  · obtain ⟨b1, b2, _, b4, _, _⟩ := hstep2.step_effect
    obtain ⟨b41, b42, _⟩ := b4 (by omega)
    rw [a1, Nat.mod_eq_of_lt (by omega)] at b1
    refine ⟨?_, ?_, ?_, ?_⟩
    · rw [List.map_append, List.enumFrom_map_fst, List.enumFrom_map_fst, a42, b42,
        List.range'_append_1]
      congr 1
      omega
    · rw [hlog, List.countP_append, List.countP_append, a41, b41]
      simp [Event.is_GetFlag]
    · rw [b1]; omega
    · rw [b2, a2]

/-- A call of `ChimpScanPartial` whose rest after the first chunk is at most one group keeps the
relation between the cursors and consumes the descriptors of the groups it enters. -/
theorem ChimpScanPartial_inv (D : Chimp128Decompression CS V) (P : Page) (s : ChimpScanState CS)
    (n off : Nat) {t : ChimpScanState CS} {stores : List (Nat × V)}
    (hinv : s.Inv) (hn : s.total_value_count + n ≤ s.segment.count)
    (hrest : n - min n s.LeftInGroup ≤ CHIMP_SEQUENCE_SIZE)
    (h : (ChimpScanPartial D P s n off).result = .ok (t, stores)) :
    t.Inv ∧ t.total_value_count = s.total_value_count + n ∧ t.segment = s.segment ∧
      (1 ≤ n →
        groups_loaded s.segment.count (s.total_value_count + n) =
          groups_loaded s.segment.count s.total_value_count +
            (ChimpScanPartial D P s n off).log.countP Event.is_LoadGroup ∧
        t.metadata_ptr = P.descriptor_end s.metadata_ptr
          ((ChimpScanPartial D P s n off).log.countP Event.is_LoadGroup)) := by
  obtain ⟨s1, vals1, l1, hstep1, hcase⟩ := ChimpScanPartial_ok D P s n off h
  have hleft := s.LeftInGroup_pos
  have hlt := s.segment.count_lt
  obtain ⟨i1, a1⟩ := hstep1.step_inv hinv (by omega) (by omega)
  obtain ⟨_, a2, _, _, _, _⟩ := hstep1.step_effect
  rcases hcase with ⟨h0, rfl, rfl, hlog⟩ | ⟨h0, vals2, l2, hstep2, rfl, hlog⟩
  · have hk : min n s.LeftInGroup = n := by omega
    rw [hk] at a1 hstep1
    refine ⟨i1, a1, a2, ?_⟩
    intro hn1
    rw [hlog]
    exact hstep1.step_loads hn1 hn (by omega)
  · have hk : min n s.LeftInGroup = s.LeftInGroup := by omega
    rw [hk] at a1 hstep1 hstep2
    have hl1 : s1.LeftInGroup = 1024 := by
      rw [ChimpScanState.LeftInGroup_eq, a1, ChimpScanState.LeftInGroup_eq]
      omega
    simp only [CHIMP_SEQUENCE_SIZE, hk] at hrest
    obtain ⟨i2, b1⟩ := hstep2.step_inv i1 (by rw [a1, a2]; omega) (by omega)
    obtain ⟨_, b2, _, _, _, _⟩ := hstep2.step_effect
    refine ⟨i2, by rw [b1, a1]; omega, by rw [b2, a2], ?_⟩
    intro hn1
    obtain ⟨c1, c2⟩ := hstep1.step_loads hleft.1 (by omega) (le_refl _)
    obtain ⟨d1, d2⟩ := hstep2.step_loads (by omega) (by rw [a1, a2]; omega) (by omega)
    rw [a1, a2] at d1
    have hsum : s.total_value_count + s.LeftInGroup + (n - s.LeftInGroup) = s.total_value_count + n := by
      omega
    rw [hsum] at d1
    have hcount : (ChimpScanPartial D P s n off).log.countP Event.is_LoadGroup =
        l1.countP Event.is_LoadGroup + l2.countP Event.is_LoadGroup := by
      rw [hlog, List.countP_append, List.countP_append]
      simp [Event.is_LoadGroup]
    rw [hcount]
    refine ⟨by omega, ?_⟩
    rw [d2, c2, Page.descriptor_end_add]

end ScanPartialEffects


section FaultLemmas

variable {CS V : Type}

theorem Exec.bind_error_inv {α β : Type} {x : Exec α} {f : α → Exec β} {e : Fault}
    (h : (x >>= f).result = .error e) :
    x.result = .error e ∨ ∃ a, x.result = .ok a ∧ (f a).result = .error e := by
  cases hr : x.result with
  | error err =>
    rw [Exec.bind_of_error hr] at h
    simp only [Except.error.injEq] at h
    subst h
    exact Or.inl rfl
  | ok a =>
    rw [Exec.bind_of_ok hr] at h
    exact Or.inr ⟨a, rfl, h⟩

theorem ChimpScanState.decode_step_fault (decode : Nat → Nat → CS → (V × Bool) × CS)
    (ev : Nat → Nat → Bool → Event) (s : ChimpScanState CS) {e : Fault}
    (h : (ChimpScanState.decode_step decode ev s).result = .error e) : e.is_array_access = true := by
  rw [ChimpScanState.decode_step_eq] at h
  split at h
  · split at h
    · simp at h
    · simp only [Except.error.injEq] at h
      subst h; rfl
  · simp only [Except.error.injEq] at h
    subst h; rfl

theorem ChimpScanState.decode_loop_fault (decode : Nat → Nat → CS → (V × Bool) × CS)
    (ev : Nat → Nat → Bool → Event) :
    ∀ (k : Nat) (s : ChimpScanState CS) (values : List V) (e : Fault),
      (ChimpScanState.decode_loop decode ev k s values).result = .error e →
      e.is_array_access = true := by
  intro k
  induction k with
  | zero =>
    intro s values e h
    simp [ChimpScanState.decode_loop] at h
  | succ k ih =>
    intro s values e h
    unfold ChimpScanState.decode_loop at h
    rcases Exec.bind_error_inv h with h | ⟨r, -, h⟩
    · exact ChimpScanState.decode_step_fault decode ev s h
    · exact ih _ _ e h

theorem ChimpScanState.LoadGroup_fault (D : Chimp128Decompression CS V) (P : Page)
    (s : ChimpScanState CS) {e : Fault}
    (h : (ChimpScanState.LoadGroup D P s).result = .error e) : e.is_array_access = true := by
  rw [ChimpScanState.LoadGroup_eq] at h
  simp only at h
  split at h
  · split at h
    · simp at h
    · simp only [Except.error.injEq] at h
      subst h; rfl
  · simp only [Except.error.injEq] at h
    subst h; rfl

theorem ChimpScanState.finish_group_fault (D : Chimp128Decompression CS V) (P : Page)
    (s : ChimpScanState CS) (n : Nat) {e : Fault}
    (h : (ChimpScanState.finish_group D P s n).result = .error e) : e.is_array_access = true := by
  rw [ChimpScanState.finish_group_eq] at h
  split at h
  · exact ChimpScanState.LoadGroup_fault D P _ h
  · simp at h

theorem ChimpScanState.ScanGroup_fault (D : Chimp128Decompression CS V) (P : Page)
    (s : ChimpScanState CS) (n : Nat) {e : Fault}
    (h : (ChimpScanState.ScanGroup D P s n).result = .error e) : e.is_array_access = true := by
  unfold ChimpScanState.ScanGroup at h
  simp only [Exec.emit, D_ASSERT, Exec.bind_mk_ok, ChimpGroupState.GetFlag_eq] at h
  by_cases h1 : s.group_state.index < CHIMP_SEQUENCE_SIZE + 1
  · simp only [if_pos h1, Exec.bind_mk_ok] at h
    rcases Exec.bind_error_inv h with h | ⟨r, -, h⟩
    · exact ChimpScanState.decode_loop_fault _ _ _ _ _ e h
    · rcases Exec.bind_error_inv h with h | ⟨r2, -, h⟩
      · exact ChimpScanState.finish_group_fault D P _ _ h
      · simp at h
  · simp only [if_neg h1, Exec.bind_mk_error, Except.error.injEq] at h
    subst h; rfl

theorem ChimpScanState.ScanPartialGroup_fault (D : Chimp128Decompression CS V) (P : Page)
    (s : ChimpScanState CS) (n : Nat) {e : Fault}
    (h : (ChimpScanState.ScanPartialGroup D P s n).result = .error e) : e.is_array_access = true := by
  unfold ChimpScanState.ScanPartialGroup at h
  simp only [Exec.emit, D_ASSERT, Exec.bind_mk_ok] at h
  rcases Exec.bind_error_inv h with h | ⟨r, -, h⟩
  · exact ChimpScanState.decode_loop_fault _ _ _ _ _ e h
  · rcases Exec.bind_error_inv h with h | ⟨r2, -, h⟩
    · exact ChimpScanState.finish_group_fault D P _ _ h
    · simp at h

end FaultLemmas

section SkipLemmas

variable {CS V : Type}

/-- One iteration of the loop of `Skip` as one sequence. -/
theorem ChimpScanState.Skip_loop_succ (D : Chimp128Decompression CS V) (P : Page)
    (fuel to_skip : Nat) (s : ChimpScanState CS) :
    ChimpScanState.Skip.loop D P (fuel + 1) (to_skip + 1) s =
      ((if s.group_state.Started = true then
          ChimpScanState.ScanGroup D P s (min (to_skip + 1) s.LeftInGroup)
        else ChimpScanState.ScanPartialGroup D P s (min (to_skip + 1) s.LeftInGroup)) >>= fun r =>
        if CHIMP_SEQUENCE_SIZE < r.2.length then Exec.fault .buffer_write
        else ChimpScanState.Skip.loop D P fuel (to_skip + 1 - min (to_skip + 1) s.LeftInGroup) r.1) := by
  rw [ChimpScanState.Skip.loop]
  split <;> rfl

/-- The group scan of one iteration of `Skip`, when it returns. -/
theorem ChimpScanState.Skip_chunk_stepped (D : Chimp128Decompression CS V) (P : Page)
    (s : ChimpScanState CS) (k : Nat) (hk : 1 ≤ k) {r : ChimpScanState CS × List V}
    (h : (if s.group_state.Started = true then ChimpScanState.ScanGroup D P s k
        else ChimpScanState.ScanPartialGroup D P s k).result = .ok r) :
    ChimpScanState.Stepped D P k s
      (if s.group_state.Started = true then ChimpScanState.ScanGroup D P s k
        else ChimpScanState.ScanPartialGroup D P s k).log r.1 r.2 := by
  obtain ⟨t, out⟩ := r
  by_cases hs : s.group_state.Started = true
  · rw [if_pos hs] at h ⊢
    exact ChimpScanState.ScanGroup_stepped D P h (Or.inl hk)
  · rw [if_neg hs] at h ⊢
    exact ChimpScanState.ScanPartialGroup_stepped D P h

/-- The loop of `Skip` never runs out of iterations and never overruns its buffer: with
`to_skip ≤ fuel` it ends by returning or by an access outside `flags` / `leading_zeros`. -/
theorem ChimpScanState.Skip_loop_fault (D : Chimp128Decompression CS V) (P : Page) :
    ∀ (fuel to_skip : Nat) (s : ChimpScanState CS) (e : Fault), to_skip ≤ fuel →
      (ChimpScanState.Skip.loop D P fuel to_skip s).result = .error e →
      e.is_array_access = true := by
  intro fuel
  induction fuel with
  | zero =>
    intro to_skip s e hle h
    have : to_skip = 0 := by omega
    subst this
    simp [ChimpScanState.Skip.loop] at h
  | succ fuel ih =>
    intro to_skip s e hle h
    cases to_skip with
    | zero => simp [ChimpScanState.Skip.loop] at h
    | succ to_skip =>
      rw [ChimpScanState.Skip_loop_succ] at h
      have hleft := s.LeftInGroup_pos
      rcases Exec.bind_error_inv h with h | ⟨r, hr, h⟩
      · by_cases hs : s.group_state.Started = true
        · rw [if_pos hs] at h
          exact ChimpScanState.ScanGroup_fault D P _ _ h
        · rw [if_neg hs] at h
          exact ChimpScanState.ScanPartialGroup_fault D P _ _ h
      · have hstep := ChimpScanState.Skip_chunk_stepped D P s _ (by omega) hr
        obtain ⟨_, _, _, a4, _, _⟩ := hstep.step_effect
        obtain ⟨_, a42, _⟩ := a4 (by omega)
        have hlen : ¬ CHIMP_SEQUENCE_SIZE < r.2.length := by
          rw [a42]; simp only [CHIMP_SEQUENCE_SIZE]; omega
        rw [if_neg hlen] at h
        exact ih _ _ e (by omega) h

/-- Every group scan made by the loop of `Skip` has a size inside `1 .. 1024`, and its
assertion on `group_size` holds. -/
theorem ChimpScanState.Skip_loop_log (D : Chimp128Decompression CS V) (P : Page) :
    ∀ (fuel to_skip : Nat) (s : ChimpScanState CS),
      ∀ e ∈ (ChimpScanState.Skip.loop D P fuel to_skip s).log, e.group_size_ok = true := by
  intro fuel
  induction fuel with
  | zero =>
    intro to_skip s e he
    cases to_skip <;> simp [ChimpScanState.Skip.loop, Exec.fault] at he
  | succ fuel ih =>
    intro to_skip s e he
    cases to_skip with
    | zero => simp [ChimpScanState.Skip.loop] at he
    | succ to_skip =>
      rw [ChimpScanState.Skip_loop_succ] at he
      have hleft := s.LeftInGroup_pos
      have hk1 : 1 ≤ min (to_skip + 1) s.LeftInGroup := by omega
      have hk2 : min (to_skip + 1) s.LeftInGroup ≤ CHIMP_SEQUENCE_SIZE := by
        simp only [CHIMP_SEQUENCE_SIZE]; omega
      rcases Exec.mem_bind_log he with he | ⟨r, -, he⟩
      · by_cases hs : s.group_state.Started = true
        · rw [if_pos hs] at he
          rcases ChimpScanState.ScanGroup_log D P _ _ e he with h | h | h | h
          · subst h; simp [Event.group_size_ok, hk1, hk2]
          · subst h; simp [Event.group_size_ok, hk2]
          · exact Event.in_decode_group_size_ok h
          · exact Event.in_LoadGroup_group_size_ok h
        · rw [if_neg hs] at he
          rcases ChimpScanState.ScanPartialGroup_log D P _ _ e he with h | h | h | h
          · subst h; simp [Event.group_size_ok, hk1, hk2]
          · subst h; simp [Event.group_size_ok, hk2]
          · exact Event.in_decode_group_size_ok h
          · exact Event.in_LoadGroup_group_size_ok h
      · split at he
        · simp [Exec.fault] at he
        · exact ih _ _ e he

/-- The loop of `Skip`, when it returns, has added `to_skip` to `total_value_count` (in `idx_t`
arithmetic) and has read `to_skip` flags. -/
theorem ChimpScanState.Skip_loop_ok (D : Chimp128Decompression CS V) (P : Page) :
    ∀ (fuel to_skip : Nat) (s t : ChimpScanState CS),
      (ChimpScanState.Skip.loop D P fuel to_skip s).result = .ok t →
      t.total_value_count % 18446744073709551616 =
        (s.total_value_count + to_skip) % 18446744073709551616 ∧
      (0 < to_skip → t.total_value_count < 18446744073709551616) ∧
      (to_skip = 0 → t = s) ∧ t.segment = s.segment ∧
      (ChimpScanState.Skip.loop D P fuel to_skip s).log.countP Event.is_GetFlag = to_skip := by
  intro fuel
  induction fuel with
  | zero =>
    intro to_skip s t h
    cases to_skip with
    | zero =>
      simp only [ChimpScanState.Skip.loop, Exec.pure_eq, Except.ok.injEq] at h
      subst h
      exact ⟨rfl, fun h => absurd h (by omega), fun _ => rfl, rfl, rfl⟩
    | succ to_skip => simp [ChimpScanState.Skip.loop, Exec.fault] at h
  | succ fuel ih =>
    intro to_skip s t h
    cases to_skip with
    | zero =>
      simp only [ChimpScanState.Skip.loop, Exec.pure_eq, Except.ok.injEq] at h
      subst h
      exact ⟨rfl, fun h => absurd h (by omega), fun _ => rfl, rfl, rfl⟩
    | succ to_skip =>
      rw [ChimpScanState.Skip_loop_succ] at h ⊢
      have hleft := s.LeftInGroup_pos
      obtain ⟨r, hr, hrest, hlog⟩ := Exec.bind_ok_inv h
      have hstep := ChimpScanState.Skip_chunk_stepped D P s _ (by omega) hr
      obtain ⟨a1, a2, _, a4, _, _⟩ := hstep.step_effect
      obtain ⟨a41, a42, _⟩ := a4 (by omega)
      have hlen : ¬ CHIMP_SEQUENCE_SIZE < r.2.length := by
        rw [a42]; simp only [CHIMP_SEQUENCE_SIZE]; omega
      rw [if_neg hlen] at hrest
      obtain ⟨b1, b2, b3, b4, b5⟩ := ih _ _ _ hrest
      refine ⟨?_, ?_, fun h0 => absurd h0 (by omega), by rw [b4, a2], ?_⟩
      · rw [b1, a1]
        omega
      · intro _
        by_cases hz : to_skip + 1 - min (to_skip + 1) s.LeftInGroup = 0
        · rw [b3 hz, a1]
          exact Nat.mod_lt _ (by omega)
        · exact b2 (by omega)
      · rw [hlog, List.countP_append, a41]
        simp only [if_neg hlen]
        rw [b5]
        omega

end SkipLemmas


section SuccessLemmas

variable {CS V : Type}

/-- The group scan chosen for a chunk returns when the chunk stays in the current group and the
descriptor it may load fits. -/
theorem ChimpScanState.chunk_succeeds (D : Chimp128Decompression CS V) (P : Page)
    (s : ChimpScanState CS) (k : Nat) (hinv : s.Inv) (hk : k ≤ s.LeftInGroup)
    (hn : s.total_value_count + k ≤ s.segment.count)
    (hfit : s.crosses k → P.descriptor_fits s.metadata_ptr) :
    ((1 ≤ k ∨ s.group_state.index = 0) → ∃ r, (ChimpScanState.ScanGroup D P s k).result = .ok r) ∧
    ∃ r, (ChimpScanState.ScanPartialGroup D P s k).result = .ok r := by
  obtain ⟨i1, i2, i3, i4⟩ := hinv
  rw [ChimpScanState.LeftInGroup_eq] at hk
  have hfit' : (s.total_value_count + k) % 1024 = 0 →
      (s.total_value_count + k) % 18446744073709551616 < s.segment.count →
      P.descriptor_fits s.metadata_ptr := fun a b => hfit ⟨a, b⟩
  constructor
  · intro h
    apply ChimpScanState.ScanGroup_succeeds D P s k _ _ hfit'
    · simp only [CHIMP_SEQUENCE_SIZE]
      rcases h with h | h
      · have := i2 (by omega)
        omega
      · omega
    · simp only [CHIMP_SEQUENCE_SIZE]
      rcases h with h | h
      · have := i2 (by omega)
        omega
      · omega
  · apply ChimpScanState.ScanPartialGroup_succeeds D P s k _ _ hfit'
    · simp only [CHIMP_SEQUENCE_SIZE]
      by_cases h : k = 0
      · omega
      · have := i2 (by omega)
        omega
    · simp only [CHIMP_SEQUENCE_SIZE]
      by_cases h : k = 0
      · omega
      · have := i2 (by omega)
        omega

/-- A call of `ChimpScanPartial` returns when the part left after its first chunk is at most
1025 values (the entries of `flags`) and the descriptors of the groups it enters fit. -/
theorem ChimpScanPartial_succeeds (D : Chimp128Decompression CS V) (P : Page) (s : ChimpScanState CS)
    (n off : Nat) (hinv : s.Inv) (hn : s.total_value_count + n ≤ s.segment.count)
    (hrest : n - min n s.LeftInGroup ≤ CHIMP_SEQUENCE_SIZE + 1)
    (hfit1 : P.descriptor_fits s.metadata_ptr)
    (hfit2 : P.descriptor_fits (P.next_descriptor s.metadata_ptr)) :
    ∃ r, (ChimpScanPartial D P s n off).result = .ok r := by
  have hleft := s.LeftInGroup_pos
  obtain ⟨c1, ⟨r2, c2⟩⟩ := ChimpScanState.chunk_succeeds D P s (min n s.LeftInGroup) hinv (by omega)
    (by omega) (fun _ => hfit1)
  rw [ChimpScanPartial_eq]
  have hfirst : ∃ r, (if (!s.group_state.Started) = true then
          ChimpScanState.ScanGroup D P s (min n s.LeftInGroup)
        else ChimpScanState.ScanPartialGroup D P s (min n s.LeftInGroup)).result = .ok r ∧
      ChimpScanState.Stepped D P (min n s.LeftInGroup) s
        (if (!s.group_state.Started) = true then
          ChimpScanState.ScanGroup D P s (min n s.LeftInGroup)
        else ChimpScanState.ScanPartialGroup D P s (min n s.LeftInGroup)).log r.1 r.2 := by
    by_cases hs : (!s.group_state.Started) = true
    · have hidx : s.group_state.index = 0 := by
        rw [← ChimpGroupState.Started_false_iff]
        simpa using hs
      obtain ⟨r1, hr1⟩ := c1 (Or.inr hidx)
      rw [if_pos hs]
      exact ⟨r1, hr1, ChimpScanState.ScanGroup_stepped D P hr1 (Or.inr hidx)⟩
    · rw [if_neg hs]
      exact ⟨r2, c2, ChimpScanState.ScanPartialGroup_stepped D P c2⟩
  obtain ⟨r, hr, hstep⟩ := hfirst
  rw [Exec.bind_of_ok hr]
  simp only
  by_cases h0 : n - min n s.LeftInGroup = 0
  · rw [if_pos h0]
    exact ⟨_, rfl⟩
  · rw [if_neg h0]
    simp only [D_ASSERT, Exec.emit, Exec.bind_mk_ok]
    have hk : min n s.LeftInGroup = s.LeftInGroup := by omega
    rw [hk] at hstep ⊢
    have hlt := s.segment.count_lt
    obtain ⟨i1, a1⟩ := hstep.step_inv hinv (by omega) (le_refl _)
    obtain ⟨_, a2, _, _, a5, _⟩ := hstep.step_effect
    have hcross : s.crosses s.LeftInGroup := by
      constructor
      · rw [ChimpScanState.LeftInGroup_eq]; omega
      · rw [Nat.mod_eq_of_lt (by omega)]; omega
    obtain ⟨_, b2, b3, b4, _, _⟩ := a5 hcross
    simp only [CHIMP_SEQUENCE_SIZE, hk] at hrest
    obtain ⟨r3, hr3⟩ := ChimpScanState.ScanGroup_succeeds D P r.1 (n - s.LeftInGroup)
      (by rw [b2]; simp only [CHIMP_SEQUENCE_SIZE]; omega)
      (by rw [b3]; simp only [CHIMP_SEQUENCE_SIZE]; omega)
      (fun _ _ => by rw [b4]; exact hfit2)
    rw [Exec.bind_of_ok hr3]
    exact ⟨_, rfl⟩

/-- The loop of `Skip` keeps the relation between the cursors and consumes the descriptors of
the groups it enters. -/
theorem ChimpScanState.Skip_loop_inv (D : Chimp128Decompression CS V) (P : Page) :
    ∀ (fuel to_skip : Nat) (s t : ChimpScanState CS), s.Inv →
      s.total_value_count + to_skip ≤ s.segment.count →
      (ChimpScanState.Skip.loop D P fuel to_skip s).result = .ok t →
      t.Inv ∧ t.total_value_count = s.total_value_count + to_skip ∧ t.segment = s.segment ∧
      groups_loaded s.segment.count (s.total_value_count + to_skip) =
        groups_loaded s.segment.count s.total_value_count +
          (ChimpScanState.Skip.loop D P fuel to_skip s).log.countP Event.is_LoadGroup ∧
      t.metadata_ptr = P.descriptor_end s.metadata_ptr
        ((ChimpScanState.Skip.loop D P fuel to_skip s).log.countP Event.is_LoadGroup) := by
  intro fuel
  induction fuel with
  | zero =>
    intro to_skip s t hinv hn h
    cases to_skip with
    | zero =>
      simp only [ChimpScanState.Skip.loop, Exec.pure_eq, Except.ok.injEq] at h
      subst h
      exact ⟨hinv, rfl, rfl, rfl, rfl⟩
    | succ to_skip => simp [ChimpScanState.Skip.loop, Exec.fault] at h
  | succ fuel ih =>
    intro to_skip s t hinv hn h
    cases to_skip with
    | zero =>
      simp only [ChimpScanState.Skip.loop, Exec.pure_eq, Except.ok.injEq] at h
      subst h
      exact ⟨hinv, rfl, rfl, rfl, rfl⟩
    | succ to_skip =>
      rw [ChimpScanState.Skip_loop_succ] at h ⊢
      have hleft := s.LeftInGroup_pos
      obtain ⟨r, hr, hrest, hlog⟩ := Exec.bind_ok_inv h
      have hstep := ChimpScanState.Skip_chunk_stepped D P s _ (by omega) hr
      obtain ⟨_, a2, _, a4, _, _⟩ := hstep.step_effect
      obtain ⟨_, a42, _⟩ := a4 (by omega)
      obtain ⟨i1, a1⟩ := hstep.step_inv hinv (by omega) (by omega)
      obtain ⟨c1, c2⟩ := hstep.step_loads (by omega) (by omega) (by omega)
      have hlen : ¬ CHIMP_SEQUENCE_SIZE < r.2.length := by
        rw [a42]; simp only [CHIMP_SEQUENCE_SIZE]; omega
      rw [if_neg hlen] at hrest
      obtain ⟨i2, b1, b2, b3, b4⟩ := ih _ _ _ i1 (by rw [a1, a2]; omega) hrest
      rw [a1, a2] at b3
      have hsum : s.total_value_count + min (to_skip + 1) s.LeftInGroup +
          (to_skip + 1 - min (to_skip + 1) s.LeftInGroup) = s.total_value_count + (to_skip + 1) := by
        omega
      rw [hsum] at b3
      rw [hlog]
      simp only [if_neg hlen, List.countP_append]
      refine ⟨i2, by rw [b1, a1]; omega, by rw [b2, a2], by omega, ?_⟩
      rw [b4, c2, Page.descriptor_end_add]

/-- The loop of `Skip` returns when the descriptors of the groups it enters fit. -/
theorem ChimpScanState.Skip_loop_succeeds (D : Chimp128Decompression CS V) (P : Page) :
    ∀ (fuel to_skip : Nat) (s : ChimpScanState CS), to_skip ≤ fuel → s.Inv →
      s.total_value_count + to_skip ≤ s.segment.count →
      (∀ j, P.descriptor_fits (P.descriptor_end s.metadata_ptr j)) →
      ∃ t, (ChimpScanState.Skip.loop D P fuel to_skip s).result = .ok t := by
  intro fuel
  induction fuel with
  | zero =>
    intro to_skip s hle hinv hn hfit
    have : to_skip = 0 := by omega
    subst this
    exact ⟨s, rfl⟩
  | succ fuel ih =>
    intro to_skip s hle hinv hn hfit
    cases to_skip with
    | zero => exact ⟨s, rfl⟩
    | succ to_skip =>
      rw [ChimpScanState.Skip_loop_succ]
      have hleft := s.LeftInGroup_pos
      obtain ⟨c1, ⟨r2, c2⟩⟩ := ChimpScanState.chunk_succeeds D P s
        (min (to_skip + 1) s.LeftInGroup) hinv (by omega) (by omega) (fun _ => hfit 0)
      have hfirst : ∃ r, (if s.group_state.Started = true then
            ChimpScanState.ScanGroup D P s (min (to_skip + 1) s.LeftInGroup)
          else ChimpScanState.ScanPartialGroup D P s (min (to_skip + 1) s.LeftInGroup)).result =
            .ok r := by
        by_cases hs : s.group_state.Started = true
        · rw [if_pos hs]
          exact c1 (Or.inl (by omega))
        · rw [if_neg hs]
          exact ⟨r2, c2⟩
      obtain ⟨r, hr⟩ := hfirst
      have hstep := ChimpScanState.Skip_chunk_stepped D P s _ (by omega) hr
      obtain ⟨_, a2, _, a4, _, _⟩ := hstep.step_effect
      obtain ⟨_, a42, _⟩ := a4 (by omega)
      obtain ⟨i1, a1⟩ := hstep.step_inv hinv (by omega) (by omega)
      obtain ⟨_, c2'⟩ := hstep.step_loads (by omega) (by omega) (by omega)
      have hlen : ¬ CHIMP_SEQUENCE_SIZE < r.2.length := by
        rw [a42]; simp only [CHIMP_SEQUENCE_SIZE]; omega
      rw [Exec.bind_of_ok hr]
      simp only [if_neg hlen]
      apply ih _ _ (by omega) i1 (by rw [a1, a2]; omega)
      intro j
      rw [c2', Page.descriptor_end_add]
      exact hfit _

end SuccessLemmas


section ReachableLemmas

variable {CS V : Type}

/-- The constructor is the load of the first descriptor below `metadata_start`. -/
theorem ChimpInitScan_eq (D : Chimp128Decompression CS V) (P : Page) (segment : ColumnSegment)
    (dataptr : Int) (uninitialized : ChimpGroupState) :
    ChimpInitScan D P segment dataptr uninitialized =
      ⟨.Load_uint32 (dataptr + (segment.block_offset : Int)) ::
        (ChimpScanState.LoadGroup D P
          { chimp_state := D.SetStream (dataptr + (segment.block_offset : Int) + (HEADER_SIZE : Int)) D.init
            handle := dataptr
            metadata_ptr := P.metadata_start segment dataptr
            total_value_count := 0
            group_state := uninitialized
            segment := segment }).log,
       (ChimpScanState.LoadGroup D P
          { chimp_state := D.SetStream (dataptr + (segment.block_offset : Int) + (HEADER_SIZE : Int)) D.init
            handle := dataptr
            metadata_ptr := P.metadata_start segment dataptr
            total_value_count := 0
            group_state := uninitialized
            segment := segment }).result⟩ := by
  unfold ChimpInitScan Exec.emit
  simp only [Exec.bind_mk_ok]
  rfl

/-- The state the constructor leaves. -/
theorem ChimpInitScan_ok (D : Chimp128Decompression CS V) (P : Page) (segment : ColumnSegment)
    (dataptr : Int) (uninitialized : ChimpGroupState) {s : ChimpScanState CS}
    (h : (ChimpInitScan D P segment dataptr uninitialized).result = .ok s) :
    s.Inv ∧ s.total_value_count = 0 ∧ s.segment = segment ∧ s.group_state.index = 0 ∧
      (ChimpInitScan D P segment dataptr uninitialized).log.countP Event.is_LoadGroup = 1 ∧
      s.metadata_ptr = P.descriptor_end (P.metadata_start segment dataptr) 1 ∧
      P.descriptor_fits (P.metadata_start segment dataptr) := by
  rw [ChimpInitScan_eq] at h ⊢
  simp only at h
  obtain ⟨hfit, hs⟩ := ChimpScanState.LoadGroup_ok D P h
  subst hs
  refine ⟨⟨Nat.zero_le _, fun _ => rfl, le_refl _, Nat.zero_le _⟩, rfl, rfl, rfl, ?_, rfl, hfit⟩
  simp only [List.countP_cons, (ChimpScanState.LoadGroup_log D P _).1]
  simp [Event.is_LoadGroup]

theorem ChimpInitScan_succeeds (D : Chimp128Decompression CS V) (P : Page) (segment : ColumnSegment)
    (dataptr : Int) (uninitialized : ChimpGroupState)
    (hfit : P.descriptor_fits (P.metadata_start segment dataptr)) :
    ∃ s, (ChimpInitScan D P segment dataptr uninitialized).result = .ok s := by
  rw [ChimpInitScan_eq]
  exact ChimpScanState.LoadGroup_succeeds D P _ hfit

/-- In every state reached by steps that stay inside one group after their first chunk, the flag
cursor is the position inside the current group. -/
theorem Reachable.reach_inv {D : Chimp128Decompression CS V} {P : Page} {segment : ColumnSegment}
    {dataptr : Int} {uninitialized : ChimpGroupState} {least : Nat} {s : ChimpScanState CS}
    {log : List Event}
    (h : Reachable D P segment dataptr uninitialized least true s log) :
    s.Inv ∧ s.segment = segment := by
  induction h with
  | init s hs =>
    obtain ⟨h1, _, h3, _⟩ := ChimpInitScan_ok D P segment dataptr uninitialized hs
    exact ⟨h1, h3⟩
  | scan s log n off t stores _ _ hn hone hres ih =>
    obtain ⟨h1, _, h3, _⟩ := ChimpScanPartial_inv D P s n off ih.1 hn (hone rfl) hres
    exact ⟨h1, by rw [h3, ih.2]⟩
  | skip s log n t _ _ hn hres ih =>
    obtain ⟨h1, _, h3, _⟩ := ChimpScanState.Skip_loop_inv D P n n s t ih.1 hn hres
    exact ⟨h1, by rw [h3, ih.2]⟩

/-- In every state reached by steps of at least one value that stay inside one group after
their first chunk, the descriptors consumed are those of the groups entered. -/
theorem Reachable.reach_loads {D : Chimp128Decompression CS V} {P : Page} {segment : ColumnSegment}
    {dataptr : Int} {uninitialized : ChimpGroupState} {least : Nat} {s : ChimpScanState CS}
    {log : List Event}
    (h : Reachable D P segment dataptr uninitialized least true s log)
    (hleast : 1 ≤ least) (hcount : 1 ≤ segment.count) :
    log.countP Event.is_LoadGroup = groups_loaded segment.count s.total_value_count ∧
      s.metadata_ptr = P.descriptor_end (P.metadata_start segment dataptr)
        (log.countP Event.is_LoadGroup) := by
  induction h with
  | init s hs =>
    obtain ⟨_, h2, _, _, h5, h6, _⟩ := ChimpInitScan_ok D P segment dataptr uninitialized hs
    rw [h5, h2, h6]
    refine ⟨?_, rfl⟩
    unfold groups_loaded
    rw [if_pos (by omega)]
  | scan s log n off t stores hreach hl hn hone hres ih =>
    obtain ⟨hinv, hseg⟩ := hreach.reach_inv
    obtain ⟨_, h2, _, h4⟩ := ChimpScanPartial_inv D P s n off hinv hn (hone rfl) hres
    obtain ⟨h41, h42⟩ := h4 (by omega)
    rw [hseg] at h41
    rw [List.countP_append, h2, h41, h42, ih.2, Page.descriptor_end_add, ih.1]
    exact ⟨rfl, rfl⟩
  | skip s log n t hreach hl hn hres ih =>
    obtain ⟨hinv, hseg⟩ := hreach.reach_inv
    obtain ⟨_, h2, _, h41, h42⟩ := ChimpScanState.Skip_loop_inv D P n n s t hinv hn hres
    rw [hseg] at h41
    have e : (ChimpScanState.Skip D P s n).log = (ChimpScanState.Skip.loop D P n n s).log := rfl
    rw [List.countP_append, h2, h41, h42, ih.2, Page.descriptor_end_add, ih.1, e]
    exact ⟨rfl, rfl⟩

end ReachableLemmas

/-! # The claims -/


/-- Claim C8: on `ChimpGroupState`, `GetFlag` returns `flags[index]` for the index held before
the call and changes only `index`, by +1 (for an index inside the array); `GetLeadingZero`
returns `leading_zeros[leading_zero_index]` and, returning a value only, changes no field;
`IncreaseLeadingZeroIndex` changes only `leading_zero_index`, by +1 in `uint32_t` arithmetic;
`Started()` is true iff `index > 0`; no accessor modifies `flags` or `leading_zeros`. -/
theorem ChimpGroupState.accessors_frame (g : ChimpGroupState) :
    (g.index < CHIMP_SEQUENCE_SIZE + 1 →
      g.GetFlag.result = .ok (g.flags g.index, { g with index := g.index + 1 })) ∧
    (g.leading_zero_index < CHIMP_SEQUENCE_SIZE + 1 →
      g.GetLeadingZero.result = .ok (g.leading_zeros g.leading_zero_index)) ∧
    g.IncreaseLeadingZeroIndex.result =
      .ok { g with leading_zero_index := (g.leading_zero_index + 1) % 4294967296 } ∧
    (g.leading_zero_index + 1 < 4294967296 →
      g.IncreaseLeadingZeroIndex.result =
        .ok { g with leading_zero_index := g.leading_zero_index + 1 }) ∧
    (g.Started = true ↔ 0 < g.index) := by
  refine ⟨?_, ?_, ?_, ?_, ChimpGroupState.Started_true_iff g⟩
  · intro h
    rw [ChimpGroupState.GetFlag_eq]
    simp only [if_pos h]
  · intro h
    rw [ChimpGroupState.GetLeadingZero_eq]
    simp only [if_pos h]
  · rw [ChimpGroupState.IncreaseLeadingZeroIndex_eq]
  · intro h
    rw [ChimpGroupState.IncreaseLeadingZeroIndex_eq, Nat.mod_eq_of_lt h]

/-- Witness of claim C8 on a group state with `index = 7` and `leading_zero_index = 7`. -/
theorem ChimpGroupState.accessors_frame_witness :
    (test_uninitialized.index < CHIMP_SEQUENCE_SIZE + 1 ∧
      test_uninitialized.leading_zero_index < CHIMP_SEQUENCE_SIZE + 1 ∧
      test_uninitialized.leading_zero_index + 1 < 4294967296) ∧
    test_uninitialized.GetFlag.result =
      .ok (test_uninitialized.flags test_uninitialized.index,
        { test_uninitialized with index := test_uninitialized.index + 1 }) ∧
    test_uninitialized.GetLeadingZero.result =
      .ok (test_uninitialized.leading_zeros test_uninitialized.leading_zero_index) ∧
    test_uninitialized.IncreaseLeadingZeroIndex.result =
      .ok { test_uninitialized with
        leading_zero_index := test_uninitialized.leading_zero_index + 1 } :=
  ⟨⟨by decide, by decide, by decide⟩,
    (ChimpGroupState.accessors_frame test_uninitialized).1 (by decide),
    (ChimpGroupState.accessors_frame test_uninitialized).2.1 (by decide),
    (ChimpGroupState.accessors_frame test_uninitialized).2.2.2.1 (by decide)⟩

/-- Claim C10, as stated, fails: after `Load` with `group_size = 0` (a group of one value)
`index ≤ group_size` holds, the two assertions of `GetFlag` pass, and the call leaves
`index = 1 > 0 = group_size`. -/
theorem ChimpGroupState.index_le_group_size_counterexample :
    ∃ (g g' : ChimpGroupState) (v : Nat),
      (test_uninitialized.Load (test_page 0 0 (fun _ => 0)) 0 0 0 0).result = .ok g ∧
      g.index ≤ g.max_flags_to_read ∧
      g.GetFlag.log = [.D_ASSERT 56 true, .D_ASSERT 57 true, .GetFlag 0] ∧
      g.GetFlag.result = .ok (v, g') ∧
      ¬ g'.index ≤ g'.max_flags_to_read := by
  refine ⟨ChimpGroupState.loaded (test_page 0 0 (fun _ => 0)) test_uninitialized 0 0 0 0,
    { ChimpGroupState.loaded (test_page 0 0 (fun _ => 0)) test_uninitialized 0 0 0 0 with
      index := 1 }, 0, ?_, ?_, ?_, ?_, ?_⟩
  · rw [ChimpGroupState.Load_eq]
    rfl
  · decide
  · rw [ChimpGroupState.GetFlag_eq]
    rfl
  · rw [ChimpGroupState.GetFlag_eq]
    rfl
  · decide

/-- Claim C10, amended: `index ≤ group_size + 1` (`group_size = max_flags_to_read`, the value
passed to `Load`) is an invariant of `ChimpGroupState`: it holds after `Load` (which returns
when its stores stay inside the arrays), it holds after every `GetFlag` call whose debug
assertions pass (such a call returns), and `IncreaseLeadingZeroIndex` changes neither `index`
nor `max_flags_to_read`; `GetLeadingZero` returns a value only. -/
theorem ChimpGroupState.index_le_group_size_succ (P : Page) (g : ChimpGroupState)
    (packed_flags packed_leading_zeros : Int) (group_size leading_zero_block_size : Nat) :
    (∀ g', (g.Load P packed_flags packed_leading_zeros group_size leading_zero_block_size).result
        = .ok g' → g'.max_flags_to_read = group_size ∧ g'.index ≤ g'.max_flags_to_read + 1) ∧
    (group_size ≤ CHIMP_SEQUENCE_SIZE → leading_zero_block_size ≤ CHIMP_SEQUENCE_SIZE + 1 →
      ∃ g', (g.Load P packed_flags packed_leading_zeros group_size leading_zero_block_size).result
        = .ok g') ∧
    ((∀ line, Event.D_ASSERT line false ∉ g.GetFlag.log) →
      ∃ v g', g.GetFlag.result = .ok (v, g') ∧ g'.max_flags_to_read = g.max_flags_to_read ∧
        g'.index ≤ g'.max_flags_to_read + 1) ∧
    (∀ g', g.IncreaseLeadingZeroIndex.result = .ok g' →
      g'.index = g.index ∧ g'.max_flags_to_read = g.max_flags_to_read) := by
  refine ⟨?_, ?_, ?_, ?_⟩
  · intro g' h
    rw [ChimpGroupState.Load_eq] at h
    simp only at h
    split at h
    · split at h
      · simp only [Except.ok.injEq] at h
        subst h
        exact ⟨rfl, Nat.zero_le _⟩
      · simp at h
    · simp at h
  · intro h1 h2
    rw [ChimpGroupState.Load_eq]
    simp only [if_pos h1, if_pos h2]
    exact ⟨_, rfl⟩
  · intro h
    rw [ChimpGroupState.GetFlag_eq] at h ⊢
    have h56 : g.index ≤ g.max_flags_to_read := by
      by_contra hc
      apply h 56
      simp [hc]
    have h57 : g.index ≤ 1024 := by
      by_contra hc
      apply h 57
      simp [hc]
    have hlt : g.index < CHIMP_SEQUENCE_SIZE + 1 := by
      simp only [CHIMP_SEQUENCE_SIZE]; omega
    simp only [if_pos hlt]
    exact ⟨_, _, rfl, rfl, by simp only; omega⟩
  · intro g' h
    rw [ChimpGroupState.IncreaseLeadingZeroIndex_eq] at h
    simp only [Except.ok.injEq] at h
    subst h
    exact ⟨rfl, rfl⟩

/-- Witness of the amended claim C10: a `Load` of 4 flags and 8 classes returns, and so does a
`GetFlag` call whose assertions pass. -/
theorem ChimpGroupState.index_le_group_size_succ_witness :
    ((4 ≤ CHIMP_SEQUENCE_SIZE ∧ 8 ≤ CHIMP_SEQUENCE_SIZE + 1) ∧
      ∀ line, Event.D_ASSERT line false ∉ test_uninitialized.GetFlag.log) ∧
    (∃ g', (test_uninitialized.Load (test_page 1 1 (fun _ => 0)) 0 0 4 8).result = .ok g') ∧
    (∃ v g', test_uninitialized.GetFlag.result = .ok (v, g') ∧
      g'.max_flags_to_read = test_uninitialized.max_flags_to_read ∧
      g'.index ≤ g'.max_flags_to_read + 1) :=
  have hpass : ∀ line, Event.D_ASSERT line false ∉ test_uninitialized.GetFlag.log := by
    intro line
    rw [ChimpGroupState.GetFlag_eq]
    simp [test_uninitialized]
  ⟨⟨⟨by decide, by decide⟩, hpass⟩,
    (ChimpGroupState.index_le_group_size_succ (test_page 1 1 (fun _ => 0)) test_uninitialized
      0 0 4 8).2.1 (by decide) (by decide),
    (ChimpGroupState.index_le_group_size_succ (test_page 1 1 (fun _ => 0)) test_uninitialized
      0 0 4 8).2.2.1 hpass⟩


section ClaimsLoadGroup

variable {CS V : Type}

/-- Claim C3: for a metadata cursor `p` and a group descriptor stored below it with
`leading_zero_block_count = c` and `flags_byte_size = f`, `LoadGroup` reads the 4-byte
`payload_bit_offset` at `p-4` and `c` at `p-5`, takes the packed leading-zero stream to start at
`p-5-3c`, reads `f` at `p-7-3c`, takes the packed flag stream to start at `p-7-3c-f`, and
leaves `metadata_ptr = p-7-3c-f`, a decrement of `7 + 3c + f` bytes, so that the next
`LoadGroup` reads from there; it returns whenever the two streams fit the arrays. -/
theorem ChimpScanState.LoadGroup_descriptor (D : Chimp128Decompression CS V) (P : Page)
    (s : ChimpScanState CS) (p : Int) (c f : Nat) (hp : s.metadata_ptr = p)
    (hc : (P.Load_uint8 (p - 5)).val = c)
    (hf : (P.Load_uint16 (p - 7 - 3 * (c : Int))).val = f) :
    (ChimpScanState.LoadGroup D P s).log =
      [.LoadGroup, .Reset, .Load_uint32 (p - 4), .Load_uint8 (p - 5),
        .Load_uint16 (p - 7 - 3 * (c : Int)),
        .GroupState_Load (p - 7 - 3 * (c : Int) - (f : Int)) (p - 5 - 3 * (c : Int)) (f * 4) (c * 8)] ∧
    (∀ t, (ChimpScanState.LoadGroup D P s).result = .ok t →
      t.metadata_ptr = p - 7 - 3 * (c : Int) - (f : Int) ∧
      s.metadata_ptr - t.metadata_ptr = 7 + 3 * (c : Int) + (f : Int) ∧
      (ChimpScanState.LoadGroup D P t).log.take 4 =
        [.LoadGroup, .Reset, .Load_uint32 (p - 7 - 3 * (c : Int) - (f : Int) - 4),
          .Load_uint8 (p - 7 - 3 * (c : Int) - (f : Int) - 5)]) ∧
    (f ≤ 256 → c ≤ 128 → ∃ t, (ChimpScanState.LoadGroup D P s).result = .ok t) := by
  have e1 : P.leading_zero_block_count s.metadata_ptr = c := by
    unfold Page.leading_zero_block_count
    rw [hp, hc]
  have e2 : P.flags_byte_size s.metadata_ptr = f := by
    unfold Page.flags_byte_size
    rw [e1, hp, hf]
  have e3 : P.next_descriptor s.metadata_ptr = p - 7 - 3 * (c : Int) - (f : Int) := by
    unfold Page.next_descriptor
    rw [e1, e2, hp]
  refine ⟨?_, ?_, ?_⟩
  · rw [ChimpScanState.LoadGroup_eq, e1, e2, e3, hp]
  · intro t ht
    obtain ⟨-, ht⟩ := ChimpScanState.LoadGroup_ok D P ht
    have hm : t.metadata_ptr = p - 7 - 3 * (c : Int) - (f : Int) := by
      rw [ht]
      exact e3
    refine ⟨hm, by rw [hm, hp]; omega, ?_⟩
    rw [ChimpScanState.LoadGroup_eq, hm]
    rfl
  · intro h1 h2
    apply ChimpScanState.LoadGroup_succeeds D P s
    unfold Page.descriptor_fits
    rw [e1, e2]
    exact ⟨h1, h2⟩

/-- Witness of claim C3: the descriptor with `c = 1` and `f = 1` below the cursor 4096. -/
theorem ChimpScanState.LoadGroup_descriptor_witness :
    ((test_unloaded 5).metadata_ptr = 4096 ∧
      ((test_page 1 1 (fun _ => 0)).Load_uint8 (4096 - 5)).val = 1 ∧
      ((test_page 1 1 (fun _ => 0)).Load_uint16 (4096 - 7 - 3 * ((1 : Nat) : Int))).val = 1) ∧
    (ChimpScanState.LoadGroup recording_decoder (test_page 1 1 (fun _ => 0)) (test_unloaded 5)).log =
      [.LoadGroup, .Reset, .Load_uint32 4092, .Load_uint8 4091, .Load_uint16 4086,
        .GroupState_Load 4085 4088 4 8] ∧
    ∃ t, (ChimpScanState.LoadGroup recording_decoder (test_page 1 1 (fun _ => 0))
      (test_unloaded 5)).result = .ok t :=
  ⟨⟨rfl, rfl, rfl⟩,
    (ChimpScanState.LoadGroup_descriptor recording_decoder (test_page 1 1 (fun _ => 0))
      (test_unloaded 5) 4096 1 1 rfl rfl rfl).1,
    (ChimpScanState.LoadGroup_descriptor recording_decoder (test_page 1 1 (fun _ => 0))
      (test_unloaded 5) 4096 1 1 rfl rfl rfl).2.2 (by decide) (by decide)⟩

/-- Claim C4, as stated, fails: for the descriptor with `flags_byte_size = 257` `LoadGroup`
invokes `Load` with `group_size = 1028`, and `Load` does not return: the store to `flags[1025]`
is outside the array of `CHIMP_SEQUENCE_SIZE + 1` entries. -/
theorem ChimpScanState.LoadGroup_loads_counterexample :
    (ChimpScanState.LoadGroup recording_decoder (test_page 0 257 (fun _ => 0))
        (test_unloaded 5)).log =
      [.LoadGroup, .Reset, .Load_uint32 4092, .Load_uint8 4091, .Load_uint16 4089,
        .GroupState_Load 3832 4091 1028 0] ∧
    (ChimpScanState.LoadGroup recording_decoder (test_page 0 257 (fun _ => 0))
        (test_unloaded 5)).result = .error .flags_write := by
  rw [ChimpScanState.LoadGroup_eq]
  exact ⟨rfl, rfl⟩

/-- Claim C4, amended: for every descriptor with `flags_byte_size = f ≤ 256` and
`leading_zero_block_count = c ≤ 128`, `LoadGroup` invokes `ChimpGroupState::Load` with
`group_size = 4*f` and `leading_zero_block_size = 8*c` and returns, and then `flags[0] = 0`,
`flags[1+i]` is the flag number `i` of the packed flag stream for every `i < 4*f`,
`leading_zeros[i]` is the class number `i` of the packed leading-zero stream for every
`i < 8*c`, `index = 0`, `leading_zero_index = 0` and `Started()` is false. -/
theorem ChimpScanState.LoadGroup_loads (D : Chimp128Decompression CS V) (P : Page)
    (s : ChimpScanState CS) (c f : Nat)
    (hc : P.leading_zero_block_count s.metadata_ptr = c) (hf : P.flags_byte_size s.metadata_ptr = f)
    (hf256 : f ≤ 256) (hc128 : c ≤ 128) :
    Event.GroupState_Load (s.metadata_ptr - 7 - 3 * (c : Int) - (f : Int))
        (s.metadata_ptr - 5 - 3 * (c : Int)) (4 * f) (8 * c) ∈ (ChimpScanState.LoadGroup D P s).log ∧
    ∃ t, (ChimpScanState.LoadGroup D P s).result = .ok t ∧
      t.group_state.flags 0 = 0 ∧
      (∀ i, i < 4 * f → t.group_state.flags (1 + i) =
        P.FlagBuffer_Extract (s.metadata_ptr - 7 - 3 * (c : Int) - (f : Int)) i) ∧
      (∀ i, i < 8 * c → t.group_state.leading_zeros i =
        P.LeadingZeroBuffer_Extract (s.metadata_ptr - 5 - 3 * (c : Int)) i) ∧
      t.group_state.index = 0 ∧ t.group_state.leading_zero_index = 0 ∧
      t.group_state.Started = false := by
  have e3 : P.next_descriptor s.metadata_ptr = s.metadata_ptr - 7 - 3 * (c : Int) - (f : Int) := by
    unfold Page.next_descriptor
    rw [hc, hf]
  have hfit : P.descriptor_fits s.metadata_ptr := by
    unfold Page.descriptor_fits
    rw [hc, hf]
    exact ⟨hf256, hc128⟩
  obtain ⟨t, ht⟩ := ChimpScanState.LoadGroup_succeeds D P s hfit
  obtain ⟨-, ht'⟩ := ChimpScanState.LoadGroup_ok D P ht
  rw [hc, hf, e3] at ht'
  refine ⟨?_, t, ht, ?_, ?_, ?_, ?_, ?_, ?_⟩
  · rw [ChimpScanState.LoadGroup_eq, hc, hf, e3, Nat.mul_comm f 4, Nat.mul_comm c 8]
    simp
  · rw [ht']
    simp [ChimpGroupState.loaded]
  · intro i hi
    rw [ht']
    have : 0 < 1 + i ∧ 1 + i ≤ 0 + f * 4 := by omega
    simp only [ChimpGroupState.loaded, if_pos this]
    congr 1
    omega
  · intro i hi
    rw [ht']
    have : 0 ≤ i ∧ i < 0 + c * 8 := by omega
    simp only [ChimpGroupState.loaded, if_pos this]
  · rw [ht']; rfl
  · rw [ht']; rfl
  · rw [ht']; rfl

/-- Witness of the amended claim C4: the descriptor with `c = 1` and `f = 1`. -/
theorem ChimpScanState.LoadGroup_loads_witness :
    ((test_page 1 1 (fun _ => 0)).leading_zero_block_count (test_unloaded 5).metadata_ptr = 1 ∧
      (test_page 1 1 (fun _ => 0)).flags_byte_size (test_unloaded 5).metadata_ptr = 1 ∧
      1 ≤ 256 ∧ 1 ≤ 128) ∧
    ∃ t, (ChimpScanState.LoadGroup recording_decoder (test_page 1 1 (fun _ => 0))
        (test_unloaded 5)).result = .ok t ∧
      t.group_state.flags 0 = 0 ∧ t.group_state.index = 0 ∧ t.group_state.Started = false :=
  ⟨⟨rfl, rfl, by decide, by decide⟩,
    match (ChimpScanState.LoadGroup_loads recording_decoder (test_page 1 1 (fun _ => 0))
      (test_unloaded 5) 1 1 rfl rfl (by decide) (by decide)).2 with
    | ⟨t, h1, h2, _, _, h5, _, h7⟩ => ⟨t, h1, h2, h5, h7⟩⟩

end ClaimsLoadGroup


section ClaimsBoundary

variable {CS V : Type}

theorem Event.is_entry_ne_assert_250 {n : Nat} {e : Event} (h : e.is_entry n) (b : Bool) :
    e ≠ .D_ASSERT 250 b := by
  intro he
  subst he
  rcases h with h | h | h | h <;> simp at h

theorem ChimpScanState.ScanGroup_log_ne_assert_250 (D : Chimp128Decompression CS V) (P : Page)
    (s : ChimpScanState CS) (n : Nat) (b : Bool) :
    Event.D_ASSERT 250 b ∉ (ChimpScanState.ScanGroup D P s n).log := by
  intro he
  rcases ChimpScanState.ScanGroup_log D P s n _ he with h | h | h | h
  · simp at h
  · simp at h
  · exact Event.in_decode_ne_assert h 250 b (by decide) (by decide) (by decide) rfl
  · exact Event.in_LoadGroup_ne_assert h 250 b rfl

theorem ChimpScanState.ScanPartialGroup_log_ne_assert_250 (D : Chimp128Decompression CS V) (P : Page)
    (s : ChimpScanState CS) (n : Nat) (b : Bool) :
    Event.D_ASSERT 250 b ∉ (ChimpScanState.ScanPartialGroup D P s n).log := by
  intro he
  rcases ChimpScanState.ScanPartialGroup_log D P s n _ he with h | h | h | h
  · simp at h
  · simp at h
  · exact Event.in_decode_ne_assert h 250 b (by decide) (by decide) (by decide) rfl
  · exact Event.in_LoadGroup_ne_assert h 250 b rfl

/-- A group scan that returned on a group boundary with values remaining has ended by
`LoadGroup`. -/
theorem ChimpScanState.Stepped.boundary {D : Chimp128Decompression CS V} {P : Page}
    {log : List Event} {n : Nat} {s t : ChimpScanState CS} {out : List V}
    (h : ChimpScanState.Stepped D P n s log t out)
    (h1 : t.total_value_count % 1024 = 0) (h2 : t.total_value_count < t.segment.count) :
    t.group_state.Started = false ∧ t.metadata_ptr = P.next_descriptor s.metadata_ptr ∧
      ∃ mid : ChimpScanState CS, mid.metadata_ptr = s.metadata_ptr ∧
        (ChimpScanState.LoadGroup D P mid).result = .ok t := by
  obtain ⟨a1, a2, _, _, a5, _⟩ := h.step_effect
  have hc : s.crosses n := by
    constructor
    · rw [a1] at h1; omega
    · rw [← a1, ← a2]; exact h2
  obtain ⟨_, b2, _, b4, _, b6⟩ := a5 hc
  exact ⟨(ChimpGroupState.Started_false_iff _).mpr b2, b4, b6⟩

/-- A group scan that returned has moved the metadata cursor below the descriptors it
loaded. -/
theorem ChimpScanState.Stepped.metadata {D : Chimp128Decompression CS V} {P : Page}
    {log : List Event} {n : Nat} {s t : ChimpScanState CS} {out : List V}
    (h : ChimpScanState.Stepped D P n s log t out) :
    t.metadata_ptr = P.descriptor_end s.metadata_ptr (log.countP Event.is_LoadGroup) := by
  obtain ⟨_, _, _, _, a5, a6⟩ := h.step_effect
  by_cases hc : s.crosses n
  · obtain ⟨_, _, _, c4, c5, _⟩ := a5 hc
    rw [c5, c4]
    rfl
  · obtain ⟨c1, c2, _⟩ := a6 hc
    rw [c2, c1]
    rfl

/-- A call of `ChimpScanPartial` that returned has moved the metadata cursor below the
descriptors it loaded. -/
theorem ChimpScanPartial_metadata (D : Chimp128Decompression CS V) (P : Page)
    (s : ChimpScanState CS) (n off : Nat) {t : ChimpScanState CS} {stores : List (Nat × V)}
    (h : (ChimpScanPartial D P s n off).result = .ok (t, stores)) :
    t.metadata_ptr = P.descriptor_end s.metadata_ptr
      ((ChimpScanPartial D P s n off).log.countP Event.is_LoadGroup) := by
  obtain ⟨s1, vals1, l1, hstep1, hcase⟩ := ChimpScanPartial_ok D P s n off h
  rcases hcase with ⟨_, rfl, rfl, hlog⟩ | ⟨_, vals2, l2, hstep2, rfl, hlog⟩
  · rw [hlog]
    exact hstep1.metadata
  · rw [hlog, hstep2.metadata, hstep1.metadata, Page.descriptor_end_add, List.countP_append,
      List.countP_append]
    simp [Event.is_LoadGroup]

/-- Claim C6: a scan of `n ≤ segment.count - total_value_count` values by `ChimpScanPartial`
that ends exactly on a group boundary (the new `total_value_count` is a multiple of 1024) while
values remain leaves `group_state.Started()` false, and the scan has ended by a `LoadGroup` of
the descriptor below the metadata cursor, the following group's; and whenever `ChimpScanPartial`
has values left after its first chunk, the assertion `D_ASSERT(!scan_state.group_state.Started())`
of line 250 holds. -/
theorem ChimpScanPartial_ends_on_boundary (D : Chimp128Decompression CS V) (P : Page)
    (s : ChimpScanState CS) (n off : Nat) (hn : s.total_value_count + n ≤ s.segment.count) :
    (∀ b, Event.D_ASSERT 250 b ∈ (ChimpScanPartial D P s n off).log → b = true) ∧
    (∀ t stores, (ChimpScanPartial D P s n off).result = .ok (t, stores) →
      (n - min n s.LeftInGroup ≠ 0 → Event.D_ASSERT 250 true ∈ (ChimpScanPartial D P s n off).log) ∧
      (t.total_value_count % 1024 = 0 → t.total_value_count < t.segment.count →
        t.group_state.Started = false ∧
        ∃ mid : ChimpScanState CS, (ChimpScanState.LoadGroup D P mid).result = .ok t ∧
          t.metadata_ptr = P.next_descriptor mid.metadata_ptr ∧
          t.metadata_ptr = P.descriptor_end s.metadata_ptr
            ((ChimpScanPartial D P s n off).log.countP Event.is_LoadGroup))) := by
  have hleft := s.LeftInGroup_pos
  have hlt := s.segment.count_lt
  have hfirst_started : ∀ r, (if (!s.group_state.Started) = true then
          ChimpScanState.ScanGroup D P s (min n s.LeftInGroup)
        else ChimpScanState.ScanPartialGroup D P s (min n s.LeftInGroup)).result = .ok r →
      n - min n s.LeftInGroup ≠ 0 → r.1.group_state.Started = false := by
    intro r hr h0
    have hstep : ChimpScanState.Stepped D P (min n s.LeftInGroup) s
        (if (!s.group_state.Started) = true then
          ChimpScanState.ScanGroup D P s (min n s.LeftInGroup)
         else ChimpScanState.ScanPartialGroup D P s (min n s.LeftInGroup)).log r.1 r.2 := by
      by_cases hs : (!s.group_state.Started) = true
      · rw [if_pos hs] at hr ⊢
        exact ChimpScanState.ScanGroup_stepped D P hr (Or.inl (by omega))
      · rw [if_neg hs] at hr ⊢
        exact ChimpScanState.ScanPartialGroup_stepped D P hr
    obtain ⟨a1, a2, _, _, _, _⟩ := hstep.step_effect
    have hk : min n s.LeftInGroup = s.LeftInGroup := by omega
    rw [hk, Nat.mod_eq_of_lt (by omega)] at a1
    refine (hstep.boundary ?_ ?_).1
    · rw [a1, ChimpScanState.LeftInGroup_eq]; omega
    · rw [a1, a2]; omega
  have hassert : ∀ b, Event.D_ASSERT 250 b ∈ (ChimpScanPartial D P s n off).log → b = true := by
    intro b hb
    rw [ChimpScanPartial_eq] at hb
    rcases Exec.mem_bind_log hb with hb | ⟨r, hr, hb⟩
    · exfalso
      by_cases hs : (!s.group_state.Started) = true
      · rw [if_pos hs] at hb
        exact ChimpScanState.ScanGroup_log_ne_assert_250 D P _ _ b hb
      · rw [if_neg hs] at hb
        exact ChimpScanState.ScanPartialGroup_log_ne_assert_250 D P _ _ b hb
    · by_cases h0 : n - min n s.LeftInGroup = 0
      · rw [if_pos h0] at hb
        simp at hb
      · rw [if_neg h0] at hb
        simp only [D_ASSERT, Exec.emit, Exec.bind_mk_ok, List.mem_append, List.mem_singleton,
          Event.D_ASSERT.injEq, true_and] at hb
        rcases hb with hb | hb
        · rw [hb, hfirst_started r hr h0]
          rfl
        · exfalso
          rcases Exec.mem_bind_log hb with hb | ⟨r2, -, hb⟩
          · exact ChimpScanState.ScanGroup_log_ne_assert_250 D P _ _ b hb
          · simp at hb
  refine ⟨hassert, ?_⟩
  intro t stores h
  have hmeta := ChimpScanPartial_metadata D P s n off h
  obtain ⟨s1, vals1, l1, hstep1, hcase⟩ := ChimpScanPartial_ok D P s n off h
  rcases hcase with ⟨h0, rfl, rfl, hlog⟩ | ⟨h0, vals2, l2, hstep2, rfl, hlog⟩
  · refine ⟨fun hx => absurd h0 hx, ?_⟩
    intro h1 h2
    obtain ⟨b1, b2, mid, b3, b4⟩ := hstep1.boundary h1 h2
    exact ⟨b1, mid, b4, by rw [b2, b3], hmeta⟩
  · refine ⟨fun _ => ?_, ?_⟩
    · have hmem : Event.D_ASSERT 250 (!s1.group_state.Started) ∈
          (ChimpScanPartial D P s n off).log := by
        rw [hlog]
        simp
      have := hassert _ hmem
      rw [this] at hmem
      exact hmem
    · intro h1 h2
      obtain ⟨b1, b2, mid, b3, b4⟩ := hstep2.boundary h1 h2
      exact ⟨b1, mid, b4, by rw [b2, b3], hmeta⟩

/-- Witness of claim C6: from a state with 1023 of 1029 values decoded, a scan of 2 values
ends the group, loads the next descriptor, passes the assertion of line 250 and scans one value
of the next group. -/
theorem ChimpScanPartial_ends_on_boundary_witness :
    (test_started 1029 1023 0).total_value_count + 2 ≤ (test_started 1029 1023 0).segment.count ∧
    Event.D_ASSERT 250 true ∈
      (ChimpScanPartial recording_decoder (test_page 1 1 (fun _ => 0)) (test_started 1029 1023 0)
        2 0).log ∧
    Event.D_ASSERT 250 false ∉
      (ChimpScanPartial recording_decoder (test_page 1 1 (fun _ => 0)) (test_started 1029 1023 0)
        2 0).log :=
  ⟨by decide,
    ((ChimpScanPartial_ends_on_boundary recording_decoder (test_page 1 1 (fun _ => 0))
      (test_started 1029 1023 0) 2 0 (by decide)).2
      ((ChimpScanPartial recording_decoder (test_page 1 1 (fun _ => 0))
        (test_started 1029 1023 0) 2 0).value_or (test_started 1029 1023 0, [])).1
      ((ChimpScanPartial recording_decoder (test_page 1 1 (fun _ => 0))
        (test_started 1029 1023 0) 2 0).value_or (test_started 1029 1023 0, [])).2 rfl).1
      (by decide),
    fun h => Bool.noConfusion
      ((ChimpScanPartial_ends_on_boundary recording_decoder (test_page 1 1 (fun _ => 0))
        (test_started 1029 1023 0) 2 0 (by decide)).1 false h)⟩

end ClaimsBoundary


section ClaimsSkipScan

variable {CS V : Type}

theorem test_page_fits (c f : Nat) (flag : Nat → Nat) (hc : c ≤ 128) (hf : f ≤ 256) (p : Int) :
    (test_page c f flag).descriptor_fits p := by
  unfold Page.descriptor_fits Page.flags_byte_size Page.leading_zero_block_count test_page
  simp only
  constructor
  · exact le_trans (Nat.mod_le _ _) hf
  · exact le_trans (Nat.mod_le _ _) hc

theorem test_started_inv (count total flag : Nat) (h : total ≤ count)
    (hc : count < 18446744073709551616) : (test_started count total flag).Inv := by
  refine ⟨?_, fun _ => rfl, Nat.zero_le _, ?_⟩
  · show total ≤ count % 18446744073709551616
    rw [Nat.mod_eq_of_lt hc]
    exact h
  · show total % 1024 ≤ 1024
    omega

/-- Claim C5: for every `skip_count = n`, `Skip(n)` terminates: the loop never runs out of its
`n` iterations and never overruns the discard buffer (it can only end by returning or by an
access outside `flags` / `leading_zeros`); every chunk `min(to_skip, LeftInGroup())` lies in
`1 .. 1024`, so that every group scan made has a `group_size` in that range and passes its
assertion `group_size <= CHIMP_SEQUENCE_SIZE`, and `to_skip` strictly decreases; on return
`total_value_count` has increased by exactly `n` (in `idx_t` arithmetic) and `n` flags were
read; and `Skip(n)` does return from a state whose flag cursor is the position in the group when
`n` values remain and the descriptors of the groups entered fit the arrays. -/
theorem ChimpScanState.Skip_terminates (D : Chimp128Decompression CS V) (P : Page)
    (s : ChimpScanState CS) (n : Nat) :
    (∀ e, (ChimpScanState.Skip D P s n).result = .error e → e.is_array_access = true) ∧
    (∀ e ∈ (ChimpScanState.Skip D P s n).log, e.group_size_ok = true) ∧
    (∀ (u : ChimpScanState CS) (to_skip : Nat), 0 < to_skip →
      1 ≤ min to_skip u.LeftInGroup ∧ min to_skip u.LeftInGroup ≤ CHIMP_SEQUENCE_SIZE ∧
      to_skip - min to_skip u.LeftInGroup < to_skip) ∧
    (∀ t, (ChimpScanState.Skip D P s n).result = .ok t →
      t.total_value_count % 18446744073709551616 =
        (s.total_value_count + n) % 18446744073709551616 ∧
      (s.total_value_count + n < 18446744073709551616 →
        t.total_value_count = s.total_value_count + n) ∧
      (ChimpScanState.Skip D P s n).log.countP Event.is_GetFlag = n) ∧
    (s.Inv → s.total_value_count + n ≤ s.segment.count →
      (∀ j, P.descriptor_fits (P.descriptor_end s.metadata_ptr j)) →
      ∃ t, (ChimpScanState.Skip D P s n).result = .ok t ∧
        t.total_value_count = s.total_value_count + n) := by
  refine ⟨?_, ?_, ?_, ?_, ?_⟩
  · intro e he
    exact ChimpScanState.Skip_loop_fault D P n n s e (le_refl _) he
  · exact ChimpScanState.Skip_loop_log D P n n s
  · intro u to_skip h
    have := u.LeftInGroup_pos
    simp only [CHIMP_SEQUENCE_SIZE]
    omega
  · intro t ht
    obtain ⟨a1, a2, a3, _, a5⟩ := ChimpScanState.Skip_loop_ok D P n n s t ht
    refine ⟨a1, ?_, a5⟩
    intro hlt
    by_cases h0 : n = 0
    · rw [a3 h0, h0]; rfl
    · have := a2 (by omega)
      omega
  · intro hinv hn hfit
    obtain ⟨t, ht⟩ := ChimpScanState.Skip_loop_succeeds D P n n s (le_refl _) hinv hn hfit
    obtain ⟨_, a2, _⟩ := ChimpScanState.Skip_loop_inv D P n n s t hinv hn ht
    exact ⟨t, ht, a2⟩

/-- Witness of claim C5: a skip of 3 values from a state with 1023 of 1029 values decoded
returns with 1026 values decoded. -/
theorem ChimpScanState.Skip_terminates_witness :
    ((test_started 1029 1023 0).Inv ∧
      (test_started 1029 1023 0).total_value_count + 3 ≤ (test_started 1029 1023 0).segment.count ∧
      ∀ j, (test_page 1 1 (fun _ => 0)).descriptor_fits
        ((test_page 1 1 (fun _ => 0)).descriptor_end (test_started 1029 1023 0).metadata_ptr j)) ∧
    ∃ t, (ChimpScanState.Skip recording_decoder (test_page 1 1 (fun _ => 0))
        (test_started 1029 1023 0) 3).result = .ok t ∧
      t.total_value_count = (test_started 1029 1023 0).total_value_count + 3 :=
  ⟨⟨test_started_inv 1029 1023 0 (by decide) (by decide), by decide,
      fun _ => test_page_fits 1 1 _ (by decide) (by decide) _⟩,
    (ChimpScanState.Skip_terminates recording_decoder (test_page 1 1 (fun _ => 0))
      (test_started 1029 1023 0) 3).2.2.2.2
      (test_started_inv 1029 1023 0 (by decide) (by decide)) (by decide)
      (fun _ => test_page_fits 1 1 _ (by decide) (by decide) _)⟩

/-- A call of `ChimpScanPartial` that returned had at most 1025 values left after its first
chunk: the flags of the rest are read from one array of 1025 entries. -/
theorem ChimpScanPartial_rest_le (D : Chimp128Decompression CS V) (P : Page)
    (s : ChimpScanState CS) (n off : Nat) {r : ChimpScanState CS × List (Nat × V)}
    (h : (ChimpScanPartial D P s n off).result = .ok r) :
    n - min n s.LeftInGroup ≤ CHIMP_SEQUENCE_SIZE + 1 := by
  obtain ⟨t, stores⟩ := r
  obtain ⟨s1, vals1, l1, hstep1, hcase⟩ := ChimpScanPartial_ok D P s n off h
  rcases hcase with ⟨h0, _⟩ | ⟨h0, vals2, l2, hstep2, _⟩
  · omega
  · obtain ⟨_, _, _, a4, _⟩ := hstep2.step_effect
    have := (a4 (by omega)).2.2
    omega

/-- Claim C2, as stated, fails in two ways.  With `n = 0` on a freshly constructed state
`ChimpScanPartial` returns after storing the slot `result[offset]` and reading one flag.  With
`n = 3000` on a freshly constructed state over 3000 values it does not return: the `ScanGroup`
of the 1976 values left after the first chunk reads `flags` outside the array. -/
theorem ChimpScanPartial_effect_counterexample :
    ((test_state 1 1 (fun _ => 0) 5).total_value_count + 0 ≤
        (test_state 1 1 (fun _ => 0) 5).segment.count ∧
      (∃ r, (ChimpScanPartial recording_decoder (test_page 1 1 (fun _ => 0))
        (test_state 1 1 (fun _ => 0) 5) 0 10).result = .ok r ∧ r.2.map Prod.fst = [10]) ∧
      (ChimpScanPartial recording_decoder (test_page 1 1 (fun _ => 0))
        (test_state 1 1 (fun _ => 0) 5) 0 10).log.countP Event.is_GetFlag = 1) ∧
    (∃ s, (ChimpInitScan recording_decoder (test_page 128 256 (fun _ => 0)) (test_segment 3000) 0
        test_uninitialized).result = .ok s ∧
      s.total_value_count + 3000 ≤ s.segment.count ∧
      ∀ r, (ChimpScanPartial recording_decoder (test_page 128 256 (fun _ => 0)) s 3000 0).result
        ≠ .ok r) := by
  refine ⟨⟨by decide, ⟨_, rfl, by decide⟩, by decide⟩, ?_⟩
  obtain ⟨s, hs⟩ := ChimpInitScan_succeeds recording_decoder (test_page 128 256 (fun _ => 0))
    (test_segment 3000) 0 test_uninitialized (test_page_fits _ _ _ (by decide) (by decide) _)
  obtain ⟨_, h2, h3, _⟩ := ChimpInitScan_ok _ _ _ _ _ hs
  refine ⟨s, hs, ?_, ?_⟩
  · rw [h2, h3]
    decide
  · intro r hr
    have := ChimpScanPartial_rest_le _ _ _ _ _ hr
    rw [ChimpScanState.LeftInGroup_eq, h2] at this
    simp only [CHIMP_SEQUENCE_SIZE] at this
    omega

/-- Claim C2, amended: for every scan state and every `n` with
`1 ≤ n ≤ segment.count - total_value_count`, a call
`ChimpScanPartial(segment, state, n, result, offset)` that returns has stored exactly the `n`
slots `result[offset .. offset+n)`, each once and in order, has read exactly `n` flags, and has
increased `total_value_count` by exactly `n`; and the call returns from every state whose flag
cursor is the position in the current group when at most one group is left after its first
chunk and the descriptors of the groups it enters fit the arrays. -/
theorem ChimpScanPartial_writes (D : Chimp128Decompression CS V) (P : Page) (s : ChimpScanState CS)
    (n off : Nat) (hn1 : 1 ≤ n) (hn : s.total_value_count + n ≤ s.segment.count) :
    (∀ t stores, (ChimpScanPartial D P s n off).result = .ok (t, stores) →
      stores.map Prod.fst = List.range' off n ∧
      (ChimpScanPartial D P s n off).log.countP Event.is_GetFlag = n ∧
      t.total_value_count = s.total_value_count + n) ∧
    (s.Inv → n - min n s.LeftInGroup ≤ CHIMP_SEQUENCE_SIZE →
      P.descriptor_fits s.metadata_ptr → P.descriptor_fits (P.next_descriptor s.metadata_ptr) →
      ∃ t stores, (ChimpScanPartial D P s n off).result = .ok (t, stores)) := by
  refine ⟨?_, ?_⟩
  · intro t stores h
    obtain ⟨a1, a2, a3, _⟩ := ChimpScanPartial_effect D P s n off hn1 hn h
    exact ⟨a1, a2, a3⟩
  · intro hinv hrest hfit1 hfit2
    obtain ⟨⟨t, stores⟩, hr⟩ := ChimpScanPartial_succeeds D P s n off hinv hn (by omega) hfit1 hfit2
    exact ⟨t, stores, hr⟩

/-- Witness of the amended claim C2: from a state with 1023 of 1029 values decoded, a scan of 2
values into `result[5 ..]` returns. -/
theorem ChimpScanPartial_writes_witness :
    (1 ≤ 2 ∧
      (test_started 1029 1023 0).total_value_count + 2 ≤ (test_started 1029 1023 0).segment.count ∧
      (test_started 1029 1023 0).Inv ∧
      2 - min 2 (test_started 1029 1023 0).LeftInGroup ≤ CHIMP_SEQUENCE_SIZE ∧
      (test_page 1 1 (fun _ => 0)).descriptor_fits (test_started 1029 1023 0).metadata_ptr ∧
      (test_page 1 1 (fun _ => 0)).descriptor_fits
        ((test_page 1 1 (fun _ => 0)).next_descriptor (test_started 1029 1023 0).metadata_ptr)) ∧
    ∃ t stores, (ChimpScanPartial recording_decoder (test_page 1 1 (fun _ => 0))
      (test_started 1029 1023 0) 2 5).result = .ok (t, stores) :=
  ⟨⟨by decide, by decide, test_started_inv 1029 1023 0 (by decide) (by decide), by decide,
      test_page_fits 1 1 _ (by decide) (by decide) _,
      test_page_fits 1 1 _ (by decide) (by decide) _⟩,
    (ChimpScanPartial_writes recording_decoder (test_page 1 1 (fun _ => 0))
      (test_started 1029 1023 0) 2 5 (by decide) (by decide)).2
      (test_started_inv 1029 1023 0 (by decide) (by decide)) (by decide)
      (test_page_fits 1 1 _ (by decide) (by decide) _)
      (test_page_fits 1 1 _ (by decide) (by decide) _)⟩

end ClaimsSkipScan


section ClaimsReachable

variable {CS V : Type}

/-- A group scan of at least one value that returned has called `LoadGroup` once if it ended
on a group boundary with values remaining, and not at all otherwise. -/
theorem ChimpScanState.Stepped.load_iff {D : Chimp128Decompression CS V} {P : Page}
    {log : List Event} {n : Nat} {s t : ChimpScanState CS} {out : List V}
    (h : ChimpScanState.Stepped D P n s log t out) :
    (log.countP Event.is_LoadGroup = 1 ↔
      (t.total_value_count % 1024 = 0 ∧ t.total_value_count < t.segment.count)) ∧
    log.countP Event.is_LoadGroup ≤ 1 := by
  obtain ⟨a1, a2, _, _, a5, a6⟩ := h.step_effect
  have hiff : s.crosses n ↔
      (t.total_value_count % 1024 = 0 ∧ t.total_value_count < t.segment.count) := by
    unfold ChimpScanState.crosses
    rw [a1, a2]
    constructor
    · intro hx; exact ⟨by omega, hx.2⟩
    · intro hx; exact ⟨by omega, hx.2⟩
  by_cases hc : s.crosses n
  · obtain ⟨_, _, _, _, c5, _⟩ := a5 hc
    rw [c5]
    exact ⟨⟨fun _ => hiff.mp hc, fun _ => rfl⟩, le_refl _⟩
  · obtain ⟨_, c2, _⟩ := a6 hc
    rw [c2]
    exact ⟨⟨fun hx => absurd hx (by decide), fun hx => absurd (hiff.mpr hx) hc⟩, by decide⟩

/-- A scan of 2049 values from the start of a group returns after reading 1025 flags of the
second group: `index` ends at 1025 and only the second group's descriptor was loaded. -/
theorem ChimpScanPartial_overrun (D : Chimp128Decompression CS V) (P : Page) (s : ChimpScanState CS)
    (off : Nat) (hinv : s.Inv) (htot : s.total_value_count % 1024 = 0)
    (hn : s.total_value_count + 2049 ≤ s.segment.count)
    (hfit1 : P.descriptor_fits s.metadata_ptr)
    (hfit2 : P.descriptor_fits (P.next_descriptor s.metadata_ptr)) :
    ∃ t stores, (ChimpScanPartial D P s 2049 off).result = .ok (t, stores) ∧
      t.group_state.index = 1025 ∧ t.total_value_count = s.total_value_count + 2049 ∧
      (ChimpScanPartial D P s 2049 off).log.countP Event.is_LoadGroup = 1 := by
  have hleft : s.LeftInGroup = 1024 := by
    rw [ChimpScanState.LeftInGroup_eq]; omega
  have hlt := s.segment.count_lt
  obtain ⟨⟨t, stores⟩, hr⟩ := ChimpScanPartial_succeeds D P s 2049 off hinv hn
    (by rw [hleft]; simp only [CHIMP_SEQUENCE_SIZE]; omega) hfit1 hfit2
  obtain ⟨a1, a2, a3, _⟩ := ChimpScanPartial_effect D P s 2049 off (by omega) hn hr
  refine ⟨t, stores, hr, ?_, a3, ?_⟩
  all_goals
    obtain ⟨s1, vals1, l1, hstep1, hcase⟩ := ChimpScanPartial_ok D P s 2049 off hr
    rw [hleft] at hstep1 hcase
    have hk : min 2049 1024 = 1024 := by decide
    rw [hk] at hstep1 hcase
    rcases hcase with ⟨h0, _⟩ | ⟨_, vals2, l2, hstep2, _, hlog⟩
    · omega
    obtain ⟨b1, b2, _, _, b5, _⟩ := hstep1.step_effect
    have hc1 : s.crosses 1024 := by
      constructor
      · omega
      · rw [Nat.mod_eq_of_lt (by omega)]; omega
    obtain ⟨_, c2, _, _, c5, _⟩ := b5 hc1
    rw [Nat.mod_eq_of_lt (by omega)] at b1
    obtain ⟨_, _, _, _, _, d6⟩ := hstep2.step_effect
    have hc2 : ¬ s1.crosses (2049 - 1024) := by
      intro hx
      have := hx.1
      rw [b1] at this
      omega
    obtain ⟨_, e2, e3⟩ := d6 hc2
  · rw [e3 (by omega), c2]
  · rw [hlog, List.countP_append, List.countP_append, c5, e2]
    simp [Event.is_LoadGroup]

/-- The state `test_scanned` is reached by the constructor and one scan of 3 values. -/
theorem test_scanned_reachable (least : Nat) (hleast : least ≤ 3) (one_group : Bool) :
    Reachable recording_decoder (test_page 1 1 (fun _ => 0)) (test_segment 5) 0 test_uninitialized
      least one_group (test_scanned (fun _ => 0))
      ((ChimpInitScan recording_decoder (test_page 1 1 (fun _ => 0)) (test_segment 5) 0
          test_uninitialized).log ++
        (ChimpScanPartial recording_decoder (test_page 1 1 (fun _ => 0))
          (test_state 1 1 (fun _ => 0) 5) 3 0).log) :=
  Reachable.scan (test_state 1 1 (fun _ => 0) 5) _ 3 0 (test_scanned (fun _ => 0))
    ((ChimpScanPartial recording_decoder (test_page 1 1 (fun _ => 0))
      (test_state 1 1 (fun _ => 0) 5) 3 0).value_or (test_unloaded 5, [])).2
    (Reachable.init (test_state 1 1 (fun _ => 0) 5) rfl) hleast (by decide)
    (fun _ => by decide) rfl

/-- Claim C7, as stated, fails: over a segment of 3000 values, the single scan of 2049 values
from the constructed state returns with 2049 values decoded and 2 descriptors consumed (the
constructor's included), not `floor(2049/1024) + 1 = 3`: the 1025 values scanned after the
first chunk are all read with the second group's flags. -/
theorem Reachable.descriptors_consumed_counterexample :
    ∃ (s : ChimpScanState (List DecoderCall)) (log : List Event),
      Reachable recording_decoder (test_page 128 256 (fun _ => 0)) (test_segment 3000) 0
        test_uninitialized 1 false s log ∧
      1 ≤ (test_segment 3000).count ∧ s.total_value_count = 2049 ∧
      s.total_value_count < (test_segment 3000).count ∧
      log.countP Event.is_LoadGroup = 2 ∧ 2049 / 1024 + 1 = 3 := by
  obtain ⟨s0, hs0⟩ := ChimpInitScan_succeeds recording_decoder (test_page 128 256 (fun _ => 0))
    (test_segment 3000) 0 test_uninitialized (test_page_fits _ _ _ (by decide) (by decide) _)
  obtain ⟨hinv, h2, h3, _, h5, _⟩ := ChimpInitScan_ok _ _ _ _ _ hs0
  have hcount : s0.total_value_count + 2049 ≤ s0.segment.count := by
    rw [h2, h3]; decide
  obtain ⟨t, stores, hr, _, ht, hl⟩ := ChimpScanPartial_overrun recording_decoder
    (test_page 128 256 (fun _ => 0)) s0 0 hinv (by rw [h2]) hcount
    (test_page_fits _ _ _ (by decide) (by decide) _)
    (test_page_fits _ _ _ (by decide) (by decide) _)
  refine ⟨t, _, Reachable.scan s0 _ 2049 0 t stores (Reachable.init s0 hs0) (by decide) hcount
    (fun h => Bool.noConfusion h) hr, by decide, by rw [ht, h2], ?_, ?_, by decide⟩
  · rw [ht, h2]; decide
  · rw [List.countP_append, h5, hl]

/-- Claim C7, amended: for every segment with `count = N ≥ 1` and every sequence of scans and
skips of sizes `n ≥ 1` with the running total never above `N`, in which every `ChimpScanPartial`
leaves at most one group after its first chunk (`n - min(n, LeftInGroup()) ≤ 1024`), the number
of descriptors consumed by `LoadGroup` (the constructor's call included) after `t` values is
`floor(t/1024) + 1` when `t < N` and `ceil(N/1024)` when `t = N`; it never exceeds
`ceil(N/1024)`, and the metadata cursor lies below exactly that many descriptors.  A group scan
(`ScanGroup`, `ScanPartialGroup`) calls `LoadGroup` at most once, and does so iff the new
`total_value_count` is a multiple of 1024 and is below `segment.count`. -/
theorem Reachable.descriptors_consumed {D : Chimp128Decompression CS V} {P : Page}
    {segment : ColumnSegment} {dataptr : Int} {uninitialized : ChimpGroupState}
    {s : ChimpScanState CS} {log : List Event}
    (h : Reachable D P segment dataptr uninitialized 1 true s log) (hN : 1 ≤ segment.count) :
    s.total_value_count ≤ segment.count ∧
    (s.total_value_count < segment.count →
      log.countP Event.is_LoadGroup = s.total_value_count / 1024 + 1) ∧
    (s.total_value_count = segment.count →
      log.countP Event.is_LoadGroup = (segment.count + 1023) / 1024) ∧
    log.countP Event.is_LoadGroup ≤ (segment.count + 1023) / 1024 ∧
    s.metadata_ptr = P.descriptor_end (P.metadata_start segment dataptr)
      (log.countP Event.is_LoadGroup) ∧
    (∀ (u t : ChimpScanState CS) (n : Nat) (out : List V), 1 ≤ n →
      (ChimpScanState.ScanGroup D P u n).result = .ok (t, out) →
      ((ChimpScanState.ScanGroup D P u n).log.countP Event.is_LoadGroup = 1 ↔
        (t.total_value_count % 1024 = 0 ∧ t.total_value_count < t.segment.count)) ∧
      (ChimpScanState.ScanGroup D P u n).log.countP Event.is_LoadGroup ≤ 1) ∧
    (∀ (u t : ChimpScanState CS) (n : Nat) (out : List V),
      (ChimpScanState.ScanPartialGroup D P u n).result = .ok (t, out) →
      ((ChimpScanState.ScanPartialGroup D P u n).log.countP Event.is_LoadGroup = 1 ↔
        (t.total_value_count % 1024 = 0 ∧ t.total_value_count < t.segment.count)) ∧
      (ChimpScanState.ScanPartialGroup D P u n).log.countP Event.is_LoadGroup ≤ 1) := by
  obtain ⟨hinv, hseg⟩ := h.reach_inv
  obtain ⟨h1, h2⟩ := h.reach_loads (le_refl _) hN
  have hle := hinv.total_le
  rw [hseg] at hle
  unfold groups_loaded at h1
  refine ⟨hle, ?_, ?_, ?_, h2, ?_, ?_⟩
  · intro hlt
    rw [h1, if_pos hlt]
  · intro heq
    rw [h1, if_neg (by omega)]
  · rw [h1]
    split <;> omega
  · intro u t n out hn hr
    exact (ChimpScanState.ScanGroup_stepped D P hr (Or.inl hn)).load_iff
  · intro u t n out hr
    exact (ChimpScanState.ScanPartialGroup_stepped D P hr).load_iff

/-- Witness of the amended claim C7: the state reached over a segment of 5 values by the
constructor and a scan of 3 values; one descriptor is consumed. -/
theorem Reachable.descriptors_consumed_witness :
    1 ≤ (test_segment 5).count ∧
    (test_scanned (fun _ => 0)).total_value_count = 3 ∧
    ((test_scanned (fun _ => 0)).total_value_count < (test_segment 5).count →
      ((ChimpInitScan recording_decoder (test_page 1 1 (fun _ => 0)) (test_segment 5) 0
          test_uninitialized).log ++
        (ChimpScanPartial recording_decoder (test_page 1 1 (fun _ => 0))
          (test_state 1 1 (fun _ => 0) 5) 3 0).log).countP Event.is_LoadGroup =
        (test_scanned (fun _ => 0)).total_value_count / 1024 + 1) :=
  ⟨by decide, by decide,
    (Reachable.descriptors_consumed (test_scanned_reachable 1 (by decide) true) (by decide)).2.1⟩

end ClaimsReachable


section ClaimsCursor

variable {CS V : Type}

/-- A scan of the last `n ≤ LeftInGroup()` values of a segment that ends a group of 1024 does
not load a descriptor: `index` ends at `index + n`. -/
theorem ChimpScanPartial_to_end (D : Chimp128Decompression CS V) (P : Page) (s : ChimpScanState CS)
    (n off : Nat) (hinv : s.Inv) (hn1 : 1 ≤ n) (hleft : n ≤ s.LeftInGroup)
    (hn : s.total_value_count + n = s.segment.count)
    (hfit1 : P.descriptor_fits s.metadata_ptr)
    (hfit2 : P.descriptor_fits (P.next_descriptor s.metadata_ptr)) :
    ∃ t stores, (ChimpScanPartial D P s n off).result = .ok (t, stores) ∧
      t.group_state.index = s.group_state.index + n ∧
      t.total_value_count = s.total_value_count + n ∧ t.segment = s.segment := by
  have hlt := s.segment.count_lt
  obtain ⟨⟨t, stores⟩, hr⟩ := ChimpScanPartial_succeeds D P s n off hinv (by omega)
    (by omega) hfit1 hfit2
  obtain ⟨_, _, a3, a4⟩ := ChimpScanPartial_effect D P s n off hn1 (by omega) hr
  refine ⟨t, stores, hr, ?_, a3, a4⟩
  obtain ⟨s1, vals1, l1, hstep1, hcase⟩ := ChimpScanPartial_ok D P s n off hr
  have hk : min n s.LeftInGroup = n := by omega
  rw [hk] at hstep1 hcase
  rcases hcase with ⟨_, rfl, _⟩ | ⟨h0, _⟩
  · obtain ⟨_, _, _, _, _, b6⟩ := hstep1.step_effect
    have hc : ¬ s.crosses n := by
      intro hx
      have := hx.2
      rw [Nat.mod_eq_of_lt (by omega)] at this
      omega
    exact (b6 hc).2.2 hn1
  · omega

/-- Claim C9, as stated, fails in two ways.  Over a segment of exactly 1024 values, the scan
of all 1024 values leaves `index = 1024` with `total_value_count = 1024`: `LeftInGroup()` is
1024 and `RemainingInGroup()` is 0, and `Started()` and `GroupFinished()` are both true.  Over a
segment of 3000 values, the scan of 2049 values leaves `index = 1025` with
`total_value_count = 2049`, whose position in the group is 1. -/
theorem Reachable.left_in_group_counterexample :
    (∃ (s : ChimpScanState (List DecoderCall)) (log : List Event),
      Reachable recording_decoder (test_page 128 256 (fun _ => 0)) (test_segment 1024) 0
        test_uninitialized 0 false s log ∧
      s.LeftInGroup = 1024 ∧ s.group_state.RemainingInGroup = 0 ∧
      s.group_state.Started = true ∧ s.GroupFinished = true ∧
      s.group_state.index = 1024 ∧ s.total_value_count % 1024 = 0) ∧
    (∃ (s : ChimpScanState (List DecoderCall)) (log : List Event),
      Reachable recording_decoder (test_page 128 256 (fun _ => 0)) (test_segment 3000) 0
        test_uninitialized 0 false s log ∧
      s.total_value_count < s.segment.count ∧
      s.group_state.index = 1025 ∧ s.total_value_count % 1024 = 1 ∧
      s.LeftInGroup = 1023 ∧ s.group_state.RemainingInGroup = 18446744073709551615) := by
  constructor
  · obtain ⟨s0, hs0⟩ := ChimpInitScan_succeeds recording_decoder (test_page 128 256 (fun _ => 0))
      (test_segment 1024) 0 test_uninitialized (test_page_fits _ _ _ (by decide) (by decide) _)
    obtain ⟨hinv, h2, h3, h4, _⟩ := ChimpInitScan_ok _ _ _ _ _ hs0
    have hleft : s0.LeftInGroup = 1024 := by
      rw [ChimpScanState.LeftInGroup_eq, h2]
    obtain ⟨t, stores, hr, ht1, ht2, ht3⟩ := ChimpScanPartial_to_end recording_decoder
      (test_page 128 256 (fun _ => 0)) s0 1024 0 hinv (by decide) (by rw [hleft])
      (by rw [h2, h3]; decide)
      (test_page_fits _ _ _ (by decide) (by decide) _)
      (test_page_fits _ _ _ (by decide) (by decide) _)
    rw [h4] at ht1
    rw [h2] at ht2
    refine ⟨t, _, Reachable.scan s0 _ 1024 0 t stores (Reachable.init s0 hs0) (by decide)
      (by rw [h2, h3]; decide) (fun h => Bool.noConfusion h) hr, ?_, ?_, ?_, ?_, ht1, ?_⟩
    · rw [ChimpScanState.LeftInGroup_eq, ht2]
    · unfold ChimpGroupState.RemainingInGroup
      rw [ht1]
      decide
    · rw [ChimpGroupState.Started_true_iff, ht1]
      decide
    · rw [ChimpScanState.GroupFinished_eq, ht2]
      decide
    · rw [ht2]
  · obtain ⟨s0, hs0⟩ := ChimpInitScan_succeeds recording_decoder (test_page 128 256 (fun _ => 0))
      (test_segment 3000) 0 test_uninitialized (test_page_fits _ _ _ (by decide) (by decide) _)
    obtain ⟨hinv, h2, h3, _, _⟩ := ChimpInitScan_ok _ _ _ _ _ hs0
    have hcount : s0.total_value_count + 2049 ≤ s0.segment.count := by
      rw [h2, h3]; decide
    obtain ⟨t, stores, hr, ht1, ht2, _⟩ := ChimpScanPartial_overrun recording_decoder
      (test_page 128 256 (fun _ => 0)) s0 0 hinv (by rw [h2]) hcount
      (test_page_fits _ _ _ (by decide) (by decide) _)
      (test_page_fits _ _ _ (by decide) (by decide) _)
    obtain ⟨_, _, _, ht3⟩ := ChimpScanPartial_effect _ _ _ _ _ (by decide) hcount hr
    rw [h2] at ht2
    refine ⟨t, _, Reachable.scan s0 _ 2049 0 t stores (Reachable.init s0 hs0) (by decide) hcount
      (fun h => Bool.noConfusion h) hr, ?_, ht1, ?_, ?_, ?_⟩
    · rw [ht2, ht3, h3]; decide
    · rw [ht2]
    · rw [ChimpScanState.LeftInGroup_eq, ht2]
    · unfold ChimpGroupState.RemainingInGroup
      rw [ht1]
      decide

/-- Claim C9, amended: in every scan state reachable from construction by scans and skips of
sizes `n ≤ segment.count - total_value_count`, in which every `ChimpScanPartial` leaves at most
one group after its first chunk (`n - min(n, LeftInGroup()) ≤ 1024`), and in which values remain
(`total_value_count < segment.count`), the chunk bound `LeftInGroup()` equals
`RemainingInGroup() = 1024 - index`, `Started()` is true iff `GroupFinished()` is false, and
`index = total_value_count mod 1024`. -/
theorem Reachable.left_in_group {D : Chimp128Decompression CS V} {P : Page}
    {segment : ColumnSegment} {dataptr : Int} {uninitialized : ChimpGroupState}
    {s : ChimpScanState CS} {log : List Event}
    (h : Reachable D P segment dataptr uninitialized 0 true s log)
    (hlt : s.total_value_count < s.segment.count) :
    s.LeftInGroup = s.group_state.RemainingInGroup ∧
    s.group_state.RemainingInGroup = 1024 - s.group_state.index ∧
    (s.group_state.Started = true ↔ s.GroupFinished = false) ∧
    s.group_state.index = s.total_value_count % 1024 := by
  obtain ⟨hinv, _⟩ := h.reach_inv
  have hidx := hinv.index_eq hlt
  have hrem : s.group_state.RemainingInGroup = 1024 - s.group_state.index := by
    unfold ChimpGroupState.RemainingInGroup
    simp only [CHIMP_SEQUENCE_SIZE]
    omega
  refine ⟨?_, hrem, ?_, hidx⟩
  · rw [hrem, ChimpScanState.LeftInGroup_eq, hidx]
  · rw [ChimpGroupState.Started_true_iff, ChimpScanState.GroupFinished_eq, hidx]
    simp
    omega

/-- Witness of the amended claim C9: the state reached over a segment of 5 values by the
constructor and a scan of 3 values. -/
theorem Reachable.left_in_group_witness :
    (test_scanned (fun _ => 0)).total_value_count < (test_scanned (fun _ => 0)).segment.count ∧
    (test_scanned (fun _ => 0)).LeftInGroup = (test_scanned (fun _ => 0)).group_state.RemainingInGroup ∧
    (test_scanned (fun _ => 0)).group_state.index =
      (test_scanned (fun _ => 0)).total_value_count % 1024 :=
  ⟨by decide,
    (Reachable.left_in_group (test_scanned_reachable 0 (by decide) true) (by decide)).1,
    (Reachable.left_in_group (test_scanned_reachable 0 (by decide) true) (by decide)).2.2.2⟩

/-- Claim C1 fails on the code: `Skip` chooses its group scan with the test of
`ChimpScanPartial` inverted.  In the state reached over a segment of 5 values by the constructor
and a scan of 3 values the group is started: `ChimpScanPartial` of one value runs
`ScanPartialGroup` (`Chimp128Decompression::Load` with the next flag), while `Skip(1)` runs
`ScanGroup`, which calls `LoadFirst` in the middle of the group.  On the freshly constructed
state `ChimpScanPartial` of one value runs `ScanGroup` (`GetFlag`, then `LoadFirst`), while
`Skip(1)` runs `ScanPartialGroup` (`Load` with `flags[0]`).  Both calls return in both cases,
and the decompression states left differ. -/
theorem ChimpScanState.Skip_diverges_from_ChimpScanPartial :
    (Reachable recording_decoder (test_page 1 1 (fun _ => 0)) (test_segment 5) 0
        test_uninitialized 1 true (test_scanned (fun _ => 0))
        ((ChimpInitScan recording_decoder (test_page 1 1 (fun _ => 0)) (test_segment 5) 0
            test_uninitialized).log ++
          (ChimpScanPartial recording_decoder (test_page 1 1 (fun _ => 0))
            (test_state 1 1 (fun _ => 0) 5) 3 0).log) ∧
      (test_scanned (fun _ => 0)).group_state.Started = true ∧
      (test_scanned (fun _ => 0)).total_value_count + 1 ≤
        (test_scanned (fun _ => 0)).segment.count ∧
      (ChimpScanPartial recording_decoder (test_page 1 1 (fun _ => 0))
        (test_scanned (fun _ => 0)) 1 0).log.head? = some (.ScanPartialGroup 1) ∧
      (ChimpScanState.Skip recording_decoder (test_page 1 1 (fun _ => 0))
        (test_scanned (fun _ => 0)) 1).log.head? = some (.ScanGroup 1) ∧
      (∃ r, (ChimpScanPartial recording_decoder (test_page 1 1 (fun _ => 0))
          (test_scanned (fun _ => 0)) 1 0).result = .ok r ∧
        r.1.chimp_state = [.Load 0 0, .DecompressValue 0 0, .DecompressValue 0 0, .LoadFirst,
          .Reset, .SetStream 4]) ∧
      (∃ t, (ChimpScanState.Skip recording_decoder (test_page 1 1 (fun _ => 0))
          (test_scanned (fun _ => 0)) 1).result = .ok t ∧
        t.chimp_state = [.LoadFirst, .DecompressValue 0 0, .DecompressValue 0 0, .LoadFirst,
          .Reset, .SetStream 4])) ∧
    ((test_state 1 1 (fun _ => 0) 5).group_state.Started = false ∧
      (test_state 1 1 (fun _ => 0) 5).total_value_count + 1 ≤
        (test_state 1 1 (fun _ => 0) 5).segment.count ∧
      (ChimpScanPartial recording_decoder (test_page 1 1 (fun _ => 0))
        (test_state 1 1 (fun _ => 0) 5) 1 0).log.head? = some (.ScanGroup 1) ∧
      (ChimpScanState.Skip recording_decoder (test_page 1 1 (fun _ => 0))
        (test_state 1 1 (fun _ => 0) 5) 1).log.head? = some (.ScanPartialGroup 1) ∧
      (∃ r, (ChimpScanPartial recording_decoder (test_page 1 1 (fun _ => 0))
          (test_state 1 1 (fun _ => 0) 5) 1 0).result = .ok r ∧
        r.1.chimp_state = [.LoadFirst, .Reset, .SetStream 4]) ∧
      (∃ t, (ChimpScanState.Skip recording_decoder (test_page 1 1 (fun _ => 0))
          (test_state 1 1 (fun _ => 0) 5) 1).result = .ok t ∧
        t.chimp_state = [.Load 0 0, .Reset, .SetStream 4])) :=
  ⟨⟨test_scanned_reachable 1 (by decide) true, by decide, by decide, by decide, by decide,
      ⟨_, rfl, by decide⟩, ⟨_, rfl, by decide⟩⟩,
    ⟨by decide, by decide, by decide, by decide, ⟨_, rfl, by decide⟩, ⟨_, rfl, by decide⟩⟩⟩

end ClaimsCursor

/-! # The leading-zero cursor: lemmas on the log of a group scan -/

section TraceLemmas

variable {CS V : Type}

theorem lz_track_append (a b : List Event) :
    ∀ c : Nat, lz_track c (a ++ b) = (lz_track c a && lz_track (c + a.countP Event.is_refresh) b) := by
  induction a with
  | nil => intro c; simp [lz_track]
  | cons e a ih =>
    intro c
    cases e <;> simp [lz_track, Event.is_refresh, ih, List.countP_cons, Bool.and_assoc]
    all_goals
      rename_i r
      cases r <;> simp
      have e : c + 1 + List.countP Event.is_refresh a = c + (List.countP Event.is_refresh a + 1) := by
        omega
      rw [e]

theorem lz_track_of_not_GetLeadingZero {l : List Event}
    (h : ∀ e ∈ l, e.is_GetLeadingZero = false) : ∀ c : Nat, lz_track c l = true := by
  induction l with
  | nil => intro c; rfl
  | cons e l ih =>
    intro c
    have he := h e (List.mem_cons_self _ _)
    have hl : ∀ e ∈ l, e.is_GetLeadingZero = false := fun e' h' => h e' (List.mem_cons_of_mem _ h')
    cases e <;> simp [lz_track, Event.is_GetLeadingZero, ih hl] at he ⊢

theorem Event.in_LoadGroup_trace {e : Event} (h : e.in_LoadGroup = true) :
    e.is_GetLeadingZero = false ∧ e.is_refresh = false ∧ e.is_decoder_call = false ∧
      e.is_IncreaseLeadingZeroIndex = false := by
  cases e <;> simp [Event.in_LoadGroup] at h <;> exact ⟨rfl, rfl, rfl, rfl⟩

/-- One iteration that returns: what it leaves in the log about the leading-zero cursor. -/
theorem ChimpScanState.decode_step_trace (decode : Nat → Nat → CS → (V × Bool) × CS)
    (ev : Nat → Nat → Bool → Event)
    (hev : ∀ a b c, ev a b c = .DecompressValue a b c ∨ ev a b c = .Chimp_Load a b c)
    {s t : ChimpScanState CS} {v : V}
    (h : (ChimpScanState.decode_step decode ev s).result = .ok (t, v)) :
    t.group_state.leading_zero_index = s.group_state.leading_zero_index +
        (ChimpScanState.decode_step decode ev s).log.countP Event.is_refresh ∧
      (ChimpScanState.decode_step decode ev s).log.countP Event.is_IncreaseLeadingZeroIndex =
        (ChimpScanState.decode_step decode ev s).log.countP Event.is_refresh ∧
      (ChimpScanState.decode_step decode ev s).log.countP Event.is_GetLeadingZero = 1 ∧
      (ChimpScanState.decode_step decode ev s).log.countP Event.is_decoder_call = 1 ∧
      lz_track s.group_state.leading_zero_index (ChimpScanState.decode_step decode ev s).log = true ∧
      (∀ i, Event.GetLeadingZero i ∈ (ChimpScanState.decode_step decode ev s).log →
        i < CHIMP_SEQUENCE_SIZE + 1) := by
  rw [ChimpScanState.decode_step_eq] at h ⊢
  by_cases h1 : s.group_state.index < CHIMP_SEQUENCE_SIZE + 1
  · rw [if_pos h1] at h ⊢
    by_cases h2 : s.group_state.leading_zero_index < CHIMP_SEQUENCE_SIZE + 1
    · rw [if_pos h2] at h ⊢
      simp only [Except.ok.injEq, Prod.mk.injEq] at h
      obtain ⟨ht, -⟩ := h
      subst ht
      have hlt : s.group_state.leading_zero_index + 1 < 4294967296 := by
        simp only [CHIMP_SEQUENCE_SIZE] at h2; omega
      generalize (decode (s.group_state.flags s.group_state.index)
        (s.group_state.leading_zeros s.group_state.leading_zero_index) s.chimp_state).1.2 = b
      generalize s.group_state.flags s.group_state.index = fl
      generalize s.group_state.leading_zeros s.group_state.leading_zero_index = lz
      rcases hev fl lz b with he | he <;> rw [he] <;> cases b <;>
        simp [Event.is_refresh, Event.is_IncreaseLeadingZeroIndex, Event.is_GetLeadingZero,
          Event.is_decoder_call, lz_track, Nat.mod_eq_of_lt hlt, h2]
    · rw [if_neg h2] at h
      simp at h
  · rw [if_neg h1] at h
    simp at h

/-- The loop, when it returns: what it leaves in the log about the leading-zero cursor. -/
theorem ChimpScanState.decode_loop_trace (decode : Nat → Nat → CS → (V × Bool) × CS)
    (ev : Nat → Nat → Bool → Event)
    (hev : ∀ a b c, ev a b c = .DecompressValue a b c ∨ ev a b c = .Chimp_Load a b c) :
    ∀ (k : Nat) (s t : ChimpScanState CS) (values out : List V),
      (ChimpScanState.decode_loop decode ev k s values).result = .ok (t, out) →
      t.group_state.leading_zero_index = s.group_state.leading_zero_index +
          (ChimpScanState.decode_loop decode ev k s values).log.countP Event.is_refresh ∧
        (ChimpScanState.decode_loop decode ev k s values).log.countP
            Event.is_IncreaseLeadingZeroIndex =
          (ChimpScanState.decode_loop decode ev k s values).log.countP Event.is_refresh ∧
        (ChimpScanState.decode_loop decode ev k s values).log.countP Event.is_GetLeadingZero = k ∧
        (ChimpScanState.decode_loop decode ev k s values).log.countP Event.is_decoder_call = k ∧
        lz_track s.group_state.leading_zero_index
          (ChimpScanState.decode_loop decode ev k s values).log = true ∧
        (∀ i, Event.GetLeadingZero i ∈ (ChimpScanState.decode_loop decode ev k s values).log →
          i < CHIMP_SEQUENCE_SIZE + 1) := by
  intro k
  induction k with
  | zero =>
    intro s t values out h
    simp only [ChimpScanState.decode_loop, Exec.pure_eq, Except.ok.injEq, Prod.mk.injEq] at h
    obtain ⟨hs, hv⟩ := h
    subst hs hv
    simp [ChimpScanState.decode_loop, Exec.pure_eq, lz_track]
  | succ k ih =>
    intro s t values out h
    unfold ChimpScanState.decode_loop at h ⊢
    obtain ⟨⟨s1, v⟩, hstep, hrest, hlog⟩ := Exec.bind_ok_inv h
    obtain ⟨a1, a2, a3, a4, a5, a6⟩ := ChimpScanState.decode_step_trace decode ev hev hstep
    obtain ⟨b1, b2, b3, b4, b5, b6⟩ := ih s1 t (values ++ [v]) out hrest
    rw [hlog]
    simp only [List.countP_append, List.mem_append]
    refine ⟨by rw [b1, a1]; omega, by rw [a2, b2], by rw [a3, b3]; omega, by rw [a4, b4]; omega,
      ?_, ?_⟩
    · rw [lz_track_append, a5, ← a1, b5]
      rfl
    · intro i hi
      rcases hi with hi | hi
      · exact a6 i hi
      · exact b6 i hi

end TraceLemmas


section DecompLemmas

variable {CS V : Type}

/-- A call of `ScanGroup` that returned: its loop and its tail returned, and its log is the
entry events, the log of the loop and the log of the tail. -/
theorem ChimpScanState.ScanGroup_decomp (D : Chimp128Decompression CS V) (P : Page)
    {s t : ChimpScanState CS} {n : Nat} {out : List V}
    (h : (ChimpScanState.ScanGroup D P s n).result = .ok (t, out)) :
    ∃ mid : ChimpScanState CS,
      s.group_state.index < CHIMP_SEQUENCE_SIZE + 1 ∧
      (ChimpScanState.decode_loop D.DecompressValue Event.DecompressValue (n - 1)
        (s.first_loaded D) [(D.LoadFirst s.chimp_state).1]).result = .ok (mid, out) ∧
      (ChimpScanState.finish_group D P mid n).result = .ok t ∧
      (ChimpScanState.ScanGroup D P s n).log =
        [.ScanGroup n, .D_ASSERT 131 (decide (n ≤ CHIMP_SEQUENCE_SIZE)),
          .D_ASSERT 56 (decide (s.group_state.index ≤ s.group_state.max_flags_to_read)),
          .D_ASSERT 57 (decide (s.group_state.index ≤ 1024)), .GetFlag s.group_state.index,
          .LoadFirst] ++
        (ChimpScanState.decode_loop D.DecompressValue Event.DecompressValue (n - 1)
          (s.first_loaded D) [(D.LoadFirst s.chimp_state).1]).log ++
        (ChimpScanState.finish_group D P mid n).log := by
  unfold ChimpScanState.ScanGroup at h ⊢
  simp only [Exec.emit, D_ASSERT, Exec.bind_mk_ok, ChimpGroupState.GetFlag_eq] at h ⊢
  by_cases h1 : s.group_state.index < CHIMP_SEQUENCE_SIZE + 1
  · simp only [if_pos h1, Exec.bind_mk_ok] at h ⊢
    obtain ⟨⟨s1, vals⟩, hloop, hrest, hlog⟩ := Exec.bind_ok_inv h
    obtain ⟨⟨t', ht'⟩, hfin, hret, hlog2⟩ := Exec.bind_ok_inv hrest
    simp only [Exec.pure_eq, Except.ok.injEq, Prod.mk.injEq] at hret
    obtain ⟨rfl, rfl⟩ := hret
    refine ⟨s1, h1, hloop, hfin, ?_⟩
    rw [hlog, hlog2]
    simp [ChimpScanState.first_loaded]
  · simp [if_neg h1] at h

/-- A call of `ScanPartialGroup` that returned: its loop and its tail returned, and its log is
the entry events, the log of the loop and the log of the tail. -/
theorem ChimpScanState.ScanPartialGroup_decomp (D : Chimp128Decompression CS V) (P : Page)
    {s t : ChimpScanState CS} {n : Nat} {out : List V}
    (h : (ChimpScanState.ScanPartialGroup D P s n).result = .ok (t, out)) :
    ∃ mid : ChimpScanState CS,
      (ChimpScanState.decode_loop D.Load Event.Chimp_Load n s []).result = .ok (mid, out) ∧
      (ChimpScanState.finish_group D P mid n).result = .ok t ∧
      (ChimpScanState.ScanPartialGroup D P s n).log =
        [.ScanPartialGroup n, .D_ASSERT 153 (decide (n ≤ CHIMP_SEQUENCE_SIZE))] ++
        (ChimpScanState.decode_loop D.Load Event.Chimp_Load n s []).log ++
        (ChimpScanState.finish_group D P mid n).log := by
  unfold ChimpScanState.ScanPartialGroup at h ⊢
  simp only [Exec.emit, D_ASSERT, Exec.bind_mk_ok] at h ⊢
  obtain ⟨⟨s1, vals⟩, hloop, hrest, hlog⟩ := Exec.bind_ok_inv h
  obtain ⟨⟨t', ht'⟩, hfin, hret, hlog2⟩ := Exec.bind_ok_inv hrest
  simp only [Exec.pure_eq, Except.ok.injEq, Prod.mk.injEq] at hret
  obtain ⟨rfl, rfl⟩ := hret
  refine ⟨s1, hloop, hfin, ?_⟩
  rw [hlog, hlog2]
  simp

/-- The tail of a group scan leaves no event about the leading-zero cursor. -/
theorem ChimpScanState.finish_group_trace (D : Chimp128Decompression CS V) (P : Page)
    (s : ChimpScanState CS) (n : Nat) :
    (ChimpScanState.finish_group D P s n).log.countP Event.is_refresh = 0 ∧
    (ChimpScanState.finish_group D P s n).log.countP Event.is_IncreaseLeadingZeroIndex = 0 ∧
    (ChimpScanState.finish_group D P s n).log.countP Event.is_GetLeadingZero = 0 ∧
    (ChimpScanState.finish_group D P s n).log.countP Event.is_decoder_call = 0 ∧
    (∀ e ∈ (ChimpScanState.finish_group D P s n).log, e.is_GetLeadingZero = false) := by
  have h := ChimpScanState.finish_group_log D P s n
  refine ⟨?_, ?_, ?_, ?_, ?_⟩
  · rw [List.countP_eq_zero]
    intro e he
    simp [(Event.in_LoadGroup_trace (h e he)).2.1]
  · rw [List.countP_eq_zero]
    intro e he
    simp [(Event.in_LoadGroup_trace (h e he)).2.2.2]
  · rw [List.countP_eq_zero]
    intro e he
    simp [(Event.in_LoadGroup_trace (h e he)).1]
  · rw [List.countP_eq_zero]
    intro e he
    simp [(Event.in_LoadGroup_trace (h e he)).2.2.1]
  · intro e he
    exact (Event.in_LoadGroup_trace (h e he)).1

/-- What a returned `ScanGroup` leaves in the log about the leading-zero cursor, and the
cursors it leaves. -/
theorem ChimpScanState.ScanGroup_trace (D : Chimp128Decompression CS V) (P : Page)
    {s t : ChimpScanState CS} {n : Nat} {out : List V}
    (h : (ChimpScanState.ScanGroup D P s n).result = .ok (t, out)) :
    (ChimpScanState.ScanGroup D P s n).log.countP Event.is_decoder_call = n - 1 ∧
    (ChimpScanState.ScanGroup D P s n).log.countP Event.is_GetLeadingZero = n - 1 ∧
    (ChimpScanState.ScanGroup D P s n).log.countP Event.is_IncreaseLeadingZeroIndex =
      (ChimpScanState.ScanGroup D P s n).log.countP Event.is_refresh ∧
    lz_track s.group_state.leading_zero_index (ChimpScanState.ScanGroup D P s n).log = true ∧
    (∀ i, Event.GetLeadingZero i ∈ (ChimpScanState.ScanGroup D P s n).log →
      i < CHIMP_SEQUENCE_SIZE + 1) ∧
    (¬ s.crosses n →
      t.group_state.index = s.group_state.index + 1 + (n - 1) ∧
      t.group_state.leading_zero_index = s.group_state.leading_zero_index +
        (ChimpScanState.ScanGroup D P s n).log.countP Event.is_refresh) ∧
    (s.crosses n → t.group_state.index = 0 ∧ t.group_state.leading_zero_index = 0) := by
  obtain ⟨mid, h1, hloop, hfin, hlog⟩ := ChimpScanState.ScanGroup_decomp D P h
  obtain ⟨a1, a2, a3, a4, a5, a6⟩ := ChimpScanState.decode_loop_trace D.DecompressValue
    Event.DecompressValue (fun _ _ _ => Or.inl rfl) _ _ _ _ _ hloop
  obtain ⟨hd, -, -⟩ := ChimpScanState.decode_loop_ok D.DecompressValue Event.DecompressValue
    Event.DecompressValue_not_GetFlag _ _ _ _ _ hloop
  obtain ⟨f1, f2, f3, f4, f5⟩ := ChimpScanState.finish_group_trace D P mid n
  obtain ⟨g1, g2, g3, g4, g5⟩ := ChimpScanState.finish_group_ok D P hfin
  have hcr : mid.crosses n ↔ s.crosses n := by
    unfold ChimpScanState.crosses
    rw [hd.total_eq, hd.segment_eq]
    rfl
  rw [hlog]
  simp only [List.countP_append, f1, f2, f3, f4, a2, a3, a4]
  refine ⟨by simp [Event.is_decoder_call], by simp [Event.is_GetLeadingZero],
    by simp [Event.is_IncreaseLeadingZeroIndex, Event.is_refresh], ?_, ?_, ?_, ?_⟩
  · rw [lz_track_append, lz_track_append, lz_track_of_not_GetLeadingZero f5]
    simp only [Bool.and_true]
    have : lz_track s.group_state.leading_zero_index
        [.ScanGroup n, .D_ASSERT 131 (decide (n ≤ CHIMP_SEQUENCE_SIZE)),
          .D_ASSERT 56 (decide (s.group_state.index ≤ s.group_state.max_flags_to_read)),
          .D_ASSERT 57 (decide (s.group_state.index ≤ 1024)), .GetFlag s.group_state.index,
          .LoadFirst] = true := rfl
    rw [this]
    simpa [Event.is_refresh] using a5
  · intro i hi
    simp only [List.mem_append, List.mem_cons, List.mem_singleton, List.not_mem_nil, or_false,
      reduceCtorEq, false_or] at hi
    rcases hi with hi | hi
    · exact a6 i hi
    · have := f5 _ hi
      simp [Event.is_GetLeadingZero] at this
  · intro hc
    obtain ⟨c1, -, -, -⟩ := g5 (fun hx => hc (hcr.mp hx))
    rw [c1, hd.index_eq, a1]
    simp [ChimpScanState.first_loaded, Event.is_refresh]
  · intro hc
    obtain ⟨-, c2, c3, -⟩ := g4 (hcr.mpr hc)
    exact ⟨c2, c3⟩

/-- What a returned `ScanPartialGroup` leaves in the log about the leading-zero cursor, and the
cursors it leaves. -/
theorem ChimpScanState.ScanPartialGroup_trace (D : Chimp128Decompression CS V) (P : Page)
    {s t : ChimpScanState CS} {n : Nat} {out : List V}
    (h : (ChimpScanState.ScanPartialGroup D P s n).result = .ok (t, out)) :
    (ChimpScanState.ScanPartialGroup D P s n).log.countP Event.is_decoder_call = n ∧
    (ChimpScanState.ScanPartialGroup D P s n).log.countP Event.is_GetLeadingZero = n ∧
    (ChimpScanState.ScanPartialGroup D P s n).log.countP Event.is_IncreaseLeadingZeroIndex =
      (ChimpScanState.ScanPartialGroup D P s n).log.countP Event.is_refresh ∧
    lz_track s.group_state.leading_zero_index (ChimpScanState.ScanPartialGroup D P s n).log = true ∧
    (∀ i, Event.GetLeadingZero i ∈ (ChimpScanState.ScanPartialGroup D P s n).log →
      i < CHIMP_SEQUENCE_SIZE + 1) ∧
    (¬ s.crosses n →
      t.group_state.index = s.group_state.index + n ∧
      t.group_state.leading_zero_index = s.group_state.leading_zero_index +
        (ChimpScanState.ScanPartialGroup D P s n).log.countP Event.is_refresh) ∧
    (s.crosses n → t.group_state.index = 0 ∧ t.group_state.leading_zero_index = 0) := by
  obtain ⟨mid, hloop, hfin, hlog⟩ := ChimpScanState.ScanPartialGroup_decomp D P h
  obtain ⟨a1, a2, a3, a4, a5, a6⟩ := ChimpScanState.decode_loop_trace D.Load
    Event.Chimp_Load (fun _ _ _ => Or.inr rfl) _ _ _ _ _ hloop
  obtain ⟨hd, -, -⟩ := ChimpScanState.decode_loop_ok D.Load Event.Chimp_Load
    Event.Chimp_Load_not_GetFlag _ _ _ _ _ hloop
  obtain ⟨f1, f2, f3, f4, f5⟩ := ChimpScanState.finish_group_trace D P mid n
  obtain ⟨g1, g2, g3, g4, g5⟩ := ChimpScanState.finish_group_ok D P hfin
  have hcr : mid.crosses n ↔ s.crosses n := by
    unfold ChimpScanState.crosses
    rw [hd.total_eq, hd.segment_eq]
  rw [hlog]
  simp only [List.countP_append, f1, f2, f3, f4, a2, a3, a4]
  refine ⟨by simp [Event.is_decoder_call], by simp [Event.is_GetLeadingZero],
    by simp [Event.is_IncreaseLeadingZeroIndex, Event.is_refresh], ?_, ?_, ?_, ?_⟩
  · rw [lz_track_append, lz_track_append, lz_track_of_not_GetLeadingZero f5]
    simp only [Bool.and_true]
    have : lz_track s.group_state.leading_zero_index
        [.ScanPartialGroup n, .D_ASSERT 153 (decide (n ≤ CHIMP_SEQUENCE_SIZE))] = true := rfl
    rw [this]
    simpa [Event.is_refresh] using a5
  · intro i hi
    simp only [List.mem_append, List.mem_cons, List.mem_singleton, List.not_mem_nil, or_false,
      reduceCtorEq, false_or] at hi
    rcases hi with hi | hi
    · exact a6 i hi
    · have := f5 _ hi
      simp [Event.is_GetLeadingZero] at this
  · intro hc
    obtain ⟨c1, -, -, -⟩ := g5 (fun hx => hc (hcr.mp hx))
    rw [c1, hd.index_eq, a1]
    simp [Event.is_refresh]
  · intro hc
    obtain ⟨-, c2, c3, -⟩ := g4 (hcr.mpr hc)
    exact ⟨c2, c3⟩

end DecompLemmas


section ScanPartialDecomp

variable {CS V : Type}

/-- A call of `ChimpScanPartial` that returned: the group scan of its first chunk returned, and
so did the `ScanGroup` of the rest when there is one; its log is made of theirs. -/
theorem ChimpScanPartial_decomp (D : Chimp128Decompression CS V) (P : Page) (s : ChimpScanState CS)
    (n off : Nat) {t : ChimpScanState CS} {stores : List (Nat × V)}
    (h : (ChimpScanPartial D P s n off).result = .ok (t, stores)) :
    ∃ (s1 : ChimpScanState CS) (vals1 : List V),
      (if (!s.group_state.Started) = true then
          ChimpScanState.ScanGroup D P s (min n s.LeftInGroup)
        else ChimpScanState.ScanPartialGroup D P s (min n s.LeftInGroup)).result = .ok (s1, vals1) ∧
      ((n - min n s.LeftInGroup = 0 ∧ t = s1 ∧ stores = List.enumFrom off vals1 ∧
          (ChimpScanPartial D P s n off).log =
            (if (!s.group_state.Started) = true then
              ChimpScanState.ScanGroup D P s (min n s.LeftInGroup)
            else ChimpScanState.ScanPartialGroup D P s (min n s.LeftInGroup)).log) ∨
       (n - min n s.LeftInGroup ≠ 0 ∧ ∃ vals2 : List V,
          (ChimpScanState.ScanGroup D P s1 (n - min n s.LeftInGroup)).result = .ok (t, vals2) ∧
          stores = List.enumFrom off vals1 ++ List.enumFrom (off + min n s.LeftInGroup) vals2 ∧
          (ChimpScanPartial D P s n off).log =
            (if (!s.group_state.Started) = true then
              ChimpScanState.ScanGroup D P s (min n s.LeftInGroup)
            else ChimpScanState.ScanPartialGroup D P s (min n s.LeftInGroup)).log ++
            [.D_ASSERT 250 (!s1.group_state.Started)] ++
            (ChimpScanState.ScanGroup D P s1 (n - min n s.LeftInGroup)).log)) := by
  rw [ChimpScanPartial_eq] at h ⊢
  obtain ⟨⟨s1, vals1⟩, hfirst, hrest, hlog⟩ := Exec.bind_ok_inv h
  refine ⟨s1, vals1, hfirst, ?_⟩
  simp only at hrest
  clear hlog
  by_cases h0 : n - min n s.LeftInGroup = 0
  · left
    rw [if_pos h0] at hrest
    simp only [Exec.pure_eq, Except.ok.injEq, Prod.mk.injEq] at hrest
    refine ⟨h0, hrest.1.symm, hrest.2.symm, ?_⟩
    rw [Exec.bind_of_ok hfirst]
    simp [if_pos h0]
  · right
    rw [if_neg h0] at hrest
    simp only [D_ASSERT, Exec.emit, Exec.bind_mk_ok] at hrest
    obtain ⟨⟨t', vals2⟩, hsecond, hret, -⟩ := Exec.bind_ok_inv hrest
    simp only [Exec.pure_eq, Except.ok.injEq, Prod.mk.injEq] at hret
    obtain ⟨rfl, rfl⟩ := hret
    refine ⟨h0, vals2, hsecond, rfl, ?_⟩
    rw [Exec.bind_of_ok hfirst]
    simp only [if_neg h0, D_ASSERT, Exec.emit, Exec.bind_mk_ok]
    rw [Exec.bind_of_ok hsecond]
    simp

/-- The first two events of a call of `ScanGroup`. -/
theorem ChimpScanState.ScanGroup_log_entry (D : Chimp128Decompression CS V) (P : Page)
    (s : ChimpScanState CS) (n : Nat) :
    Event.ScanGroup n ∈ (ChimpScanState.ScanGroup D P s n).log ∧
      Event.D_ASSERT 131 (decide (n ≤ CHIMP_SEQUENCE_SIZE)) ∈ (ChimpScanState.ScanGroup D P s n).log := by
  unfold ChimpScanState.ScanGroup
  simp only [Exec.emit, D_ASSERT, Exec.bind_mk_ok]
  simp

/-- The first two events of a call of `ScanPartialGroup`. -/
theorem ChimpScanState.ScanPartialGroup_log_entry (D : Chimp128Decompression CS V) (P : Page)
    (s : ChimpScanState CS) (n : Nat) :
    Event.ScanPartialGroup n ∈ (ChimpScanState.ScanPartialGroup D P s n).log ∧
      Event.D_ASSERT 153 (decide (n ≤ CHIMP_SEQUENCE_SIZE)) ∈
        (ChimpScanState.ScanPartialGroup D P s n).log := by
  unfold ChimpScanState.ScanPartialGroup
  simp only [Exec.emit, D_ASSERT, Exec.bind_mk_ok]
  simp

theorem Event.in_decode_assertion_holds {e : Event} (h : e.in_decode = true) :
    e.group_size_assertion_holds = true := by
  cases e <;> simp [Event.in_decode] at h <;> try rfl
  rcases h with (h | h) | h <;> subst h <;> rfl

theorem Event.in_LoadGroup_assertion_holds {e : Event} (h : e.in_LoadGroup = true) :
    e.group_size_assertion_holds = true := by
  cases e <;> simp [Event.in_LoadGroup] at h <;> rfl

/-- In a call of `ScanGroup` with `group_size <= CHIMP_SEQUENCE_SIZE` no assertion on
`group_size` fails. -/
theorem ChimpScanState.ScanGroup_assertion (D : Chimp128Decompression CS V) (P : Page)
    (s : ChimpScanState CS) (n : Nat) (hn : n ≤ CHIMP_SEQUENCE_SIZE) :
    ∀ e ∈ (ChimpScanState.ScanGroup D P s n).log, e.group_size_assertion_holds = true := by
  intro e he
  rcases ChimpScanState.ScanGroup_log D P s n e he with h | h | h | h
  · subst h; rfl
  · subst h; simp [Event.group_size_assertion_holds, hn]
  · exact Event.in_decode_assertion_holds h
  · exact Event.in_LoadGroup_assertion_holds h

/-- In a call of `ScanPartialGroup` with `group_size <= CHIMP_SEQUENCE_SIZE` no assertion on
`group_size` fails. -/
theorem ChimpScanState.ScanPartialGroup_assertion (D : Chimp128Decompression CS V) (P : Page)
    (s : ChimpScanState CS) (n : Nat) (hn : n ≤ CHIMP_SEQUENCE_SIZE) :
    ∀ e ∈ (ChimpScanState.ScanPartialGroup D P s n).log, e.group_size_assertion_holds = true := by
  intro e he
  rcases ChimpScanState.ScanPartialGroup_log D P s n e he with h | h | h | h
  · subst h; rfl
  · subst h; simp [Event.group_size_assertion_holds, hn]
  · exact Event.in_decode_assertion_holds h
  · exact Event.in_LoadGroup_assertion_holds h

end ScanPartialDecomp

/-! # The claims on the group scans -/

section ClaimsGroupScan

variable {CS V : Type}

/-- Claim C12, as stated, fails for `n = 1024` in a group that is not the last: over a segment
of 1029 values, `ScanGroup(values, 1024)` on the freshly loaded first group ends with
`LoadGroup`, which leaves `index = 0` (not 1024) and `leading_zero_index = 0`. -/
theorem ChimpScanState.group_scan_cursors_counterexample :
    ∃ (s t : ChimpScanState (List DecoderCall)) (out : List Nat),
      (ChimpInitScan recording_decoder (test_page 128 256 (fun _ => 0)) (test_segment 1029) 0
        test_uninitialized).result = .ok s ∧
      s.group_state.index = 0 ∧ s.group_state.leading_zero_index = 0 ∧
      (ChimpScanState.ScanGroup recording_decoder (test_page 128 256 (fun _ => 0)) s 1024).result
        = .ok (t, out) ∧
      t.group_state.index = 0 ∧ t.group_state.index ≠ 1024 := by
  obtain ⟨s, hs⟩ := ChimpInitScan_succeeds recording_decoder (test_page 128 256 (fun _ => 0))
    (test_segment 1029) 0 test_uninitialized (test_page_fits _ _ _ (by decide) (by decide) _)
  obtain ⟨hinv, h2, h3, h4, -⟩ := ChimpInitScan_ok _ _ _ _ _ hs
  have hlz : s.group_state.leading_zero_index = 0 := by
    have := hinv.lz_le
    omega
  obtain ⟨⟨t, out⟩, hr⟩ := ChimpScanState.ScanGroup_succeeds recording_decoder
    (test_page 128 256 (fun _ => 0)) s 1024
    (by rw [h4]; decide) (by rw [hlz]; decide)
    (fun _ _ => test_page_fits _ _ _ (by decide) (by decide) _)
  have hc : s.crosses 1024 := by
    unfold ChimpScanState.crosses
    rw [h2, h3]
    decide
  obtain ⟨-, -, -, -, -, -, a7⟩ := ChimpScanState.ScanGroup_trace _ _ hr
  have := (a7 hc).1
  exact ⟨s, t, out, hs, h4, hlz, hr, this, by rw [this]; decide⟩

/-- Claim C12, amended: for every `n` with `1 <= n <= 1024`, a `ScanGroup(values, n)` that
returns has made `n - 1` decoder calls and as many calls of `IncreaseLeadingZeroIndex` as there
are decoder calls that returned `refresh_leading = true`; unless the scan ends the group with
values remaining (then `LoadGroup` leaves `index = 0` and `leading_zero_index = 0`), it has
advanced `index` by `n` and `leading_zero_index` by the number of those refreshing calls, so that
on a freshly loaded group `index = n`.  `ScanPartialGroup(values, n)` likewise, with `n` decoder
calls.  `ScanGroup` returns on a freshly loaded group, and `ScanPartialGroup` when the two
cursors stay inside the arrays, provided the descriptor loaded at the end of the group fits. -/
theorem ChimpScanState.group_scan_cursors (D : Chimp128Decompression CS V) (P : Page)
    (s : ChimpScanState CS) (n : Nat) (hn1 : 1 ≤ n) (hn : n ≤ 1024) :
    (∀ t out, (ChimpScanState.ScanGroup D P s n).result = .ok (t, out) →
      (ChimpScanState.ScanGroup D P s n).log.countP Event.is_decoder_call = n - 1 ∧
      (ChimpScanState.ScanGroup D P s n).log.countP Event.is_IncreaseLeadingZeroIndex =
        (ChimpScanState.ScanGroup D P s n).log.countP Event.is_refresh ∧
      (¬ s.crosses n →
        t.group_state.index = s.group_state.index + n ∧
        (s.group_state.index = 0 → t.group_state.index = n) ∧
        t.group_state.leading_zero_index = s.group_state.leading_zero_index +
          (ChimpScanState.ScanGroup D P s n).log.countP Event.is_refresh ∧
        (s.group_state.leading_zero_index = 0 → t.group_state.leading_zero_index =
          (ChimpScanState.ScanGroup D P s n).log.countP Event.is_refresh)) ∧
      (s.crosses n → t.group_state.index = 0 ∧ t.group_state.leading_zero_index = 0)) ∧
    (∀ t out, (ChimpScanState.ScanPartialGroup D P s n).result = .ok (t, out) →
      (ChimpScanState.ScanPartialGroup D P s n).log.countP Event.is_decoder_call = n ∧
      (ChimpScanState.ScanPartialGroup D P s n).log.countP Event.is_IncreaseLeadingZeroIndex =
        (ChimpScanState.ScanPartialGroup D P s n).log.countP Event.is_refresh ∧
      (¬ s.crosses n →
        t.group_state.index = s.group_state.index + n ∧
        t.group_state.leading_zero_index = s.group_state.leading_zero_index +
          (ChimpScanState.ScanPartialGroup D P s n).log.countP Event.is_refresh) ∧
      (s.crosses n → t.group_state.index = 0 ∧ t.group_state.leading_zero_index = 0)) ∧
    (s.group_state.index = 0 → s.group_state.leading_zero_index = 0 →
      (s.crosses n → P.descriptor_fits s.metadata_ptr) →
      ∃ r, (ChimpScanState.ScanGroup D P s n).result = .ok r) ∧
    (s.group_state.index + n ≤ CHIMP_SEQUENCE_SIZE + 1 →
      s.group_state.leading_zero_index + n ≤ CHIMP_SEQUENCE_SIZE + 1 →
      (s.crosses n → P.descriptor_fits s.metadata_ptr) →
      ∃ r, (ChimpScanState.ScanPartialGroup D P s n).result = .ok r) := by
  refine ⟨?_, ?_, ?_, ?_⟩
  · intro t out h
    obtain ⟨a1, -, a3, -, -, a6, a7⟩ := ChimpScanState.ScanGroup_trace D P h
    refine ⟨a1, a3, ?_, a7⟩
    intro hc
    obtain ⟨b1, b2⟩ := a6 hc
    refine ⟨by rw [b1]; omega, ?_, b2, ?_⟩
    · intro h0
      rw [b1, h0]
      omega
    · intro h0
      rw [b2, h0]
      omega
  · intro t out h
    obtain ⟨a1, -, a3, -, -, a6, a7⟩ := ChimpScanState.ScanPartialGroup_trace D P h
    exact ⟨a1, a3, a6, a7⟩
  · intro h0 hl hfit
    apply ChimpScanState.ScanGroup_succeeds D P s n
    · rw [h0]; simp only [CHIMP_SEQUENCE_SIZE]; omega
    · rw [hl]; simp only [CHIMP_SEQUENCE_SIZE]; omega
    · intro e1 e2
      exact hfit ⟨e1, e2⟩
  · intro h1 h2 hfit
    apply ChimpScanState.ScanPartialGroup_succeeds D P s n h1 h2
    intro e1 e2
    exact hfit ⟨e1, e2⟩

/-- Witness of the amended claim C12: the `ScanGroup` of 3 values of a group whose flags are all
`11`, from the constructed state over a segment of 5 values, leaves `index = 3` and
`leading_zero_index = 2`. -/
theorem ChimpScanState.group_scan_cursors_witness :
    (1 ≤ 3 ∧ 3 ≤ 1024 ∧ ¬ (test_state 1 1 (fun _ => 3) 5).crosses 3 ∧
      (test_state 1 1 (fun _ => 3) 5).group_state.index = 0) ∧
    (∃ r, (ChimpScanState.ScanGroup recording_decoder (test_page 1 1 (fun _ => 3))
      (test_state 1 1 (fun _ => 3) 5) 3).result = .ok r ∧ r.1.group_state.index = 3 ∧
      r.1.group_state.leading_zero_index = 2) ∧
    ((ChimpScanState.ScanGroup recording_decoder (test_page 1 1 (fun _ => 3))
      (test_state 1 1 (fun _ => 3) 5) 3).value_or (test_unloaded 5, [])).1.group_state.index = 3 :=
  ⟨⟨by decide, by decide, by decide, by decide⟩, ⟨_, rfl, by decide, by decide⟩,
    (((ChimpScanState.group_scan_cursors recording_decoder (test_page 1 1 (fun _ => 3))
      (test_state 1 1 (fun _ => 3) 5) 3 (by decide) (by decide)).1
      ((ChimpScanState.ScanGroup recording_decoder (test_page 1 1 (fun _ => 3))
        (test_state 1 1 (fun _ => 3) 5) 3).value_or (test_unloaded 5, [])).1
      ((ChimpScanState.ScanGroup recording_decoder (test_page 1 1 (fun _ => 3))
        (test_state 1 1 (fun _ => 3) 5) 3).value_or (test_unloaded 5, [])).2 rfl).2.2.1
      (by decide)).2.1 (by decide)⟩

end ClaimsGroupScan


section ScanPartialRest

variable {CS V : Type}

/-- Sequencing with a step that only returns a value keeps the log, and returns iff the first
step does. -/
theorem Exec.bind_pure {α β : Type} (x : Exec α) (g : α → β) :
    (x >>= fun a => (pure (g a) : Exec β)).log = x.log ∧
    ((∃ b, (x >>= fun a => (pure (g a) : Exec β)).result = .ok b) ↔ ∃ a, x.result = .ok a) := by
  obtain ⟨l, r⟩ := x
  cases r with
  | ok a => simp
  | error e => simp

/-- A call of `ChimpScanPartial` whose first group scan returned with values left to scan: the
log is that of the first group scan, the assertion of line 250 and the log of the `ScanGroup` of
the rest, and the call returns iff that `ScanGroup` does. -/
theorem ChimpScanPartial_rest (D : Chimp128Decompression CS V) (P : Page) (s : ChimpScanState CS)
    (n off : Nat) {s1 : ChimpScanState CS} {vals1 : List V}
    (hfirst : (if (!s.group_state.Started) = true then
          ChimpScanState.ScanGroup D P s (min n s.LeftInGroup)
        else ChimpScanState.ScanPartialGroup D P s (min n s.LeftInGroup)).result = .ok (s1, vals1))
    (h0 : n - min n s.LeftInGroup ≠ 0) :
    (ChimpScanPartial D P s n off).log =
      (if (!s.group_state.Started) = true then
          ChimpScanState.ScanGroup D P s (min n s.LeftInGroup)
        else ChimpScanState.ScanPartialGroup D P s (min n s.LeftInGroup)).log ++
        [.D_ASSERT 250 (!s1.group_state.Started)] ++
        (ChimpScanState.ScanGroup D P s1 (n - min n s.LeftInGroup)).log ∧
    ((∃ r, (ChimpScanPartial D P s n off).result = .ok r) ↔
      ∃ r2, (ChimpScanState.ScanGroup D P s1 (n - min n s.LeftInGroup)).result = .ok r2) := by
  rw [ChimpScanPartial_eq, Exec.bind_of_ok hfirst]
  simp only [if_neg h0, D_ASSERT, Exec.emit, Exec.bind_mk_ok]
  obtain ⟨e1, e2⟩ := Exec.bind_pure (ChimpScanState.ScanGroup D P s1 (n - min n s.LeftInGroup))
    (fun r2 => (r2.1, List.enumFrom off vals1 ++ List.enumFrom (off + min n s.LeftInGroup) r2.2))
  refine ⟨?_, e2⟩
  rw [e1]
  simp

end ScanPartialRest


section ClaimsChunks

variable {CS V : Type}

/-- Claim C13, as stated, fails: over a segment of 3000 values, `ChimpScanPartial` of 2049
values from the constructed state returns after a `ScanGroup` of the 1025 values left after its
first chunk: the assertion `group_size <= CHIMP_SEQUENCE_SIZE` of line 131 fails, and that scan
runs past the end of the group it starts in (`index` ends at 1025). -/
theorem ChimpScanPartial_chunks_counterexample :
    ∃ (s t : ChimpScanState (List DecoderCall)) (stores : List (Nat × Nat)),
      (ChimpInitScan recording_decoder (test_page 128 256 (fun _ => 0)) (test_segment 3000) 0
        test_uninitialized).result = .ok s ∧
      s.total_value_count + 2049 ≤ s.segment.count ∧
      (ChimpScanPartial recording_decoder (test_page 128 256 (fun _ => 0)) s 2049 0).result =
        .ok (t, stores) ∧
      Event.ScanGroup 1025 ∈
        (ChimpScanPartial recording_decoder (test_page 128 256 (fun _ => 0)) s 2049 0).log ∧
      Event.D_ASSERT 131 false ∈
        (ChimpScanPartial recording_decoder (test_page 128 256 (fun _ => 0)) s 2049 0).log ∧
      t.group_state.index = 1025 := by
  obtain ⟨s, hs⟩ := ChimpInitScan_succeeds recording_decoder (test_page 128 256 (fun _ => 0))
    (test_segment 3000) 0 test_uninitialized (test_page_fits _ _ _ (by decide) (by decide) _)
  obtain ⟨hinv, h2, h3, -⟩ := ChimpInitScan_ok _ _ _ _ _ hs
  have hcount : s.total_value_count + 2049 ≤ s.segment.count := by
    rw [h2, h3]; decide
  obtain ⟨t, stores, hr, ht, -, -⟩ := ChimpScanPartial_overrun recording_decoder
    (test_page 128 256 (fun _ => 0)) s 0 hinv (by rw [h2]) hcount
    (test_page_fits _ _ _ (by decide) (by decide) _)
    (test_page_fits _ _ _ (by decide) (by decide) _)
  have hleft : s.LeftInGroup = 1024 := by
    rw [ChimpScanState.LeftInGroup_eq, h2]
  obtain ⟨s1, vals1, -, hcase⟩ := ChimpScanPartial_decomp _ _ _ _ _ hr
  rw [hleft] at hcase
  have hk : 2049 - min 2049 1024 = 1025 := by decide
  rw [hk] at hcase
  rcases hcase with ⟨h0, -⟩ | ⟨-, vals2, -, -, hlog⟩
  · exact absurd h0 (by decide)
  · obtain ⟨e1, e2⟩ := ChimpScanState.ScanGroup_log_entry recording_decoder
      (test_page 128 256 (fun _ => 0)) s1 1025
    refine ⟨s, t, stores, hs, hcount, hr, ?_, ?_, ht⟩
    · rw [hlog]
      exact List.mem_append_right _ e1
    · rw [hlog]
      exact List.mem_append_right _ e2

/-- Claim C13, amended: for every `n <= segment.count - total_value_count` that leaves at most
one group after the first chunk (`n - min(n, LeftInGroup()) <= 1024`), no assertion
`group_size <= CHIMP_SEQUENCE_SIZE` fails in `ChimpScanPartial`, whether the call returns or not;
the first chunk ends inside the group it starts in, and its group scan returns from a state
whose flag cursor is the position in the group when the descriptor it may load fits the arrays.
Once the group scan of the first chunk has returned with values left to scan, whether the call
returns or not: the log of the call is the log of that scan, the assertion of line 250 and the
log of the `ScanGroup` of the rest, and the call returns iff that `ScanGroup` does; the rest
starts a group (`total_value_count` is a multiple of 1024 and `index = 0`) and is at most what the
segment holds; it is at most that group when it is at most 1024; when it is more than 1024 the
assertion of the second scan fails, and when it is more than 1025 the call does not return.
With the bound on `n` the call returns, with the flag cursor inside the group again, from a
state whose flag cursor is the position in the group when the descriptors it loads fit the
arrays. -/
theorem ChimpScanPartial_chunks (D : Chimp128Decompression CS V) (P : Page) (s : ChimpScanState CS)
    (n off : Nat) (hn : s.total_value_count + n ≤ s.segment.count) :
    (n - min n s.LeftInGroup ≤ CHIMP_SEQUENCE_SIZE →
      ∀ e ∈ (ChimpScanPartial D P s n off).log, e.group_size_assertion_holds = true) ∧
    s.total_value_count % 1024 + min n s.LeftInGroup ≤ 1024 ∧
    (s.Inv → (s.crosses (min n s.LeftInGroup) → P.descriptor_fits s.metadata_ptr) →
      ∃ (s1 : ChimpScanState CS) (vals1 : List V),
        (if (!s.group_state.Started) = true then
            ChimpScanState.ScanGroup D P s (min n s.LeftInGroup)
          else ChimpScanState.ScanPartialGroup D P s (min n s.LeftInGroup)).result
          = .ok (s1, vals1)) ∧
    (∀ (s1 : ChimpScanState CS) (vals1 : List V),
      (if (!s.group_state.Started) = true then
          ChimpScanState.ScanGroup D P s (min n s.LeftInGroup)
        else ChimpScanState.ScanPartialGroup D P s (min n s.LeftInGroup)).result
        = .ok (s1, vals1) →
      n - min n s.LeftInGroup ≠ 0 →
        (ChimpScanPartial D P s n off).log =
          (if (!s.group_state.Started) = true then
              ChimpScanState.ScanGroup D P s (min n s.LeftInGroup)
            else ChimpScanState.ScanPartialGroup D P s (min n s.LeftInGroup)).log ++
            [.D_ASSERT 250 (!s1.group_state.Started)] ++
            (ChimpScanState.ScanGroup D P s1 (n - min n s.LeftInGroup)).log ∧
        ((∃ r, (ChimpScanPartial D P s n off).result = .ok r) ↔
          ∃ r2, (ChimpScanState.ScanGroup D P s1 (n - min n s.LeftInGroup)).result = .ok r2) ∧
        s1.total_value_count = s.total_value_count + min n s.LeftInGroup ∧
        s1.total_value_count % 1024 = 0 ∧ s1.group_state.index = 0 ∧
        s1.total_value_count + (n - min n s.LeftInGroup) ≤ s1.segment.count ∧
        (n - min n s.LeftInGroup ≤ CHIMP_SEQUENCE_SIZE →
          n - min n s.LeftInGroup ≤ s1.LeftInGroup) ∧
        Event.ScanGroup (n - min n s.LeftInGroup) ∈ (ChimpScanPartial D P s n off).log ∧
        (CHIMP_SEQUENCE_SIZE < n - min n s.LeftInGroup →
          Event.D_ASSERT 131 false ∈ (ChimpScanPartial D P s n off).log) ∧
        (CHIMP_SEQUENCE_SIZE + 1 < n - min n s.LeftInGroup →
          ∀ r, (ChimpScanPartial D P s n off).result ≠ .ok r)) ∧
    (s.Inv → n - min n s.LeftInGroup ≤ CHIMP_SEQUENCE_SIZE →
      (s.crosses (min n s.LeftInGroup) → P.descriptor_fits s.metadata_ptr) →
      (n - min n s.LeftInGroup ≠ 0 → s.crosses n →
        P.descriptor_fits (P.next_descriptor s.metadata_ptr)) →
      ∃ t stores, (ChimpScanPartial D P s n off).result = .ok (t, stores) ∧
        t.group_state.index ≤ 1024 ∧
        (t.total_value_count < t.segment.count →
          t.group_state.index = t.total_value_count % 1024)) := by
  have hleft := s.LeftInGroup_pos
  have hlt := s.segment.count_lt
  have hleq := s.LeftInGroup_eq
  have hreturns : s.Inv → (s.crosses (min n s.LeftInGroup) → P.descriptor_fits s.metadata_ptr) →
      ∃ (s1 : ChimpScanState CS) (vals1 : List V),
        (if (!s.group_state.Started) = true then
            ChimpScanState.ScanGroup D P s (min n s.LeftInGroup)
          else ChimpScanState.ScanPartialGroup D P s (min n s.LeftInGroup)).result
          = .ok (s1, vals1) := by
    intro hinv hfit
    obtain ⟨c1, ⟨r2, c2⟩⟩ := ChimpScanState.chunk_succeeds D P s (min n s.LeftInGroup) hinv
      (Nat.min_le_right _ _) (by omega) hfit
    by_cases hs : (!s.group_state.Started) = true
    · rw [if_pos hs]
      have : s.group_state.index = 0 := by
        rw [← ChimpGroupState.Started_false_iff]
        simpa using hs
      obtain ⟨⟨s1, vals1⟩, hr⟩ := c1 (Or.inr this)
      exact ⟨s1, vals1, hr⟩
    · rw [if_neg hs]
      exact ⟨r2.1, r2.2, c2⟩
  refine ⟨?_, by omega, hreturns, ?_, ?_⟩
  · intro hrest e he
    rw [ChimpScanPartial_eq] at he
    have hfirst : ∀ e ∈ (if (!s.group_state.Started) = true then
          ChimpScanState.ScanGroup D P s (min n s.LeftInGroup)
        else ChimpScanState.ScanPartialGroup D P s (min n s.LeftInGroup)).log,
        e.group_size_assertion_holds = true := by
      intro e he
      by_cases hs : (!s.group_state.Started) = true
      · rw [if_pos hs] at he
        exact ChimpScanState.ScanGroup_assertion D P s _
          (by simp only [CHIMP_SEQUENCE_SIZE]; omega) e he
      · rw [if_neg hs] at he
        exact ChimpScanState.ScanPartialGroup_assertion D P s _
          (by simp only [CHIMP_SEQUENCE_SIZE]; omega) e he
    rcases Exec.mem_bind_log he with he | ⟨r, -, he⟩
    · exact hfirst e he
    · by_cases h0 : n - min n s.LeftInGroup = 0
      · rw [if_pos h0] at he
        simp at he
      · rw [if_neg h0] at he
        simp only [D_ASSERT, Exec.emit, Exec.bind_mk_ok, List.mem_append, List.mem_singleton] at he
        rcases he with he | he
        · subst he; rfl
        · rcases Exec.mem_bind_log he with he | ⟨r2, -, he⟩
          · exact ChimpScanState.ScanGroup_assertion D P _ _ hrest e he
          · simp at he
  · intro s1 vals1 hfirst h0
    obtain ⟨hlog, hret⟩ := ChimpScanPartial_rest D P s n off hfirst h0
    have hstep : ChimpScanState.Stepped D P (min n s.LeftInGroup) s
        (if (!s.group_state.Started) = true then
          ChimpScanState.ScanGroup D P s (min n s.LeftInGroup)
         else ChimpScanState.ScanPartialGroup D P s (min n s.LeftInGroup)).log s1 vals1 := by
      by_cases hs : (!s.group_state.Started) = true
      · rw [if_pos hs] at hfirst ⊢
        exact ChimpScanState.ScanGroup_stepped D P hfirst (Or.inl (by omega))
      · rw [if_neg hs] at hfirst ⊢
        exact ChimpScanState.ScanPartialGroup_stepped D P hfirst
    obtain ⟨a1, a2, -, -, a5, -⟩ := hstep.step_effect
    have hk : min n s.LeftInGroup = s.LeftInGroup := by
      rcases Nat.le_total n s.LeftInGroup with hle | hle
      · rw [Nat.min_eq_left hle, Nat.sub_self] at h0
        exact absurd rfl h0
      · exact Nat.min_eq_right hle
    have hsub : n - min n s.LeftInGroup = n - s.LeftInGroup := by rw [hk]
    have h0' := h0
    rw [hsub] at h0'
    rw [hk, Nat.mod_eq_of_lt
      (show s.total_value_count + s.LeftInGroup < 18446744073709551616 by omega)] at a1
    have hc : s.crosses (min n s.LeftInGroup) := by
      unfold ChimpScanState.crosses
      rw [hk, Nat.mod_eq_of_lt
        (show s.total_value_count + s.LeftInGroup < 18446744073709551616 by omega)]
      constructor <;> omega
    obtain ⟨-, c2, -⟩ := a5 hc
    have hl1 := s1.LeftInGroup_eq
    obtain ⟨e1, e2⟩ := ChimpScanState.ScanGroup_log_entry D P s1 (n - min n s.LeftInGroup)
    refine ⟨hlog, hret, by rw [hk]; exact a1, by omega, c2,
      by rw [a1, a2, hsub]; omega,
      by rw [hsub]; intro hr; simp only [CHIMP_SEQUENCE_SIZE] at hr; omega, ?_, ?_, ?_⟩
    · rw [hlog]
      exact List.mem_append_right _ e1
    · intro hbig
      have hd : decide (n - min n s.LeftInGroup ≤ CHIMP_SEQUENCE_SIZE) = false := by
        simp only [decide_eq_false_iff_not]
        exact Nat.not_le.mpr hbig
      rw [hd] at e2
      rw [hlog]
      exact List.mem_append_right _ e2
    · intro hbig r hr
      have := ChimpScanPartial_rest_le D P s n off hr
      omega
  · intro hinv hrest hfit1 hfit2
    obtain ⟨s1, vals1, hfirst⟩ := hreturns hinv hfit1
    have hr : ∃ r, (ChimpScanPartial D P s n off).result = .ok r := by
      by_cases h0 : n - min n s.LeftInGroup = 0
      · rw [ChimpScanPartial_eq, Exec.bind_of_ok hfirst]
        simp only [if_pos h0]
        exact ⟨_, rfl⟩
      · rw [(ChimpScanPartial_rest D P s n off hfirst h0).2]
        have hstep : ChimpScanState.Stepped D P (min n s.LeftInGroup) s
            (if (!s.group_state.Started) = true then
              ChimpScanState.ScanGroup D P s (min n s.LeftInGroup)
             else ChimpScanState.ScanPartialGroup D P s (min n s.LeftInGroup)).log s1 vals1 := by
          by_cases hs : (!s.group_state.Started) = true
          · rw [if_pos hs] at hfirst ⊢
            exact ChimpScanState.ScanGroup_stepped D P hfirst (Or.inl (by omega))
          · rw [if_neg hs] at hfirst ⊢
            exact ChimpScanState.ScanPartialGroup_stepped D P hfirst
        obtain ⟨a1, a2, -, -, a5, -⟩ := hstep.step_effect
        have hk : min n s.LeftInGroup = s.LeftInGroup := by
          rcases Nat.le_total n s.LeftInGroup with hle | hle
          · rw [Nat.min_eq_left hle, Nat.sub_self] at h0
            exact absurd rfl h0
          · exact Nat.min_eq_right hle
        have hsub : n - min n s.LeftInGroup = n - s.LeftInGroup := by rw [hk]
        have h0' := h0
        rw [hsub] at h0' hrest
        simp only [CHIMP_SEQUENCE_SIZE] at hrest
        rw [hk, Nat.mod_eq_of_lt
          (show s.total_value_count + s.LeftInGroup < 18446744073709551616 by omega)] at a1
        have hc : s.crosses (min n s.LeftInGroup) := by
          unfold ChimpScanState.crosses
          rw [hk, Nat.mod_eq_of_lt
            (show s.total_value_count + s.LeftInGroup < 18446744073709551616 by omega)]
          constructor <;> omega
        obtain ⟨-, c2, c3, c4, -⟩ := a5 hc
        have htot : s1.total_value_count + (n - min n s.LeftInGroup) = s.total_value_count + n := by
          rw [a1, hsub]
          omega
        apply ChimpScanState.ScanGroup_succeeds D P s1 (n - min n s.LeftInGroup)
        · rw [c2, hsub]
          simp only [CHIMP_SEQUENCE_SIZE]
          omega
        · rw [c3, hsub]
          simp only [CHIMP_SEQUENCE_SIZE]
          omega
        · intro e1 e2
          rw [htot] at e1 e2
          rw [a2] at e2
          rw [c4]
          exact hfit2 h0 ⟨e1, e2⟩
    obtain ⟨⟨t, stores⟩, hr⟩ := hr
    obtain ⟨tinv, -⟩ := ChimpScanPartial_inv D P s n off hinv hn hrest hr
    exact ⟨t, stores, hr, tinv.index_le, tinv.index_eq⟩

/-- Witness of the amended claim C13.  From a state with 1023 of 1029 values decoded, a scan of 3
values is a first chunk of 1 value and a rest of 2 values; both pass their assertion, and the
call returns.  From a
state at the start of a segment of 3000 values, a scan of 3000 values is a first chunk of 1024
values, which returns, and a rest of 1976 values: the assertion of the second scan fails and the
call does not return. -/
theorem ChimpScanPartial_chunks_witness :
    ((test_started 1029 1023 0).total_value_count + 3 ≤ (test_started 1029 1023 0).segment.count ∧
      3 - min 3 (test_started 1029 1023 0).LeftInGroup ≤ CHIMP_SEQUENCE_SIZE) ∧
    (∀ e ∈ (ChimpScanPartial recording_decoder (test_page 1 1 (fun _ => 0))
      (test_started 1029 1023 0) 3 0).log, e.group_size_assertion_holds = true) ∧
    Event.D_ASSERT 153 true ∈ (ChimpScanPartial recording_decoder (test_page 1 1 (fun _ => 0))
      (test_started 1029 1023 0) 3 0).log ∧
    Event.D_ASSERT 131 true ∈ (ChimpScanPartial recording_decoder (test_page 1 1 (fun _ => 0))
      (test_started 1029 1023 0) 3 0).log ∧
    (∃ t stores, (ChimpScanPartial recording_decoder (test_page 1 1 (fun _ => 0))
      (test_started 1029 1023 0) 3 0).result = .ok (t, stores) ∧ t.group_state.index ≤ 1024 ∧
      (t.total_value_count < t.segment.count →
        t.group_state.index = t.total_value_count % 1024)) ∧
    ((test_started 3000 0 0).total_value_count + 3000 ≤ (test_started 3000 0 0).segment.count ∧
      CHIMP_SEQUENCE_SIZE + 1 < 3000 - min 3000 (test_started 3000 0 0).LeftInGroup) ∧
    Event.ScanGroup 1976 ∈ (ChimpScanPartial recording_decoder (test_page 1 1 (fun _ => 0))
      (test_started 3000 0 0) 3000 0).log ∧
    Event.D_ASSERT 131 false ∈ (ChimpScanPartial recording_decoder (test_page 1 1 (fun _ => 0))
      (test_started 3000 0 0) 3000 0).log ∧
    (∀ r, (ChimpScanPartial recording_decoder (test_page 1 1 (fun _ => 0))
      (test_started 3000 0 0) 3000 0).result ≠ .ok r) := by
  obtain ⟨-, -, h3, h4, -⟩ := ChimpScanPartial_chunks recording_decoder
    (test_page 1 1 (fun _ => 0)) (test_started 3000 0 0) 3000 0 (by decide)
  obtain ⟨s1, vals1, hfirst⟩ := h3 (test_started_inv 3000 0 0 (by decide) (by decide))
    (fun _ => test_page_fits 1 1 _ (by decide) (by decide) _)
  obtain ⟨-, -, -, -, -, -, -, b1, b2, b3⟩ := h4 s1 vals1 hfirst (by decide)
  exact ⟨⟨by decide, by decide⟩,
    (ChimpScanPartial_chunks recording_decoder (test_page 1 1 (fun _ => 0))
      (test_started 1029 1023 0) 3 0 (by decide)).1 (by decide),
    by decide, by decide,
    (ChimpScanPartial_chunks recording_decoder (test_page 1 1 (fun _ => 0))
      (test_started 1029 1023 0) 3 0 (by decide)).2.2.2.2
      (test_started_inv 1029 1023 0 (by decide) (by decide)) (by decide)
      (fun _ => test_page_fits 1 1 _ (by decide) (by decide) _)
      (fun _ _ => test_page_fits 1 1 _ (by decide) (by decide) _),
    ⟨by decide, by decide⟩, b1, b2 (by decide), b3 (by decide)⟩

end ClaimsChunks


section ClaimsSingle

variable {CS V : Type}

/-- The call `ScanGroup(values, 1)` on a group that is not started, when the value is not the
last of a group of 1024: one `GetFlag`, one `LoadFirst`, no `LoadGroup`. -/
theorem ChimpScanState.ScanGroup_one (D : Chimp128Decompression CS V) (P : Page)
    (s : ChimpScanState CS) (h0 : s.group_state.index = 0)
    (hmod : (s.total_value_count + 1) % 1024 ≠ 0) :
    ChimpScanState.ScanGroup D P s 1 =
      ⟨[.ScanGroup 1, .D_ASSERT 131 true, .D_ASSERT 56 true, .D_ASSERT 57 true, .GetFlag 0,
          .LoadFirst],
        .ok ({ s with
          group_state := { s.group_state with index := 1 }
          chimp_state := (D.LoadFirst s.chimp_state).2
          total_value_count := (s.total_value_count + 1) % 18446744073709551616 },
          [(D.LoadFirst s.chimp_state).1])⟩ := by
  unfold ChimpScanState.ScanGroup
  have h1 : s.group_state.index < CHIMP_SEQUENCE_SIZE + 1 := by rw [h0]; decide
  simp only [Exec.emit, D_ASSERT, Exec.bind_mk_ok, ChimpGroupState.GetFlag_eq, if_pos h1,
    ChimpScanState.decode_loop, Exec.pure_eq, ChimpScanState.finish_group_eq]
  rw [if_neg (by intro hx; exact hmod hx.1)]
  simp [h0, CHIMP_SEQUENCE_SIZE]

/-- Claim C14: over a single-value segment (`count = 1`), the scan of its one value from the
freshly constructed scan state returns after exactly one `GetFlag` (of `flags[0]`, which is 0),
exactly one `LoadFirst` and no other decoder call; it stores the value to `result[offset]`,
leaves `index = 1`, `leading_zero_index = 0` and `total_value_count = 1`, and does not call
`LoadGroup` again (the metadata cursor stays). -/
theorem ChimpScanPartial_single_value (D : Chimp128Decompression CS V) (P : Page)
    (segment : ColumnSegment) (dataptr : Int) (uninitialized : ChimpGroupState)
    (s : ChimpScanState CS) (off : Nat) (hcount : segment.count = 1)
    (hs : (ChimpInitScan D P segment dataptr uninitialized).result = .ok s) :
    s.group_state.flags 0 = 0 ∧
    (ChimpScanPartial D P s 1 off).log =
      [.ScanGroup 1, .D_ASSERT 131 true, .D_ASSERT 56 true, .D_ASSERT 57 true, .GetFlag 0,
        .LoadFirst] ∧
    (ChimpScanPartial D P s 1 off).log.countP Event.is_GetFlag = 1 ∧
    (ChimpScanPartial D P s 1 off).log.count Event.LoadFirst = 1 ∧
    (ChimpScanPartial D P s 1 off).log.countP Event.is_decoder_call = 0 ∧
    (ChimpScanPartial D P s 1 off).log.countP Event.is_LoadGroup = 0 ∧
    ChimpScan D P s 1 = ChimpScanPartial D P s 1 0 ∧
    ∃ t, (ChimpScanPartial D P s 1 off).result = .ok (t, [(off, (D.LoadFirst s.chimp_state).1)]) ∧
      t.group_state.index = 1 ∧ t.group_state.leading_zero_index = 0 ∧
      t.total_value_count = 1 ∧ t.total_value_count = t.segment.count ∧
      t.metadata_ptr = s.metadata_ptr ∧ t.chimp_state = (D.LoadFirst s.chimp_state).2 := by
  obtain ⟨hinv, h2, h3, h4, -⟩ := ChimpInitScan_ok D P segment dataptr uninitialized hs
  have hlz : s.group_state.leading_zero_index = 0 := by
    have := hinv.lz_le
    omega
  have hflag : s.group_state.flags 0 = 0 := by
    rw [ChimpInitScan_eq] at hs
    obtain ⟨-, ht⟩ := ChimpScanState.LoadGroup_ok D P hs
    rw [ht]
    simp [ChimpGroupState.loaded]
  have hleft : s.LeftInGroup = 1024 := by
    rw [ChimpScanState.LeftInGroup_eq, h2]
  have hstart : (!s.group_state.Started) = true := by
    simp [ChimpGroupState.Started, h4]
  have hmin : min 1 s.LeftInGroup = 1 := by rw [hleft]; decide
  have hone := ChimpScanState.ScanGroup_one D P s h4 (by rw [h2]; decide)
  have heq : ChimpScanPartial D P s 1 off =
      ⟨[.ScanGroup 1, .D_ASSERT 131 true, .D_ASSERT 56 true, .D_ASSERT 57 true, .GetFlag 0,
          .LoadFirst],
        .ok ({ s with
          group_state := { s.group_state with index := 1 }
          chimp_state := (D.LoadFirst s.chimp_state).2
          total_value_count := (s.total_value_count + 1) % 18446744073709551616 },
          [(off, (D.LoadFirst s.chimp_state).1)])⟩ := by
    rw [ChimpScanPartial_eq, if_pos hstart, hmin, hone]
    simp [List.enumFrom]
  rw [heq]
  refine ⟨hflag, rfl, by simp [Event.is_GetFlag], by simp, by simp [Event.is_decoder_call],
    by simp [Event.is_LoadGroup], rfl, _, rfl, rfl, hlz, ?_, ?_, rfl, rfl⟩
  · simp only [h2]
  · simp only [h2, h3, hcount]

/-- Witness of claim C14: the segment of one value over the test page. -/
theorem ChimpScanPartial_single_value_witness :
    ((test_segment 1).count = 1 ∧
      (ChimpInitScan recording_decoder (test_page 0 1 (fun _ => 0)) (test_segment 1) 0
        test_uninitialized).result = .ok (test_state 0 1 (fun _ => 0) 1)) ∧
    (ChimpScanPartial recording_decoder (test_page 0 1 (fun _ => 0))
      (test_state 0 1 (fun _ => 0) 1) 1 0).log =
      [.ScanGroup 1, .D_ASSERT 131 true, .D_ASSERT 56 true, .D_ASSERT 57 true, .GetFlag 0,
        .LoadFirst] :=
  ⟨⟨by decide, rfl⟩,
    (ChimpScanPartial_single_value recording_decoder (test_page 0 1 (fun _ => 0))
      (test_segment 1) 0 test_uninitialized (test_state 0 1 (fun _ => 0) 1) 0 (by decide) rfl).2.1⟩

/-- Claim C16: for every group descriptor `LoadGroup` can read, with `flags_byte_size = f` and
`leading_zero_block_count = c`, all the stores of `LoadFlags` (`flags[0]`, then `flags[1 + i]`
for `i < 4f`) and of `LoadLeadingZeros` (`leading_zeros[i]` for `i < 8c`) are inside the arrays
of `CHIMP_SEQUENCE_SIZE + 1 = 1025` entries, that is `LoadGroup` returns, if and only if
`f <= 256` and `c <= 128`; the stores of `LoadFlags` alone are inside `flags` iff `f <= 256`, and
those of `LoadLeadingZeros` alone inside `leading_zeros` iff `c <= 128`. -/
theorem ChimpScanState.LoadGroup_fits_iff (D : Chimp128Decompression CS V) (P : Page)
    (s : ChimpScanState CS) (g : ChimpGroupState) (p q : Int) (f c : Nat) :
    CHIMP_SEQUENCE_SIZE + 1 = 1025 ∧
    ((∃ t, (ChimpScanState.LoadGroup D P s).result = .ok t) ↔
      P.flags_byte_size s.metadata_ptr ≤ 256 ∧ P.leading_zero_block_count s.metadata_ptr ≤ 128) ∧
    (ChimpScanState.LoadGroup D P s).log.getLast? =
      some (.GroupState_Load (P.next_descriptor s.metadata_ptr)
        (s.metadata_ptr - 5 - 3 * (P.leading_zero_block_count s.metadata_ptr : Int))
        (P.flags_byte_size s.metadata_ptr * 4) (P.leading_zero_block_count s.metadata_ptr * 8)) ∧
    ((∃ g', (g.Load P p q (f * 4) (c * 8)).result = .ok g') ↔ f ≤ 256 ∧ c ≤ 128) ∧
    ((∃ g', (g.LoadFlags P p (f * 4)).result = .ok g') ↔ f ≤ 256) ∧
    ((g.LoadFlags P p (f * 4)).result = .error .flags_write ↔ 256 < f) ∧
    ((∃ g', (g.LoadLeadingZeros P q (c * 8)).result = .ok g') ↔ c ≤ 128) ∧
    ((g.LoadLeadingZeros P q (c * 8)).result = .error .leading_zeros_write ↔ 128 < c) := by
  refine ⟨rfl, ?_, ?_, ?_, ?_, ?_, ?_, ?_⟩
  · constructor
    · rintro ⟨t, ht⟩
      exact (ChimpScanState.LoadGroup_ok D P ht).1
    · intro h
      exact ChimpScanState.LoadGroup_succeeds D P s h
  · rw [ChimpScanState.LoadGroup_eq]
    rfl
  · rw [ChimpGroupState.Load_eq]
    simp only [CHIMP_SEQUENCE_SIZE]
    constructor
    · rintro ⟨g', hg⟩
      split at hg
      · split at hg
        · constructor <;> omega
        · simp at hg
      · simp at hg
    · rintro ⟨h1, h2⟩
      rw [if_pos (by omega), if_pos (by omega)]
      exact ⟨_, rfl⟩
  · rw [ChimpGroupState.LoadFlags_eq]
    simp only [CHIMP_SEQUENCE_SIZE]
    constructor
    · rintro ⟨g', hg⟩
      split at hg
      · omega
      · simp at hg
    · intro h1
      rw [if_pos (by omega)]
      exact ⟨_, rfl⟩
  · rw [ChimpGroupState.LoadFlags_eq]
    simp only [CHIMP_SEQUENCE_SIZE]
    constructor
    · intro hg
      split at hg
      · simp at hg
      · omega
    · intro h1
      rw [if_neg (by omega)]
  · rw [ChimpGroupState.LoadLeadingZeros_eq]
    simp only [CHIMP_SEQUENCE_SIZE]
    constructor
    · rintro ⟨g', hg⟩
      split at hg
      · omega
      · simp at hg
    · intro h1
      rw [if_pos (by omega)]
      exact ⟨_, rfl⟩
  · rw [ChimpGroupState.LoadLeadingZeros_eq]
    simp only [CHIMP_SEQUENCE_SIZE]
    constructor
    · intro hg
      split at hg
      · simp at hg
      · omega
    · intro h1
      rw [if_neg (by omega)]

/-- Witness of claim C16: the descriptor with `f = 256` and `c = 128` is loaded; with `f = 257`
the stores of `LoadFlags` leave the array, with `c = 129` those of `LoadLeadingZeros`. -/
theorem ChimpScanState.LoadGroup_fits_iff_witness :
    (∃ t, (ChimpScanState.LoadGroup recording_decoder (test_page 128 256 (fun _ => 0))
      (test_unloaded 5)).result = .ok t) ∧
    (test_uninitialized.LoadFlags (test_page 0 257 (fun _ => 0)) 0 (257 * 4)).result =
      .error .flags_write ∧
    (test_uninitialized.LoadLeadingZeros (test_page 129 0 (fun _ => 0)) 0 (129 * 8)).result =
      .error .leading_zeros_write :=
  ⟨(ChimpScanState.LoadGroup_fits_iff recording_decoder (test_page 128 256 (fun _ => 0))
      (test_unloaded 5) test_uninitialized 0 0 256 128).2.1.mpr ⟨by decide, by decide⟩,
    (ChimpScanState.LoadGroup_fits_iff recording_decoder (test_page 0 257 (fun _ => 0))
      (test_unloaded 5) test_uninitialized 0 0 257 0).2.2.2.2.2.1.mpr (by decide),
    (ChimpScanState.LoadGroup_fits_iff recording_decoder (test_page 129 0 (fun _ => 0))
      (test_unloaded 5) test_uninitialized 0 0 0 129).2.2.2.2.2.2.2.mpr (by decide)⟩

/-- Claim C20: for every `total_value_count = t`, the mask `t & 1023` is `t mod 1024`
(`CHIMP_SEQUENCE_SIZE = 1024` is a power of two), so `LeftInGroup() = 1024 - (t mod 1024)`,
which lies in `[1, 1024]` (the subtraction does not wrap), and `GroupFinished()` is true iff
`t mod 1024 = 0`, iff `LeftInGroup() = 1024`. -/
theorem ChimpScanState.LeftInGroup_GroupFinished_mod (s : ChimpScanState CS) :
    CHIMP_SEQUENCE_SIZE = 2 ^ 10 ∧
    s.total_value_count &&& (CHIMP_SEQUENCE_SIZE - 1) = s.total_value_count % 1024 ∧
    s.LeftInGroup = 1024 - s.total_value_count % 1024 ∧
    s.total_value_count % 1024 < 1024 ∧
    1 ≤ s.LeftInGroup ∧ s.LeftInGroup ≤ 1024 ∧
    (s.GroupFinished = true ↔ s.total_value_count % 1024 = 0) ∧
    (s.GroupFinished = true ↔ s.LeftInGroup = 1024) := by
  have h1 := ChimpScanState.and_mask s.total_value_count
  have h2 := s.LeftInGroup_eq
  have h3 := s.GroupFinished_eq
  refine ⟨rfl, h1, h2, by omega, by omega, by omega, ?_, ?_⟩
  · rw [h3]
    simp
  · rw [h3, h2]
    simp only [decide_eq_true_eq]
    omega

/-- Witness of claim C20: at `total_value_count = 1023` one value is left in the group, at
2048 the group is finished. -/
theorem ChimpScanState.LeftInGroup_GroupFinished_mod_witness :
    (test_started 3000 1023 0).LeftInGroup = 1 ∧ (test_started 3000 2048 0).GroupFinished = true :=
  ⟨(ChimpScanState.LeftInGroup_GroupFinished_mod (test_started 3000 1023 0)).2.2.1.trans
      (by decide),
    (ChimpScanState.LeftInGroup_GroupFinished_mod (test_started 3000 2048 0)).2.2.2.2.2.2.1.mpr
      (by decide)⟩

end ClaimsSingle


section ClaimsAllEqual

variable {CS V : Type}

/-- The loop of `ScanGroup` over flags that are all `00`, with a decoder that treats the flag
`00` as specified: every value stored is the previous value; neither the bit-stream nor the
leading-zero cursor moves. -/
theorem ChimpScanState.decode_loop_all_equal (D : Chimp128Decompression CS V)
    (previous_value : CS → V) (bit_cursor : CS → Nat)
    (hD : D.flag_00_as_specified previous_value bit_cursor) :
    ∀ (k : Nat) (s t : ChimpScanState CS) (values out : List V),
      (∀ j, s.group_state.index ≤ j → j < s.group_state.index + k → s.group_state.flags j = 0) →
      (ChimpScanState.decode_loop D.DecompressValue Event.DecompressValue k s values).result
        = .ok (t, out) →
      out = values ++ List.replicate k (previous_value s.chimp_state) ∧
      previous_value t.chimp_state = previous_value s.chimp_state ∧
      bit_cursor t.chimp_state = bit_cursor s.chimp_state ∧
      t.group_state.leading_zero_index = s.group_state.leading_zero_index ∧
      (ChimpScanState.decode_loop D.DecompressValue Event.DecompressValue k s values).log.countP
        Event.is_refresh = 0 := by
  intro k
  induction k with
  | zero =>
    intro s t values out _ h
    simp only [ChimpScanState.decode_loop, Exec.pure_eq, Except.ok.injEq, Prod.mk.injEq] at h
    obtain ⟨hs, hv⟩ := h
    subst hs hv
    simp [ChimpScanState.decode_loop, Exec.pure_eq]
  | succ k ih =>
    intro s t values out hflags h
    unfold ChimpScanState.decode_loop at h ⊢
    obtain ⟨⟨s1, v⟩, hstep, hrest, hlog⟩ := Exec.bind_ok_inv h
    have hf0 : s.group_state.flags s.group_state.index = 0 := hflags _ (le_refl _) (by omega)
    have hstep' := hstep
    rw [ChimpScanState.decode_step_eq] at hstep'
    by_cases h1 : s.group_state.index < CHIMP_SEQUENCE_SIZE + 1
    · rw [if_pos h1] at hstep'
      by_cases h2 : s.group_state.leading_zero_index < CHIMP_SEQUENCE_SIZE + 1
      · rw [if_pos h2] at hstep'
        simp only [Except.ok.injEq, Prod.mk.injEq, hf0, hD.DecompressValue_00] at hstep'
        obtain ⟨hs1, hv⟩ := hstep'
        have e1 : s1.group_state.index = s.group_state.index + 1 := by rw [← hs1]
        have e2 : s1.group_state.flags = s.group_state.flags := by rw [← hs1]
        have e3 : s1.group_state.leading_zero_index = s.group_state.leading_zero_index := by
          rw [← hs1]; simp
        have e4 : s1.chimp_state = (D.DecompressValue 0
            (s.group_state.leading_zeros s.group_state.leading_zero_index) s.chimp_state).2 := by
          rw [← hs1]
        obtain ⟨b1, b2, b3, b4, b5⟩ := ih s1 t (values ++ [v]) out
          (by intro j hj1 hj2; rw [e2]; exact hflags j (by omega) (by omega)) hrest
        have hpv : previous_value s1.chimp_state = previous_value s.chimp_state := by
          rw [e4, hD.DecompressValue_00_previous]
        have hbc : bit_cursor s1.chimp_state = bit_cursor s.chimp_state := by
          rw [e4, hD.DecompressValue_00_cursor]
        have hstepcount : (ChimpScanState.decode_step D.DecompressValue Event.DecompressValue
            s).log.countP Event.is_refresh = 0 := by
          rw [ChimpScanState.decode_step_eq, if_pos h1, if_pos h2]
          simp [hf0, hD.DecompressValue_00, Event.is_refresh]
        refine ⟨?_, by rw [b2, hpv], by rw [b3, hbc], by rw [b4, e3], ?_⟩
        · rw [b1, hpv, ← hv, List.replicate_succ]
          simp
        · rw [hlog, List.countP_append, hstepcount, b5]
      · rw [if_neg h2] at hstep'
        simp at hstep'
    · rw [if_neg h1] at hstep'
      simp at hstep'

/-- Claim C15, as stated, fails for `n = 0`: the scan of 0 values from the freshly constructed
state (by `ChimpScanPartial`, which runs `ScanGroup(values, 0)`) stores one value, to
`result[offset]`, and reads its 64 bits from the payload bit-stream. -/
theorem ChimpScanState.ScanGroup_all_equal_counterexample :
    test_cursor_decoder.flag_00_as_specified Prod.snd Prod.fst ∧
    test_equal_state.group_state.index = 0 ∧ test_equal_state.chimp_state.1 = 0 ∧
    (∃ r, (ChimpScanPartial test_cursor_decoder (test_page 0 1 (fun _ => 0)) test_equal_state
        0 10).result = .ok r ∧
      r.2 = [(10, 1000)] ∧ r.2 ≠ List.enumFrom 10 (List.replicate 0 1000) ∧
      r.1.chimp_state.1 = 64) ∧
    (∃ r, (ChimpScanState.ScanGroup test_cursor_decoder (test_page 0 1 (fun _ => 0))
        test_equal_state 0).result = .ok r ∧ r.2 = [1000] ∧ r.1.chimp_state.1 = 64) :=
  ⟨⟨fun _ => rfl, fun _ _ => rfl, fun _ _ => rfl, fun _ _ => rfl, fun _ => rfl⟩,
    by decide, by decide, ⟨_, rfl, by decide, by decide, by decide⟩,
    ⟨_, rfl, by decide, by decide⟩⟩

/-- Claim C15, amended: for every group whose unpacked flags at the positions `1 .. n-1` are all
`00` (`1 <= n <= 1024`), with a value decoder that treats the flag `00` as specified, a
`ScanGroup` of `n` values from the fresh group that returns has emitted `n` copies of the value
`LoadFirst` read, has left the payload bit-stream where `LoadFirst` left it, and has left
`leading_zero_index = 0`, without any call of `IncreaseLeadingZeroIndex`; it returns when the
descriptor loaded at the end of the group fits the arrays; at the start of a group
`ChimpScanPartial` of `n` values is that `ScanGroup` and stores the copies to
`result[offset .. offset+n)`. -/
theorem ChimpScanState.ScanGroup_all_equal (D : Chimp128Decompression CS V) (P : Page)
    (previous_value : CS → V) (bit_cursor : CS → Nat)
    (hD : D.flag_00_as_specified previous_value bit_cursor)
    (s : ChimpScanState CS) (n : Nat) (hn1 : 1 ≤ n) (hn : n ≤ 1024)
    (h0 : s.group_state.index = 0) (hlz : s.group_state.leading_zero_index = 0)
    (hflags : ∀ j, 1 ≤ j → j ≤ n - 1 → s.group_state.flags j = 0) :
    (∀ t out, (ChimpScanState.ScanGroup D P s n).result = .ok (t, out) →
      out = List.replicate n (D.LoadFirst s.chimp_state).1 ∧
      bit_cursor t.chimp_state = bit_cursor (D.LoadFirst s.chimp_state).2 ∧
      t.group_state.leading_zero_index = 0 ∧
      (ChimpScanState.ScanGroup D P s n).log.countP Event.is_refresh = 0 ∧
      (ChimpScanState.ScanGroup D P s n).log.countP Event.is_IncreaseLeadingZeroIndex = 0) ∧
    ((s.crosses n → P.descriptor_fits s.metadata_ptr) →
      ∃ r, (ChimpScanState.ScanGroup D P s n).result = .ok r) ∧
    (s.total_value_count % 1024 = 0 → ∀ off t stores,
      (ChimpScanPartial D P s n off).result = .ok (t, stores) →
      (ChimpScanState.ScanGroup D P s n).result = .ok (t, stores.map Prod.snd) ∧
      stores = List.enumFrom off (List.replicate n (D.LoadFirst s.chimp_state).1) ∧
      (ChimpScanPartial D P s n off).log = (ChimpScanState.ScanGroup D P s n).log) := by
  have hscan : ∀ t out, (ChimpScanState.ScanGroup D P s n).result = .ok (t, out) →
      out = List.replicate n (D.LoadFirst s.chimp_state).1 ∧
      bit_cursor t.chimp_state = bit_cursor (D.LoadFirst s.chimp_state).2 ∧
      t.group_state.leading_zero_index = 0 ∧
      (ChimpScanState.ScanGroup D P s n).log.countP Event.is_refresh = 0 ∧
      (ChimpScanState.ScanGroup D P s n).log.countP Event.is_IncreaseLeadingZeroIndex = 0 := by
    intro t out h
    obtain ⟨mid, h1, hloop, hfin, hlog⟩ := ChimpScanState.ScanGroup_decomp D P h
    obtain ⟨a1, a2, a3, a4, a5⟩ := ChimpScanState.decode_loop_all_equal D previous_value
      bit_cursor hD (n - 1) (s.first_loaded D) mid _ out
      (by
        intro j hj1 hj2
        simp only [ChimpScanState.first_loaded, h0] at hj1 hj2 ⊢
        exact hflags j (by omega) (by omega)) hloop
    obtain ⟨-, -, t3, -, -, t6, t7⟩ := ChimpScanState.ScanGroup_trace D P h
    obtain ⟨f1, -⟩ := ChimpScanState.finish_group_trace D P mid n
    have hrefresh : (ChimpScanState.ScanGroup D P s n).log.countP Event.is_refresh = 0 := by
      rw [hlog]
      simp only [List.countP_append, a5, f1]
      simp [Event.is_refresh]
    have hcs : bit_cursor t.chimp_state = bit_cursor mid.chimp_state := by
      obtain ⟨-, -, -, g4, g5⟩ := ChimpScanState.finish_group_ok D P hfin
      by_cases hc : mid.crosses n
      · obtain ⟨-, -, -, -, -, hload⟩ := g4 hc
        obtain ⟨-, ht⟩ := ChimpScanState.LoadGroup_ok D P hload
        rw [ht]
        exact hD.Reset_cursor _
      · obtain ⟨-, -, c3, -⟩ := g5 hc
        rw [c3]
    refine ⟨?_, ?_, ?_, hrefresh, by rw [t3, hrefresh]⟩
    · rw [a1]
      simp only [ChimpScanState.first_loaded, hD.LoadFirst_previous]
      cases n with
      | zero => omega
      | succ m => simp [List.replicate_succ]
    · rw [hcs, a3]
      rfl
    · by_cases hc : s.crosses n
      · exact (t7 hc).2
      · rw [(t6 hc).2, hlz, hrefresh]
  refine ⟨hscan, ?_, ?_⟩
  · intro hfit
    apply ChimpScanState.ScanGroup_succeeds D P s n
    · rw [h0]; simp only [CHIMP_SEQUENCE_SIZE]; omega
    · rw [hlz]; simp only [CHIMP_SEQUENCE_SIZE]; omega
    · intro e1 e2
      exact hfit ⟨e1, e2⟩
  · intro htot off t stores h
    have hleft : s.LeftInGroup = 1024 := by
      rw [ChimpScanState.LeftInGroup_eq, htot]
    have hmin : min n s.LeftInGroup = n := by rw [hleft]; omega
    have hstart : (!s.group_state.Started) = true := by
      simp [ChimpGroupState.Started, h0]
    obtain ⟨s1, vals1, hfirst, hcase⟩ := ChimpScanPartial_decomp D P s n off h
    rw [if_pos hstart, hmin] at hfirst
    rw [if_pos hstart, hmin] at hcase
    rcases hcase with ⟨-, rfl, rfl, hl⟩ | ⟨hne, -⟩
    · obtain ⟨b1, -⟩ := hscan _ _ hfirst
      refine ⟨?_, by rw [b1], hl⟩
      rw [hfirst, List.enumFrom_map_snd]
    · exact absurd (Nat.sub_self n) hne

end ClaimsAllEqual

section ClaimsAllEqualWitness

theorem test_equal_state_flags :
    ∀ j, 1 ≤ j → j ≤ 4 - 1 → test_equal_state.group_state.flags j = 0 := by
  intro j h1 h2
  interval_cases j <;> rfl

/-- Witness of the amended claim C15: the `ScanGroup` of the four equal values of the test
group emits four copies of the value 1000 that `LoadFirst` reads, and leaves the bit-stream at
bit 64. -/
theorem ChimpScanState.ScanGroup_all_equal_witness :
    (test_cursor_decoder.flag_00_as_specified Prod.snd Prod.fst ∧ 1 ≤ 4 ∧ 4 ≤ 1024 ∧
      test_equal_state.group_state.index = 0 ∧
      test_equal_state.group_state.leading_zero_index = 0 ∧
      ∀ j, 1 ≤ j → j ≤ 4 - 1 → test_equal_state.group_state.flags j = 0) ∧
    (∃ r, (ChimpScanState.ScanGroup test_cursor_decoder (test_page 0 1 (fun _ => 0))
      test_equal_state 4).result = .ok r ∧ r.2 = [1000, 1000, 1000, 1000] ∧
      r.1.chimp_state.1 = 64) ∧
    ((ChimpScanState.ScanGroup test_cursor_decoder (test_page 0 1 (fun _ => 0))
      test_equal_state 4).value_or (test_equal_state, [])).2 =
      List.replicate 4 (test_cursor_decoder.LoadFirst test_equal_state.chimp_state).1 :=
  ⟨⟨⟨fun _ => rfl, fun _ _ => rfl, fun _ _ => rfl, fun _ _ => rfl, fun _ => rfl⟩,
      by decide, by decide, by decide, by decide, test_equal_state_flags⟩,
    ⟨_, rfl, by decide, by decide⟩,
    ((ChimpScanState.ScanGroup_all_equal test_cursor_decoder (test_page 0 1 (fun _ => 0))
      Prod.snd Prod.fst ⟨fun _ => rfl, fun _ _ => rfl, fun _ _ => rfl, fun _ _ => rfl, fun _ => rfl⟩
      test_equal_state 4 (by decide) (by decide) (by decide) (by decide)
      test_equal_state_flags).1 _ _ rfl).1⟩

end ClaimsAllEqualWitness

/-! # Prepared statements: lemmas and claims -/

section PreparedStatementLemmas

variable {Value LogicalType : Type}

/-- The guarded store `if (!v.empty() && v.size() <= val_idx) v[val_idx - 1] = x`: it stores
only when `v.size() == val_idx`, leaves `v` alone when `v` is empty or `val_idx < v.size()`, and
indexes past the end when `0 < v.size() < val_idx`. -/
theorem IndexedVector.guarded_store_eq {α : Type} (vector : IndexedVector) (elements : List α)
    (val_idx : Nat) (x : α) (h1 : 1 ≤ val_idx) (h64 : val_idx < 18446744073709551616) :
    (if (!elements.isEmpty && decide (elements.length ≤ val_idx)) = true then
        vector.store elements ((val_idx + 18446744073709551615) % 18446744073709551616) x
      else .ok elements) =
      if elements.length = 0 ∨ val_idx < elements.length then
        (.ok elements : Except Failure (List α))
      else if elements.length = val_idx then .ok (elements.set (val_idx - 1) x)
      else .error (.out_of_range vector (val_idx - 1) elements.length) := by
  have hidx : (val_idx + 18446744073709551615) % 18446744073709551616 = val_idx - 1 := by omega
  rw [hidx]
  unfold IndexedVector.store
  cases elements with
  | nil => simp
  | cons a l =>
    simp only [List.isEmpty_cons, Bool.not_false, Bool.true_and, decide_eq_true_eq,
      List.length_cons]
    by_cases h : l.length + 1 ≤ val_idx
    · have e1 : ¬ (l.length + 1 = 0 ∨ val_idx < l.length + 1) := by omega
      rw [if_pos h, if_neg e1]
      by_cases h' : l.length + 1 = val_idx
      · have e2 : val_idx - 1 < l.length + 1 := by omega
        rw [if_pos h', if_pos e2]
      · have e2 : ¬ val_idx - 1 < l.length + 1 := by omega
        rw [if_neg h', if_neg e2]
    · have e1 : l.length + 1 = 0 ∨ val_idx < l.length + 1 := by omega
      rw [if_neg h, if_pos e1]

theorem PreparedStatementData.lookup_assign_targets_ne (value_map : List (Nat × List Value))
    (key k : Nat) (value : Value) (h : k ≠ key) :
    List.lookup k (PreparedStatementData.assign_targets value_map key value) =
      List.lookup k value_map := by
  induction value_map with
  | nil => rfl
  | cons e rest ih =>
    obtain ⟨k', targets⟩ := e
    unfold PreparedStatementData.assign_targets
    by_cases hk : key = k'
    · subst hk
      have : (k == key) = false := by simpa using h
      simp [List.lookup, this]
    · have hk' : (key == k') = false := by simpa using hk
      simp only [hk', Bool.false_eq_true, if_false, List.lookup]
      by_cases hkk : k = k'
      · subst hkk
        simp
      · have : (k == k') = false := by simpa using hkk
        simp [this, ih]

theorem PreparedStatementData.lookup_assign_targets_eq (value_map : List (Nat × List Value))
    (key : Nat) (value : Value) :
    List.lookup key (PreparedStatementData.assign_targets value_map key value) =
      (List.lookup key value_map).map (fun targets => targets.map (fun _ => value)) := by
  induction value_map with
  | nil => rfl
  | cons e rest ih =>
    obtain ⟨k', targets⟩ := e
    unfold PreparedStatementData.assign_targets
    by_cases hk : key = k'
    · subst hk
      simp [List.lookup]
    · have hk' : (key == k') = false := by simpa using hk
      simp only [hk', Bool.false_eq_true, if_false, List.lookup]
      exact ih

theorem PreparedStatementData.length_assign_targets (value_map : List (Nat × List Value))
    (key : Nat) (value : Value) :
    (PreparedStatementData.assign_targets value_map key value).length = value_map.length := by
  induction value_map with
  | nil => rfl
  | cons e rest ih =>
    obtain ⟨k', targets⟩ := e
    unfold PreparedStatementData.assign_targets
    by_cases hk : (key == k') = true
    · simp [hk]
    · simp [hk, ih]

end PreparedStatementLemmas


section ClaimsPrepared

variable {Value LogicalType : Type}

/-- The method `ResetResultValueEntry` on a parameter that has targets: the three guarded
stores in closed form. -/
theorem PreparedStatementData.ResetResultValueEntry_eq (ops : ValueOps Value LogicalType)
    (p : PreparedStatementData Value LogicalType) (val_idx : Nat) (value : Value)
    (targets : List Value) (hfind : List.lookup val_idx p.value_map = some targets)
    (hne : targets ≠ []) (h1 : 1 ≤ val_idx) (h64 : val_idx < 18446744073709551616) :
    p.ResetResultValueEntry ops val_idx value =
      ((if p.types.length = 0 ∨ val_idx < p.types.length then
          (.ok p.types : Except Failure (List LogicalType))
        else if p.types.length = val_idx then .ok (p.types.set (val_idx - 1) (ops.type value))
        else .error (.out_of_range .types (val_idx - 1) p.types.length)) >>= fun types =>
      (if p.plan.types.length = 0 ∨ val_idx < p.plan.types.length then
          (.ok p.plan.types : Except Failure (List LogicalType))
        else if p.plan.types.length = val_idx then
          .ok (p.plan.types.set (val_idx - 1) (ops.type value))
        else .error (.out_of_range .plan_types (val_idx - 1) p.plan.types.length)) >>=
        fun plan_types =>
      (if p.plan.is_projection = true then
          if p.plan.select_list.length = 0 ∨ val_idx < p.plan.select_list.length then
            (.ok p.plan.select_list : Except Failure (List LogicalType))
          else if p.plan.select_list.length = val_idx then
            .ok (p.plan.select_list.set (val_idx - 1) (ops.type value))
          else .error (.out_of_range .select_list (val_idx - 1) p.plan.select_list.length)
        else .ok p.plan.select_list) >>= fun select_list =>
      .ok { value_map := PreparedStatementData.assign_targets p.value_map val_idx value,
            types := types,
            plan := { p.plan with types := plan_types, select_list := select_list } }) := by
  have hemp : targets.isEmpty = false := by
    cases targets with
    | nil => exact absurd rfl hne
    | cons a l => rfl
  unfold PreparedStatementData.ResetResultValueEntry
  simp only [hfind, hemp, Bool.false_eq_true, if_false]
  rw [IndexedVector.guarded_store_eq _ p.types _ _ h1 h64,
    IndexedVector.guarded_store_eq _ p.plan.types _ _ h1 h64,
    IndexedVector.guarded_store_eq _ p.plan.select_list _ _ h1 h64]

/-- The two ways a guarded store ends. -/
theorem IndexedVector.guarded_store_cases {α : Type} (vector : IndexedVector) (elements : List α)
    (val_idx : Nat) (x : α) (h1 : 1 ≤ val_idx) :
    ((0 < elements.length ∧ elements.length < val_idx) ∧
      (if elements.length = 0 ∨ val_idx < elements.length then
          (.ok elements : Except Failure (List α))
        else if elements.length = val_idx then .ok (elements.set (val_idx - 1) x)
        else .error (.out_of_range vector (val_idx - 1) elements.length)) =
        .error (.out_of_range vector (val_idx - 1) elements.length)) ∨
    (¬ (0 < elements.length ∧ elements.length < val_idx) ∧
      (if elements.length = 0 ∨ val_idx < elements.length then
          (.ok elements : Except Failure (List α))
        else if elements.length = val_idx then .ok (elements.set (val_idx - 1) x)
        else .error (.out_of_range vector (val_idx - 1) elements.length)) =
        .ok (if elements.length = val_idx then elements.set (val_idx - 1) x else elements)) := by
  by_cases a : elements.length = 0 ∨ val_idx < elements.length
  · right
    have a2 : ¬ elements.length = val_idx := by omega
    rw [if_pos a, if_neg a2]
    exact ⟨by omega, rfl⟩
  · by_cases b : elements.length = val_idx
    · right
      rw [if_neg a, if_pos b, if_pos b]
      exact ⟨by omega, rfl⟩
    · left
      rw [if_neg a, if_neg b]
      exact ⟨by omega, rfl⟩

/-- Claim C17 fails on the code: for `val_idx >= 1` present in `value_map` with targets, the
guard `!v.empty() && v.size() <= val_idx` lets `v[val_idx - 1]` be taken exactly when
`val_idx - 1 >= v.size() - 1`, and the access is past the end whenever `0 < v.size() < val_idx`;
this happens for `types` first, then for `plan->types`, then for `select_list`.  A call that
returns has stored to a vector only when its size is `val_idx`, and has stored nothing when
`val_idx < v.size()`. -/
theorem PreparedStatementData.ResetResultValueEntry_out_of_range
    (ops : ValueOps Value LogicalType) (p : PreparedStatementData Value LogicalType)
    (val_idx : Nat) (value : Value) (targets : List Value)
    (hfind : List.lookup val_idx p.value_map = some targets) (hne : targets ≠ [])
    (h1 : 1 ≤ val_idx) (h64 : val_idx < 18446744073709551616) :
    (0 < p.types.length → p.types.length < val_idx →
      p.ResetResultValueEntry ops val_idx value =
        .error (.out_of_range .types (val_idx - 1) p.types.length)) ∧
    ((∃ v i n, p.ResetResultValueEntry ops val_idx value = .error (.out_of_range v i n)) ↔
      (0 < p.types.length ∧ p.types.length < val_idx) ∨
      (0 < p.plan.types.length ∧ p.plan.types.length < val_idx) ∨
      (p.plan.is_projection = true ∧ 0 < p.plan.select_list.length ∧
        p.plan.select_list.length < val_idx)) ∧
    (∀ v i n, p.ResetResultValueEntry ops val_idx value = .error (.out_of_range v i n) →
      i = val_idx - 1 ∧ n ≤ i) ∧
    (∀ p', p.ResetResultValueEntry ops val_idx value = .ok p' →
      p'.types = (if p.types.length = val_idx then p.types.set (val_idx - 1) (ops.type value)
        else p.types) ∧
      p'.plan.types = (if p.plan.types.length = val_idx then
          p.plan.types.set (val_idx - 1) (ops.type value)
        else p.plan.types) ∧
      p'.plan.select_list = (if p.plan.is_projection = true ∧ p.plan.select_list.length = val_idx
        then p.plan.select_list.set (val_idx - 1) (ops.type value) else p.plan.select_list)) := by
  rw [PreparedStatementData.ResetResultValueEntry_eq ops p val_idx value targets hfind hne h1 h64]
  rcases IndexedVector.guarded_store_cases .types p.types val_idx (ops.type value) h1 with
    ⟨a, ea⟩ | ⟨a, ea⟩ <;>
  rcases IndexedVector.guarded_store_cases .plan_types p.plan.types val_idx (ops.type value) h1 with
    ⟨b, eb⟩ | ⟨b, eb⟩ <;>
  rcases IndexedVector.guarded_store_cases .select_list p.plan.select_list val_idx (ops.type value)
    h1 with ⟨c, ec⟩ | ⟨c, ec⟩ <;>
  by_cases c0 : p.plan.is_projection = true <;>
  simp only [ea, eb, ec, c0, if_true, if_false, Bool.false_eq_true] <;>
  refine ⟨?_, ?_, ?_, ?_⟩ <;>
  simp [bind, Except.bind, a, b, c] <;>
  omega

end ClaimsPrepared


section BindLemmas

variable {Value LogicalType : Type}

theorem PreparedStatementData.cannot_bind_congr (ops : ValueOps Value LogicalType)
    {m m' : List (Nat × List Value)} {index : Nat} (value : Value)
    (h : List.lookup index m' = List.lookup index m) :
    PreparedStatementData.cannot_bind ops m' index value ↔
      PreparedStatementData.cannot_bind ops m index value := by
  unfold PreparedStatementData.cannot_bind
  rw [h]

/-- The loop of `Bind` from the index `i` on the targets `m`: the keys outside
`i+1 .. i+values.size()` are not touched; when the loop ends without exception every parameter is
bound; when it throws, it throws for the first value that cannot be bound, the parameters before
it are bound and those from it on are not touched. -/
theorem PreparedStatementData.Bind_loop_spec (ops : ValueOps Value LogicalType) :
    ∀ (values : List Value) (i : Nat) (m : List (Nat × List Value)),
      (∀ key, key ≤ i ∨ i + values.length < key →
        List.lookup key (PreparedStatementData.Bind.loop ops values i m).value_map =
          List.lookup key m) ∧
      ((PreparedStatementData.Bind.loop ops values i m).thrown = none →
        ∀ j, j < values.length → PreparedStatementData.bound_to ops m
          (PreparedStatementData.Bind.loop ops values i m).value_map (i + j + 1) values[j]?) ∧
      (∀ e, (PreparedStatementData.Bind.loop ops values i m).thrown = some e →
        ∃ j v, j < values.length ∧ values[j]? = some v ∧
          PreparedStatementData.cannot_bind ops m (i + j + 1) v ∧
          (e = .parameter_not_found (i + j + 1) ∨ e = .no_value_found (i + j + 1) ∨
            e = .type_mismatch (i + j + 1)) ∧
          (∀ j', j' < j → PreparedStatementData.bound_to ops m
            (PreparedStatementData.Bind.loop ops values i m).value_map (i + j' + 1) values[j']?) ∧
          (∀ key, i + j < key →
            List.lookup key (PreparedStatementData.Bind.loop ops values i m).value_map =
              List.lookup key m)) ∧
      ((∃ j v, j < values.length ∧ values[j]? = some v ∧
          PreparedStatementData.cannot_bind ops m (i + j + 1) v) →
        (PreparedStatementData.Bind.loop ops values i m).thrown ≠ none) := by
  intro values
  induction values with
  | nil =>
    intro i m
    refine ⟨fun _ _ => rfl, fun _ j hj => absurd hj (Nat.not_lt_zero _), ?_, ?_⟩
    · intro e he
      simp [PreparedStatementData.Bind.loop] at he
    · rintro ⟨j, v, hj, -⟩
      exact absurd hj (Nat.not_lt_zero _)
  | cons value values ih =>
    intro i m
    unfold PreparedStatementData.Bind.loop
    cases hl : List.lookup (i + 1) m with
    | none =>
      simp only
      refine ⟨by simp, fun h => by simp at h, ?_, fun _ => by simp⟩
      intro e he
      simp only [Option.some.injEq] at he
      refine ⟨0, value, by simp, by simp, Or.inl hl, Or.inl he.symm,
        fun j' hj' => absurd hj' (Nat.not_lt_zero _), by simp⟩
    | some targets =>
      cases targets with
      | nil =>
        simp only
        refine ⟨by simp, fun h => by simp at h, ?_, fun _ => by simp⟩
        intro e he
        simp only [Option.some.injEq] at he
        refine ⟨0, value, by simp, by simp, Or.inr (Or.inl hl), Or.inr (Or.inl he.symm),
          fun j' hj' => absurd hj' (Nat.not_lt_zero _), by simp⟩
      | cons first rest =>
        simp only
        cases hc : ops.TryCastAs value (ops.type first) with
        | none =>
          simp only
          refine ⟨by simp, fun h => by simp at h, ?_, fun _ => by simp⟩
          intro e he
          simp only [Option.some.injEq] at he
          refine ⟨0, value, by simp, by simp, Or.inr (Or.inr ⟨first, rest, hl, hc⟩),
            Or.inr (Or.inr he.symm), fun j' hj' => absurd hj' (Nat.not_lt_zero _), by simp⟩
        | some cast =>
          simp only
          obtain ⟨ih1, ih2, ih3, ih4⟩ := ih (i + 1)
            (PreparedStatementData.assign_targets m (i + 1) cast)
          have hne : ∀ key, key ≠ i + 1 →
              List.lookup key (PreparedStatementData.assign_targets m (i + 1) cast) =
                List.lookup key m :=
            fun key hk => PreparedStatementData.lookup_assign_targets_ne m (i + 1) key cast hk
          have hfirst : PreparedStatementData.bound_to ops m
              (PreparedStatementData.Bind.loop ops values (i + 1)
                (PreparedStatementData.assign_targets m (i + 1) cast)).value_map (i + 0 + 1)
              (value :: values)[0]? := by
            refine ⟨value, first, rest, cast, by simp, hl, hc, ?_⟩
            rw [ih1 (i + 0 + 1) (Or.inl (le_refl _)),
              PreparedStatementData.lookup_assign_targets_eq, hl]
            rfl
          have hlater : ∀ j, PreparedStatementData.bound_to ops
              (PreparedStatementData.assign_targets m (i + 1) cast)
              (PreparedStatementData.Bind.loop ops values (i + 1)
                (PreparedStatementData.assign_targets m (i + 1) cast)).value_map (i + 1 + j + 1)
              values[j]? →
              PreparedStatementData.bound_to ops m
              (PreparedStatementData.Bind.loop ops values (i + 1)
                (PreparedStatementData.assign_targets m (i + 1) cast)).value_map (i + (j + 1) + 1)
              (value :: values)[j + 1]? := by
            rintro j ⟨v, f, r, c, h1, h2, h3, h4⟩
            have e : i + (j + 1) + 1 = i + 1 + j + 1 := by omega
            rw [e]
            refine ⟨v, f, r, c, by simpa using h1, ?_, h3, h4⟩
            rw [← hne _ (by omega)]
            exact h2
          refine ⟨?_, ?_, ?_, ?_⟩
          · intro key hkey
            simp only [List.length_cons] at hkey
            rw [ih1 key (by omega), hne key (by omega)]
          · intro hnone j hj
            cases j with
            | zero => exact hfirst
            | succ j =>
              simp only [List.length_cons] at hj
              exact hlater j (ih2 hnone j (by omega))
          · intro e he
            obtain ⟨j, v, hj, hv, hcb, hee, hb, hk⟩ := ih3 e he
            have e1 : i + (j + 1) + 1 = i + 1 + j + 1 := by omega
            refine ⟨j + 1, v, by simp only [List.length_cons]; omega, by simpa using hv, ?_, ?_, ?_, ?_⟩
            · rw [e1]
              exact (PreparedStatementData.cannot_bind_congr ops v (hne _ (by omega))).mp hcb
            · rw [e1]
              exact hee
            · intro j' hj'
              cases j' with
              | zero => exact hfirst
              | succ j' => exact hlater j' (hb j' (by omega))
            · intro key hkey
              rw [hk key (by omega), hne key (by omega)]
          · rintro ⟨j, v, hj, hv, hcb⟩
            cases j with
            | zero =>
              exfalso
              simp only [List.getElem?_cons_zero, Option.some.injEq] at hv
              subst hv
              rcases hcb with h | h | ⟨f, r, h, h'⟩
              · simp [hl] at h
              · simp [hl] at h
              · simp only [Nat.add_zero, hl, Option.some.injEq, List.cons.injEq] at h
                rw [← h.1, hc] at h'
                simp at h'
            | succ j =>
              apply ih4
              have e1 : i + (j + 1) + 1 = i + 1 + j + 1 := by omega
              rw [e1] at hcb
              simp only [List.length_cons] at hj
              exact ⟨j, v, by omega, by simpa using hv,
                (PreparedStatementData.cannot_bind_congr ops v (hne _ (by omega))).mpr hcb⟩

end BindLemmas


section ClaimsBind

variable {Value LogicalType : Type}

/-- Witness of the failure of claim C17: in a statement with one result column, the reset of
parameter 2 (present in `value_map`, with a target) takes `types[1]` of a vector of one
element. -/
theorem PreparedStatementData.ResetResultValueEntry_out_of_range_witness :
    (List.lookup 2 test_prepared_one_column.value_map = some [(2, 20)] ∧
      [((2 : Nat), (20 : Nat))] ≠ [] ∧ 1 ≤ 2 ∧ 2 < 18446744073709551616 ∧
      0 < test_prepared_one_column.types.length ∧ test_prepared_one_column.types.length < 2) ∧
    test_prepared_one_column.ResetResultValueEntry test_value_ops 2 (3, 7) =
      .error (.out_of_range .types 1 1) :=
  ⟨⟨rfl, by decide, by decide, by decide, by decide, by decide⟩,
    (PreparedStatementData.ResetResultValueEntry_out_of_range test_value_ops
      test_prepared_one_column 2 (3, 7) [(2, 20)] rfl (by decide) (by decide) (by decide)).1
      (by decide) (by decide)⟩

/-- Claim C18, as stated, fails in its last part: with two parameters of which the second has
no target, `Bind` of two values throws "No value found for parameter with index 2" after it has
assigned the target of parameter 1. -/
theorem PreparedStatementData.Bind_throws_counterexample :
    [((1 : Nat), (5 : Nat)), (2, 6)].length = test_prepared_no_target.value_map.length ∧
    (test_prepared_no_target.Bind test_value_ops [(1, 5), (2, 6)]).thrown =
      some (.no_value_found 2) ∧
    List.lookup 1 test_prepared_no_target.value_map = some [(1, 10)] ∧
    List.lookup 1 (test_prepared_no_target.Bind test_value_ops [(1, 5), (2, 6)]).value_map =
      some [(1, 5)] := by
  decide

/-- Claim C18, amended: `Bind(values)` throws (a `BinderException`) if and only if
`values.size() != value_map.size()`, or some index `i+1` is missing from `value_map` or maps to
an empty target list, or `values[i]` cannot be cast to the type of the first target of parameter
`i+1`; when it does not throw, every target of every parameter `i+1` holds `values[i]` cast to
that type; when it throws for the count, no target has been modified; when it throws for the
parameter `i+1`, the first that cannot be bound, every target of the parameters `1 .. i` holds
its cast value and no other target has been modified. -/
theorem PreparedStatementData.Bind_throws_iff (ops : ValueOps Value LogicalType)
    (p : PreparedStatementData Value LogicalType) (values : List Value) :
    ((p.Bind ops values).thrown ≠ none ↔
      values.length ≠ p.value_map.length ∨
      ∃ i v, i < values.length ∧ values[i]? = some v ∧
        PreparedStatementData.cannot_bind ops p.value_map (i + 1) v) ∧
    ((p.Bind ops values).thrown = none →
      ∀ i, i < values.length →
        PreparedStatementData.bound_to ops p.value_map (p.Bind ops values).value_map (i + 1)
          values[i]?) ∧
    (values.length ≠ p.value_map.length →
      (p.Bind ops values).thrown = some (.count_mismatch p.value_map.length values.length) ∧
      (p.Bind ops values).value_map = p.value_map) ∧
    (∀ e, (p.Bind ops values).thrown = some e → values.length = p.value_map.length →
      ∃ i v, i < values.length ∧ values[i]? = some v ∧
        PreparedStatementData.cannot_bind ops p.value_map (i + 1) v ∧
        (e = .parameter_not_found (i + 1) ∨ e = .no_value_found (i + 1) ∨
          e = .type_mismatch (i + 1)) ∧
        (∀ j, j < i → PreparedStatementData.bound_to ops p.value_map
          (p.Bind ops values).value_map (j + 1) values[j]?) ∧
        (∀ key, key = 0 ∨ i < key →
          List.lookup key (p.Bind ops values).value_map = List.lookup key p.value_map)) := by
  obtain ⟨l1, l2, l3, l4⟩ := PreparedStatementData.Bind_loop_spec ops values 0 p.value_map
  simp only [Nat.zero_add] at l1 l2 l3 l4
  unfold PreparedStatementData.Bind
  by_cases hlen : values.length ≠ p.value_map.length
  · rw [if_pos hlen]
    refine ⟨?_, ?_, fun _ => ⟨rfl, rfl⟩, ?_⟩
    · simp [hlen]
    · intro h
      simp at h
    · intro e _ h
      exact absurd h hlen
  · rw [if_neg hlen]
    refine ⟨?_, l2, fun h => absurd h hlen, ?_⟩
    · constructor
      · intro h
        right
        cases ht : (PreparedStatementData.Bind.loop ops values 0 p.value_map).thrown with
        | none => exact absurd ht h
        | some e =>
          obtain ⟨i, v, hi, hv, hcb, -⟩ := l3 e ht
          exact ⟨i, v, hi, hv, hcb⟩
      · rintro (h | h)
        · exact absurd h hlen
        · exact l4 h
    · intro e he _
      obtain ⟨i, v, hi, hv, hcb, hee, hb, hk⟩ := l3 e he
      refine ⟨i, v, hi, hv, hcb, hee, hb, ?_⟩
      intro key hkey
      rcases hkey with h0 | h0
      · exact l1 key (Or.inl (by omega))
      · exact hk key h0

/-- Witness of the amended claim C18: two values are bound to the two parameters of the test
statement; the second, of type 3, is cast to the type 2 of its first target and stored to both
targets. -/
theorem PreparedStatementData.Bind_throws_iff_witness :
    ((test_prepared.Bind test_value_ops [(1, 5), (3, 6)]).thrown = none ∧
      1 < [((1 : Nat), (5 : Nat)), (3, 6)].length) ∧
    PreparedStatementData.bound_to test_value_ops test_prepared.value_map
      (test_prepared.Bind test_value_ops [(1, 5), (3, 6)]).value_map (1 + 1)
      [((1 : Nat), (5 : Nat)), (3, 6)][1]? ∧
    List.lookup 2 (test_prepared.Bind test_value_ops [(1, 5), (3, 6)]).value_map =
      some [(2, 6), (2, 6)] :=
  ⟨⟨by decide, by decide⟩,
    (PreparedStatementData.Bind_throws_iff test_value_ops test_prepared [(1, 5), (3, 6)]).2.1
      (by decide) 1 (by decide),
    by decide⟩

end ClaimsBind

/-! # Mark join: lemmas and claims -/

section MarkJoinLemmas

variable {α : Type}

/-- The inner loop of `mark_join_templated` for one left position. -/
theorem mark_join_templated_inner (Operation : ComparisonOperator → ElementType → α → α → Bool)
    (T : ElementType) (OP : ComparisonOperator) (left right : Vector α) (left_position : Nat) :
    ∀ (rs : List Nat) (found_match : Nat → Bool) (p : Nat),
      (rs.foldl (fun found_match right_position =>
        if Operation OP T (left.data T left_position) (right.data T right_position) then
          Function.update found_match left_position true
        else found_match) found_match) p = true ↔
      found_match p = true ∨ (p = left_position ∧ ∃ right_position ∈ rs,
        Operation OP T (left.data T left_position) (right.data T right_position) = true) := by
  intro rs
  induction rs with
  | nil => intro found_match p; simp
  | cons r rs ih =>
    intro found_match p
    rw [List.foldl_cons, ih]
    by_cases hop : Operation OP T (left.data T left_position) (right.data T r) = true
    · rw [if_pos hop]
      by_cases hp : p = left_position
      · subst hp
        simp [hop]
      · simp [Function.update_noteq hp, hp]
    · rw [if_neg hop]
      simp [hop]

/-- The array `found_match` after `mark_join_templated`: an entry is true iff it was true, or
its position is a left position for which the operator holds with some right position. -/
theorem mark_join_templated_spec (Operation : ComparisonOperator → ElementType → α → α → Bool)
    (T : ElementType) (OP : ComparisonOperator) (left right : Vector α)
    (found_match : Nat → Bool) (p : Nat) :
    mark_join_templated Operation T OP left right found_match p = true ↔
      found_match p = true ∨ (p ∈ left.positions ∧ ∃ right_position ∈ right.positions,
        Operation OP T (left.data T p) (right.data T right_position) = true) := by
  unfold mark_join_templated
  generalize left.positions = ls
  induction ls generalizing found_match with
  | nil => simp
  | cons l ls ih =>
    rw [List.foldl_cons, ih, mark_join_templated_inner]
    constructor
    · rintro ((h | ⟨rfl, h⟩) | ⟨h1, h2⟩)
      · exact Or.inl h
      · exact Or.inr ⟨List.mem_cons_self _ _, h⟩
      · exact Or.inr ⟨List.mem_cons_of_mem _ h1, h2⟩
    · rintro (h | ⟨h1, h2⟩)
      · exact Or.inl (Or.inl h)
      · rcases List.mem_cons.mp h1 with rfl | h1
        · exact Or.inl (Or.inr ⟨rfl, h2⟩)
        · exact Or.inr ⟨h1, h2⟩


/-- The function `mark_join` by the operator and the element type its two switches choose. -/
theorem mark_join_eq (Operation : ComparisonOperator → ElementType → α → α → Bool)
    (left right : Vector α) (found_match : Nat → Bool) (comparison_type : ExpressionType) :
    mark_join Operation left right found_match comparison_type =
      (decide (left.type = right.type),
        match comparison_type.comparison_operator, left.type.element_type with
        | none, _ => .error .unimplemented_comparison_type
        | some _, none => .error .unimplemented_type
        | some OP, some T => .ok (mark_join_templated Operation T OP left right found_match)) := by
  obtain ⟨type, data, positions⟩ := left
  cases comparison_type <;> cases type <;> rfl

end MarkJoinLemmas


section PerformLemmas

variable {α : Type}

/-- The loop over the conditions for one right chunk.  The ghost list only grows; entries only
go from false to true, and only at positions of the left columns; when every asserted condition
holds, a new true entry has a match; the loop ends by returning with every asserted condition
holding iff they held before and every condition can be evaluated; and when it returns every
match is marked. -/
theorem NestedLoopJoinMark.Perform.conditions_loop_spec
    (Operation : ComparisonOperator → ElementType → α → α → Bool)
    (left right_chunk : DataChunk α) :
    ∀ (conditions : List JoinCondition) (i : Nat) (found_match : Nat → Bool)
      (assertions : List Bool),
      (∀ b ∈ assertions,
        b ∈ (NestedLoopJoinMark.Perform.conditions_loop Operation left right_chunk conditions i
          found_match assertions).assertions) ∧
      (∀ p, found_match p = true →
        (NestedLoopJoinMark.Perform.conditions_loop Operation left right_chunk conditions i
          found_match assertions).found_match p = true) ∧
      (∀ p, (NestedLoopJoinMark.Perform.conditions_loop Operation left right_chunk conditions i
          found_match assertions).found_match p = true →
        found_match p = true ∨ ∃ (k : Nat) (l : Vector α), left.data[k]? = some l ∧
          p ∈ l.positions) ∧
      ((∀ b ∈ (NestedLoopJoinMark.Perform.conditions_loop Operation left right_chunk conditions i
          found_match assertions).assertions, b = true) →
        ∀ p, (NestedLoopJoinMark.Perform.conditions_loop Operation left right_chunk conditions i
            found_match assertions).found_match p = true →
          found_match p = true ∨ ∃ j c, conditions[j]? = some c ∧
            condition_matches Operation left right_chunk (i + j) c p) ∧
      (((NestedLoopJoinMark.Perform.conditions_loop Operation left right_chunk conditions i
          found_match assertions).outcome = .returned ∧
        ∀ b ∈ (NestedLoopJoinMark.Perform.conditions_loop Operation left right_chunk conditions i
          found_match assertions).assertions, b = true) ↔
        (∀ b ∈ assertions, b = true) ∧
          ∀ j c, conditions[j]? = some c → condition_evaluable left right_chunk (i + j) c) ∧
      ((NestedLoopJoinMark.Perform.conditions_loop Operation left right_chunk conditions i
          found_match assertions).outcome = .returned →
        ∀ p, (∃ j c, conditions[j]? = some c ∧
            condition_matches Operation left right_chunk (i + j) c p) →
          (NestedLoopJoinMark.Perform.conditions_loop Operation left right_chunk conditions i
            found_match assertions).found_match p = true) := by
  intro conditions
  induction conditions with
  | nil =>
    intro i found_match assertions
    refine ⟨fun b h => h, fun p h => h, fun p h => Or.inl h, fun _ p h => Or.inl h, ?_, ?_⟩
    · simp [NestedLoopJoinMark.Perform.conditions_loop]
    · rintro - p ⟨j, c, hc, -⟩
      simp at hc
  | cons c conditions ih =>
    intro i found_match assertions
    unfold NestedLoopJoinMark.Perform.conditions_loop
    have hbad : ∀ (R : PerformResult), R.found_match = found_match → R.outcome ≠ .returned →
        (∀ b ∈ assertions, b ∈ R.assertions) →
        ¬ condition_evaluable left right_chunk (i + 0) c →
        (∀ b ∈ assertions, b ∈ R.assertions) ∧
        (∀ p, found_match p = true → R.found_match p = true) ∧
        (∀ p, R.found_match p = true →
          found_match p = true ∨ ∃ (k : Nat) (l : Vector α), left.data[k]? = some l ∧
            p ∈ l.positions) ∧
        ((∀ b ∈ R.assertions, b = true) → ∀ p, R.found_match p = true →
          found_match p = true ∨ ∃ j c', (c :: conditions)[j]? = some c' ∧
            condition_matches Operation left right_chunk (i + j) c' p) ∧
        ((R.outcome = .returned ∧ ∀ b ∈ R.assertions, b = true) ↔
          (∀ b ∈ assertions, b = true) ∧
            ∀ j c', (c :: conditions)[j]? = some c' →
              condition_evaluable left right_chunk (i + j) c') ∧
        (R.outcome = .returned →
          ∀ p, (∃ j c', (c :: conditions)[j]? = some c' ∧
              condition_matches Operation left right_chunk (i + j) c' p) →
            R.found_match p = true) := by
      intro R h1 h2 ha h3
      refine ⟨ha, fun p h => by rw [h1]; exact h, fun p h => Or.inl (by rw [← h1]; exact h),
        fun _ p h => Or.inl (by rw [← h1]; exact h), ?_, fun h => absurd h h2⟩
      constructor
      · intro h
        exact absurd h.1 h2
      · intro h
        exact absurd (h.2 0 c (by simp)) h3
    cases hl : left.data[i]? with
    | none =>
      apply hbad _ (by cases right_chunk.data[i]? <;> rfl)
        (by cases right_chunk.data[i]? <;> simp)
        (by cases right_chunk.data[i]? <;> exact fun b h => h)
      rintro ⟨-, l, r, T, h, -⟩
      simp [hl] at h
    | some l =>
      cases hr : right_chunk.data[i]? with
      | none =>
        apply hbad _ rfl (by simp) (fun b h => h)
        rintro ⟨-, l', r, T, -, h, -⟩
        simp [hr] at h
      | some r =>
        simp only
        rw [mark_join_eq]
        cases hop : c.comparison.comparison_operator with
        | none =>
          apply hbad _ rfl (by simp) (fun b h => List.mem_append_left _ h)
          rintro ⟨⟨OP, h⟩, -⟩
          simp [hop] at h
        | some OP =>
          cases hT : l.type.element_type with
          | none =>
            apply hbad _ rfl (by simp) (fun b h => List.mem_append_left _ h)
            rintro ⟨-, l', r', T, h, -, -, h'⟩
            simp only [Nat.add_zero, hl, Option.some.injEq] at h
            subst h
            simp [hT] at h'
          | some T =>
            simp only
            obtain ⟨ih0, ih1, ih2, ih3, ih4, ih5⟩ := ih (i + 1)
              (mark_join_templated Operation T OP l r found_match)
              (assertions ++ [decide (l.type = r.type)])
            have hspec := mark_join_templated_spec Operation T OP l r found_match
            have hev0 : l.type = r.type → condition_evaluable left right_chunk (i + 0) c :=
              fun hty => ⟨⟨OP, hop⟩, l, r, T, hl, hr, hty, hT⟩
            have hty0 : condition_evaluable left right_chunk (i + 0) c → l.type = r.type := by
              rintro ⟨-, l', r', T', e1, e2, e3, -⟩
              simp only [Nat.add_zero, hl, Option.some.injEq] at e1
              simp only [Nat.add_zero, hr, Option.some.injEq] at e2
              subst e1 e2
              exact e3
            have hm0 : ∀ p, condition_matches Operation left right_chunk (i + 0) c p →
                (p ∈ l.positions ∧ ∃ right_position ∈ r.positions,
                  Operation OP T (l.data T p) (r.data T right_position) = true) := by
              rintro p ⟨l', r', T', OP', e1, e2, -, e3, e4, h1, h2⟩
              simp only [Nat.add_zero, hl, Option.some.injEq] at e1
              simp only [Nat.add_zero, hr, Option.some.injEq] at e2
              subst e1 e2
              rw [hT] at e3
              rw [hop] at e4
              simp only [Option.some.injEq] at e3 e4
              subst e3 e4
              exact ⟨h1, h2⟩
            have hshift : ∀ j, i + 1 + j = i + (j + 1) := fun j => by omega
            have hall : ∀ (P : Bool → Prop),
                (∀ b ∈ assertions ++ [decide (l.type = r.type)], P b) ↔
                  (∀ b ∈ assertions, P b) ∧ P (decide (l.type = r.type)) := by
              intro P
              simp only [List.mem_append, List.mem_singleton]
              constructor
              · intro h
                exact ⟨fun b hb => h b (Or.inl hb), h _ (Or.inr rfl)⟩
              · rintro ⟨h1, h2⟩ b (hb | rfl)
                · exact h1 b hb
                · exact h2
            refine ⟨?_, ?_, ?_, ?_, ?_, ?_⟩
            · intro b hb
              exact ih0 b (List.mem_append_left _ hb)
            · intro p hp
              exact ih1 p ((hspec p).mpr (Or.inl hp))
            · intro p hp
              rcases ih2 p hp with h | h
              · rcases (hspec p).mp h with h | h
                · exact Or.inl h
                · exact Or.inr ⟨i, l, hl, h.1⟩
              · exact Or.inr h
            · intro hass p hp
              have hty : l.type = r.type := by
                have := hass _ (ih0 _ (List.mem_append_right _ (List.mem_singleton.mpr rfl)))
                simpa using this
              rcases ih3 hass p hp with h | ⟨j, c', hc', hm⟩
              · rcases (hspec p).mp h with h | h
                · exact Or.inl h
                · exact Or.inr ⟨0, c, by simp,
                    ⟨l, r, T, OP, hl, hr, hty, hT, hop, h.1, h.2⟩⟩
              · rw [hshift] at hm
                exact Or.inr ⟨j + 1, c', by simpa using hc', hm⟩
            · rw [ih4, hall (fun b => b = true)]
              constructor
              · rintro ⟨⟨ha, hty⟩, h⟩
                refine ⟨ha, ?_⟩
                intro j c' hc'
                cases j with
                | zero =>
                  simp only [List.getElem?_cons_zero, Option.some.injEq] at hc'
                  subst hc'
                  exact hev0 (by simpa using hty)
                | succ j =>
                  rw [← hshift]
                  exact h j c' (by simpa using hc')
              · rintro ⟨ha, h⟩
                refine ⟨⟨ha, ?_⟩, ?_⟩
                · simpa using hty0 (h 0 c (by simp))
                · intro j c' hc'
                  rw [hshift]
                  exact h (j + 1) c' (by simpa using hc')
            · intro hret p hp
              obtain ⟨j, c', hc', hm⟩ := hp
              cases j with
              | zero =>
                simp only [List.getElem?_cons_zero, Option.some.injEq] at hc'
                subst hc'
                exact ih1 p ((hspec p).mpr (Or.inr (hm0 p hm)))
              | succ j =>
                rw [← hshift] at hm
                exact ih5 hret p ⟨j, c', by simpa using hc', hm⟩

end PerformLemmas


section PerformChunks

variable {α : Type}

/-- The loop over the right chunks.  The ghost list only grows; entries only go from false to
true, and only at positions of the left columns; when every asserted condition holds, a new true
entry has a match; the loop ends by returning with every asserted condition holding iff they
held before and every condition can be evaluated on every chunk; and when it returns every
match is marked. -/
theorem NestedLoopJoinMark.Perform.chunks_loop_spec
    (Operation : ComparisonOperator → ElementType → α → α → Bool)
    (left : DataChunk α) (conditions : List JoinCondition) :
    ∀ (chunks : List (DataChunk α)) (found_match : Nat → Bool) (assertions : List Bool),
      (∀ b ∈ assertions,
        b ∈ (NestedLoopJoinMark.Perform.chunks_loop Operation left conditions chunks
          found_match assertions).assertions) ∧
      (∀ p, found_match p = true →
        (NestedLoopJoinMark.Perform.chunks_loop Operation left conditions chunks
          found_match assertions).found_match p = true) ∧
      (∀ p, (NestedLoopJoinMark.Perform.chunks_loop Operation left conditions chunks
          found_match assertions).found_match p = true →
        found_match p = true ∨ ∃ (k : Nat) (l : Vector α), left.data[k]? = some l ∧
          p ∈ l.positions) ∧
      ((∀ b ∈ (NestedLoopJoinMark.Perform.chunks_loop Operation left conditions chunks
          found_match assertions).assertions, b = true) →
        ∀ p, (NestedLoopJoinMark.Perform.chunks_loop Operation left conditions chunks
            found_match assertions).found_match p = true →
          found_match p = true ∨ ∃ right_chunk ∈ chunks, ∃ j c, conditions[j]? = some c ∧
            condition_matches Operation left right_chunk j c p) ∧
      (((NestedLoopJoinMark.Perform.chunks_loop Operation left conditions chunks
          found_match assertions).outcome = .returned ∧
        ∀ b ∈ (NestedLoopJoinMark.Perform.chunks_loop Operation left conditions chunks
          found_match assertions).assertions, b = true) ↔
        (∀ b ∈ assertions, b = true) ∧
          ∀ right_chunk ∈ chunks, ∀ j c, conditions[j]? = some c →
            condition_evaluable left right_chunk j c) ∧
      ((NestedLoopJoinMark.Perform.chunks_loop Operation left conditions chunks
          found_match assertions).outcome = .returned →
        ∀ p, (∃ right_chunk ∈ chunks, ∃ j c, conditions[j]? = some c ∧
            condition_matches Operation left right_chunk j c p) →
          (NestedLoopJoinMark.Perform.chunks_loop Operation left conditions chunks
            found_match assertions).found_match p = true) := by
  intro chunks
  induction chunks with
  | nil =>
    intro found_match assertions
    refine ⟨fun b h => h, fun p h => h, fun p h => Or.inl h, fun _ p h => Or.inl h, ?_, ?_⟩
    · simp [NestedLoopJoinMark.Perform.chunks_loop]
    · rintro - p ⟨chunk, hc, -⟩
      simp at hc
  | cons chunk chunks ih =>
    intro found_match assertions
    obtain ⟨c0, c1, c2, c3, c4, c5⟩ := NestedLoopJoinMark.Perform.conditions_loop_spec Operation
      left chunk conditions 0 found_match assertions
    simp only [Nat.zero_add] at c3 c4 c5
    unfold NestedLoopJoinMark.Perform.chunks_loop
    cases hR : NestedLoopJoinMark.Perform.conditions_loop Operation left chunk conditions 0
      found_match assertions with
    | mk fm1 o1 as1 =>
      rw [hR] at c0 c1 c2 c3 c4 c5
      simp only at c0 c1 c2 c3 c4 c5
      have hstop : o1 ≠ .returned →
          (∀ b ∈ assertions, b ∈ as1) ∧
          (∀ p, found_match p = true → fm1 p = true) ∧
          (∀ p, fm1 p = true →
            found_match p = true ∨ ∃ (k : Nat) (l : Vector α), left.data[k]? = some l ∧
              p ∈ l.positions) ∧
          ((∀ b ∈ as1, b = true) → ∀ p, fm1 p = true →
            found_match p = true ∨ ∃ right_chunk ∈ chunk :: chunks, ∃ j c,
              conditions[j]? = some c ∧ condition_matches Operation left right_chunk j c p) ∧
          ((o1 = .returned ∧ ∀ b ∈ as1, b = true) ↔
            (∀ b ∈ assertions, b = true) ∧
              ∀ right_chunk ∈ chunk :: chunks, ∀ j c, conditions[j]? = some c →
                condition_evaluable left right_chunk j c) ∧
          (o1 = .returned →
            ∀ p, (∃ right_chunk ∈ chunk :: chunks, ∃ j c, conditions[j]? = some c ∧
                condition_matches Operation left right_chunk j c p) → fm1 p = true) := by
        intro ho
        refine ⟨c0, c1, c2, ?_, ?_, fun h => absurd h ho⟩
        · intro hass p hp
          rcases c3 hass p hp with h | ⟨j, c, hc, hm⟩
          · exact Or.inl h
          · exact Or.inr ⟨chunk, List.mem_cons_self _ _, j, c, hc, hm⟩
        · constructor
          · intro h
            exact absurd h.1 ho
          · intro h
            exact absurd (c4.mpr ⟨h.1, h.2 chunk (List.mem_cons_self _ _)⟩).1 ho
      cases o1 with
      | throws e => exact hstop (by simp)
      | column_out_of_range => exact hstop (by simp)
      | returned =>
        simp only
        obtain ⟨i0, i1, i2, i3, i4, i5⟩ := ih fm1 as1
        refine ⟨fun b hb => i0 b (c0 b hb), fun p hp => i1 p (c1 p hp), ?_, ?_, ?_, ?_⟩
        · intro p hp
          rcases i2 p hp with h | h
          · exact c2 p h
          · exact Or.inr h
        · intro hass p hp
          rcases i3 hass p hp with h | ⟨rc, hrc, j, c, hc, hm⟩
          · rcases c3 (fun b hb => hass b (i0 b hb)) p h with h | ⟨j, c, hc, hm⟩
            · exact Or.inl h
            · exact Or.inr ⟨chunk, List.mem_cons_self _ _, j, c, hc, hm⟩
          · exact Or.inr ⟨rc, List.mem_cons_of_mem _ hrc, j, c, hc, hm⟩
        · rw [i4]
          constructor
          · rintro ⟨has1, h⟩
            obtain ⟨ha, hev⟩ := c4.mp ⟨rfl, has1⟩
            refine ⟨ha, ?_⟩
            intro rc hrc
            rcases List.mem_cons.mp hrc with rfl | hrc
            · exact hev
            · exact h rc hrc
          · rintro ⟨ha, h⟩
            exact ⟨(c4.mpr ⟨ha, h chunk (List.mem_cons_self _ _)⟩).2,
              fun rc hrc => h rc (List.mem_cons_of_mem _ hrc)⟩
        · intro hret p hp
          obtain ⟨rc, hrc, j, c, hc, hm⟩ := hp
          rcases List.mem_cons.mp hrc with rfl | hrc
          · exact i1 p (c5 rfl p ⟨j, c, hc, hm⟩)
          · exact i5 hret p ⟨rc, hrc, j, c, hc, hm⟩

end PerformChunks

section ClaimsMarkJoin

variable {α : Type}

/-- Claim C19, as stated, fails: with one condition `COMPARE_EQUAL` on two columns of the same
type, whose tag is left to the `default` branch of `mark_join_operator`, the assertion of
`mark_join` holds, `Perform` throws `NotImplementedException` and leaves `found_match[0]` false,
although the left element at position 0 equals the right element at position 0 (whatever
element type they are read as) and the entry was not true before. -/
theorem NestedLoopJoinMark.Perform_marks_counterexample :
    (NestedLoopJoinMark.Perform test_Operation (test_chunk (.other 0) [5])
      ⟨[test_chunk (.other 0) [5]]⟩ (fun _ => false) [⟨.COMPARE_EQUAL⟩]).outcome =
        .throws .unimplemented_type ∧
    (NestedLoopJoinMark.Perform test_Operation (test_chunk (.other 0) [5])
      ⟨[test_chunk (.other 0) [5]]⟩ (fun _ => false) [⟨.COMPARE_EQUAL⟩]).assertions = [true] ∧
    (NestedLoopJoinMark.Perform test_Operation (test_chunk (.other 0) [5])
      ⟨[test_chunk (.other 0) [5]]⟩ (fun _ => false) [⟨.COMPARE_EQUAL⟩]).found_match 0 = false ∧
    (∃ l r, (test_chunk (.other 0) [5]).data[0]? = some l ∧
      (test_chunk (.other 0) [5]).data[0]? = some r ∧ l.type = r.type ∧
      0 ∈ l.positions ∧ 0 ∈ r.positions ∧
      ∀ T, test_Operation .Equals T (l.data T 0) (r.data T 0) = true) := by
  refine ⟨by decide, by decide, by decide, _, _, rfl, rfl, rfl, by decide, by decide, ?_⟩
  intro T
  cases T <;> decide

/-- Claim C19, amended.  `Perform` returns with the assertion `left.type == right.type` of
`mark_join` holding at every call iff every condition can be evaluated on every right chunk
(the columns exist and have the same type, the comparison type is one of the six that
`mark_join` names and the type one of the ten that `mark_join_operator` names); then for every
position `p` the entry `found_match[p]` is true iff it was true before or there are a right
chunk, a condition index `i` and a right position `r` of that chunk for which `p` is a left
position and `OP_i(left.data[i][p], right_chunk.data[i][r])` is true.  Whether `Perform`
returns or not: no entry goes from true to false, no entry outside the positions of the left
vectors is touched, and, as long as no assertion has failed, an entry that becomes true has such
a match. -/
theorem NestedLoopJoinMark.Perform_marks
    (Operation : ComparisonOperator → ElementType → α → α → Bool)
    (left : DataChunk α) (right : ChunkCollection α) (found_match : Nat → Bool)
    (conditions : List JoinCondition) :
    (((NestedLoopJoinMark.Perform Operation left right found_match conditions).outcome = .returned ∧
        ∀ b ∈ (NestedLoopJoinMark.Perform Operation left right found_match conditions).assertions,
          b = true) ↔
      ∀ right_chunk ∈ right.chunks, ∀ i c, conditions[i]? = some c →
        condition_evaluable left right_chunk i c) ∧
    ((∀ right_chunk ∈ right.chunks, ∀ i c, conditions[i]? = some c →
        condition_evaluable left right_chunk i c) →
      ∀ p, (NestedLoopJoinMark.Perform Operation left right found_match conditions).found_match p
          = true ↔
        found_match p = true ∨ ∃ right_chunk ∈ right.chunks, ∃ i c, conditions[i]? = some c ∧
          condition_matches Operation left right_chunk i c p) ∧
    (∀ p, found_match p = true →
      (NestedLoopJoinMark.Perform Operation left right found_match conditions).found_match p
        = true) ∧
    (∀ p, (∀ (i : Nat) (l : Vector α), left.data[i]? = some l → p ∉ l.positions) →
      (NestedLoopJoinMark.Perform Operation left right found_match conditions).found_match p
        = found_match p) ∧
    ((∀ b ∈ (NestedLoopJoinMark.Perform Operation left right found_match conditions).assertions,
        b = true) →
      ∀ p, (NestedLoopJoinMark.Perform Operation left right found_match conditions).found_match p
          = true →
        found_match p = true ∨ ∃ right_chunk ∈ right.chunks, ∃ i c, conditions[i]? = some c ∧
          condition_matches Operation left right_chunk i c p) := by
  obtain ⟨-, h1, h2, h3, h4, h5⟩ := NestedLoopJoinMark.Perform.chunks_loop_spec Operation left
    conditions right.chunks found_match []
  unfold NestedLoopJoinMark.Perform
  have h4' : ((NestedLoopJoinMark.Perform.chunks_loop Operation left conditions right.chunks
        found_match []).outcome = .returned ∧
      ∀ b ∈ (NestedLoopJoinMark.Perform.chunks_loop Operation left conditions right.chunks
        found_match []).assertions, b = true) ↔
      ∀ right_chunk ∈ right.chunks, ∀ i c, conditions[i]? = some c →
        condition_evaluable left right_chunk i c := by
    rw [h4]
    simp
  refine ⟨h4', ?_, h1, ?_, h3⟩
  · intro hev p
    obtain ⟨hret, hass⟩ := h4'.mpr hev
    constructor
    · exact h3 hass p
    · rintro (h | h)
      · exact h1 p h
      · exact h5 hret p h
  · intro p hp
    cases hb : found_match p with
    | true => exact h1 p hb
    | false =>
      cases hr : (NestedLoopJoinMark.Perform.chunks_loop Operation left conditions right.chunks
        found_match []).found_match p with
      | false => rfl
      | true =>
        exfalso
        rcases h2 p hr with h | ⟨i, l, hl, hmem⟩
        · rw [hb] at h
          exact Bool.noConfusion h
        · exact hp i l hl hmem

/-- Witness of the amended claim C19.  Three left values against two right chunks under
`COMPARE_EQUAL` on `INTEGER` columns: `Perform` returns, its two assertions hold and it marks
the positions 1 and 2.  An `INTEGER` column against a `BIGINT` column: the condition cannot be
evaluated, and the assertion fails. -/
theorem NestedLoopJoinMark.Perform_marks_witness :
    (∀ right_chunk ∈ [test_chunk .INTEGER [3], test_chunk .INTEGER [2, 7]],
      ∀ i c, [JoinCondition.mk .COMPARE_EQUAL][i]? = some c →
        condition_evaluable (test_chunk .INTEGER [1, 2, 3]) right_chunk i c) ∧
    ((NestedLoopJoinMark.Perform test_Operation (test_chunk .INTEGER [1, 2, 3])
      ⟨[test_chunk .INTEGER [3], test_chunk .INTEGER [2, 7]]⟩ (fun _ => false)
      [⟨.COMPARE_EQUAL⟩]).outcome = .returned ∧
      ∀ b ∈ (NestedLoopJoinMark.Perform test_Operation (test_chunk .INTEGER [1, 2, 3])
        ⟨[test_chunk .INTEGER [3], test_chunk .INTEGER [2, 7]]⟩ (fun _ => false)
        [⟨.COMPARE_EQUAL⟩]).assertions, b = true) ∧
    (NestedLoopJoinMark.Perform test_Operation (test_chunk .INTEGER [1, 2, 3])
      ⟨[test_chunk .INTEGER [3], test_chunk .INTEGER [2, 7]]⟩ (fun _ => false)
      [⟨.COMPARE_EQUAL⟩]).assertions = [true, true] ∧
    (List.range 4).map (NestedLoopJoinMark.Perform test_Operation (test_chunk .INTEGER [1, 2, 3])
      ⟨[test_chunk .INTEGER [3], test_chunk .INTEGER [2, 7]]⟩ (fun _ => false)
      [⟨.COMPARE_EQUAL⟩]).found_match = [false, true, true, false] ∧
    (NestedLoopJoinMark.Perform test_Operation (test_chunk .INTEGER [1])
      ⟨[test_chunk .BIGINT [1]]⟩ (fun _ => false) [⟨.COMPARE_EQUAL⟩]).assertions = [false] ∧
    ¬ (∀ right_chunk ∈ [test_chunk .BIGINT [1]],
      ∀ i c, [JoinCondition.mk .COMPARE_EQUAL][i]? = some c →
        condition_evaluable (test_chunk .INTEGER [1]) right_chunk i c) :=
  have hev : ∀ right_chunk ∈ [test_chunk .INTEGER [3], test_chunk .INTEGER [2, 7]],
      ∀ i c, [JoinCondition.mk .COMPARE_EQUAL][i]? = some c →
        condition_evaluable (test_chunk .INTEGER [1, 2, 3]) right_chunk i c := by
    intro rc hrc i c hc
    cases i with
    | zero =>
      simp only [List.getElem?_cons_zero, Option.some.injEq] at hc
      subst hc
      simp only [List.mem_cons, List.mem_singleton, List.not_mem_nil, or_false] at hrc
      rcases hrc with rfl | rfl
      · exact ⟨⟨_, rfl⟩, _, _, _, rfl, rfl, rfl, rfl⟩
      · exact ⟨⟨_, rfl⟩, _, _, _, rfl, rfl, rfl, rfl⟩
    | succ i => simp at hc
  ⟨hev,
    (NestedLoopJoinMark.Perform_marks test_Operation (test_chunk .INTEGER [1, 2, 3])
      ⟨[test_chunk .INTEGER [3], test_chunk .INTEGER [2, 7]]⟩ (fun _ => false)
      [⟨.COMPARE_EQUAL⟩]).1.mpr hev,
    by decide, by decide, by decide,
    fun h => absurd
      (((NestedLoopJoinMark.Perform_marks test_Operation (test_chunk .INTEGER [1])
        ⟨[test_chunk .BIGINT [1]]⟩ (fun _ => false) [⟨.COMPARE_EQUAL⟩]).1.mpr h).2 false
        (by decide))
      (by decide)⟩

end ClaimsMarkJoin


end duckdb
